import Mathlib

/-! Auction server: wire framing, reliability queue, session registry, bid engine.

A shallow embedding of the C sources of the auction application
(`src/common/protocol_header.h`, `src/common/protocol_helpers.h`,
`src/common/reliability.h`, `src/server/session_mgr.c`, `src/server/server.c`,
`src/server/db_adapter.c`, `src/client/demo_client.c`) together with theorems
about them.

Conventions of the embedding:

* unsigned machine integers are `Nat`, reduced modulo `2 ^ w` where the C code
  can wrap; signed ones (`int`, `int32_t`, `int64_t`, `ssize_t`) are `Int`;
* a byte is a `Nat` below 256; memory images and socket streams are `List Nat`;
* a `char buf[N]` array is the list of its leading bytes, every byte past the
  end of the list being zero (all such buffers are zero-initialised in the
  source, by `= {0}` or by `memset`);
* the byte order of the host is an explicit parameter, since `htons`, `htonl`,
  `ntohl` and `host_to_net64` depend on it;
* calls into the outside world (`time`, `recv`, `send`, `writev`, the SQL
  store) appear as explicit inputs and outputs of the functions.
-/

namespace Auction

/-! ## `protocol_header.h` -/

def BUFF_SIZE : Nat := 2048

def FLAG_REQUIRES_ACK : Nat := 0x0001
def FLAG_IS_ACK : Nat := 0x0002
def FLAG_RETRANSMISSION : Nat := 0x0004
def FLAG_COMPRESSED : Nat := 0x0008
def FLAG_FRAGMENTED : Nat := 0x0010
def FLAG_BROADCAST : Nat := 0x0020
def FLAG_PRIORITY_HIGH : Nat := 0x0040
def FLAG_ENCRYPTED : Nat := 0x0080

/-- The packed `MessageHeader` struct: `uint8_t version`, `uint8_t type`,
`uint16_t flags`, `uint32_t request_id`, `uint64_t timestamp`,
`uint32_t payload_length`. -/
structure MessageHeader where
  version : Nat
  type : Nat
  flags : Nat
  request_id : Nat
  timestamp : Nat
  payload_length : Nat
deriving DecidableEq, Repr

/-- The value of `sizeof(MessageHeader)`: 1 + 1 + 2 + 4 + 8 + 4 bytes, the struct being packed. -/
def HEADER_SIZE : Nat := 20

/-- The `Message` struct: a header and `char payload[BUFF_SIZE]`. -/
structure Message where
  header : MessageHeader
  payload : List Nat
deriving DecidableEq, Repr

/-- The all-zero header, as left by `Message msg = {0}` or `memset(&msg, 0, ...)`. -/
def MessageHeader.zero : MessageHeader :=
  { version := 0, type := 0, flags := 0, request_id := 0, timestamp := 0, payload_length := 0 }

/-- The all-zero message. -/
def Message.zero : Message := { header := MessageHeader.zero, payload := [] }

/-! ## Bytes, byte order and memory images -/

/-- Byte order of the host the code runs on. -/
inductive Endian where
  | little
  | big
deriving DecidableEq, Repr

/-- The `k` low-order bytes of `v`, most significant first. -/
def beBytes : Nat → Nat → List Nat
  | 0, _ => []
  | k + 1, v => (v / 256 ^ k % 256) :: beBytes k v

/-- The number whose big-endian digits are `bs`. -/
def ofBE (bs : List Nat) : Nat := bs.foldl (fun acc b => acc * 256 + b % 256) 0

/-- The bytes a `k`-byte unsigned integer occupies in memory on host `e`. -/
def storeInt (e : Endian) (k v : Nat) : List Nat :=
  match e with
  | Endian.big => beBytes k v
  | Endian.little => (beBytes k v).reverse

/-- The unsigned integer a host `e` reads from the memory bytes `bs`. -/
def loadInt (e : Endian) (bs : List Nat) : Nat :=
  match e with
  | Endian.big => ofBE bs
  | Endian.little => ofBE bs.reverse

/-- Reversal of the `k` bytes of `v` (`__builtin_bswap64` for `k = 8`). -/
def bswap (k v : Nat) : Nat := ofBE (beBytes k v).reverse

/-- The `htons` of the C library: a byte swap on a little-endian host, the identity on a
big-endian one. -/
def htons (e : Endian) (v : Nat) : Nat :=
  match e with
  | Endian.little => bswap 2 v
  | Endian.big => v % 2 ^ 16

/-- The `htonl` of the C library. -/
def htonl (e : Endian) (v : Nat) : Nat :=
  match e with
  | Endian.little => bswap 4 v
  | Endian.big => v % 2 ^ 32

/-- The `ntohl` of the C library (the same function as `htonl`). -/
def ntohl (e : Endian) (v : Nat) : Nat := htonl e v

/-- The `host_to_net64` of `session_mgr.c`: `__builtin_bswap64` when the compiler reports a
little-endian target, the identity otherwise. -/
def host_to_net64 (e : Endian) (v : Nat) : Nat :=
  match e with
  | Endian.little => bswap 8 v
  | Endian.big => v % 2 ^ 64

/-- The `len` bytes at offset `off` of a zero-initialised buffer whose leading bytes are `mem`. -/
def readBytes (mem : List Nat) (off len : Nat) : List Nat :=
  (List.range len).map (fun i => mem.getD (off + i) 0)

/-- The 20 bytes of a `MessageHeader` in the memory of host `e` (what `send` / `writev`
transmit when handed the address of the struct). -/
def headerBytes (e : Endian) (h : MessageHeader) : List Nat :=
  [h.version % 256, h.type % 256] ++ storeInt e 2 h.flags ++ storeInt e 4 h.request_id
    ++ storeInt e 8 h.timestamp ++ storeInt e 4 h.payload_length

/-- The `MessageHeader` that host `e` sees in a zero-initialised `Message` whose leading bytes
are `mem` (what `recv(fd, &msg, ...)` leaves behind after `memset(&msg, 0, sizeof(msg))`). -/
def memHeader (e : Endian) (mem : List Nat) : MessageHeader :=
  { version := mem.getD 0 0 % 256
    type := mem.getD 1 0 % 256
    flags := loadInt e (readBytes mem 2 2)
    request_id := loadInt e (readBytes mem 4 4)
    timestamp := loadInt e (readBytes mem 8 8)
    payload_length := loadInt e (readBytes mem 16 4) }

/-! ## `protocol_helpers.h` -/

/-- The C function `set_flag`: `*flags |= flag`. -/
def set_flag (flags flag : Nat) : Nat := (flags ||| flag) % 2 ^ 16

/-- The C function `clear_flag`: `*flags &= ~flag`. -/
def clear_flag (flags flag : Nat) : Nat := (flags &&& (2 ^ 16 - 1 - flag % 2 ^ 16)) % 2 ^ 16

/-- The C function `is_flag_set`: `(flags & flag) != 0`. -/
def is_flag_set (flags flag : Nat) : Bool := (flags &&& flag) != 0

/-! ## `session_mgr.h` -/

inductive ClientState where
  | STATE_DISCONNECTED
  | STATE_AUTHENTICATED
  | STATE_IN_LOBBY
  | STATE_IN_ROOM
deriving DecidableEq, Repr

/-- The `ClientSession` struct. -/
structure ClientSession where
  sockfd : Int
  user_id : Nat
  username : List Nat
  session_token : List Nat
  current_room_id : Int
  state : ClientState
  last_heartbeat : Nat
deriving DecidableEq, Repr

/-! ## `session_mgr.c`: the encoder -/

/-- The C function `send_to_client` of `session_mgr.c`. A `NULL` pointer is `none`. The result is
the byte string handed to `writev` (header, then payload), or `none` when the function returns
without writing. The function has no other outcome: its C return type is `void`. -/
def send_to_client (e : Endian) (client : Option ClientSession) (msg_host : Option Message) :
    Option (List Nat) :=
  match client, msg_host with
  | some c, some m =>
    if c.sockfd < 0 then none
    else
      let payload_len0 := m.header.payload_length % 2 ^ 32
      let payload_len := if payload_len0 > BUFF_SIZE then BUFF_SIZE else payload_len0
      let net_header : MessageHeader :=
        { version := 1
          type := m.header.type
          flags := htons e m.header.flags
          request_id := htonl e m.header.request_id
          timestamp := host_to_net64 e m.header.timestamp
          payload_length := htonl e payload_len }
      let iov0 := headerBytes e net_header
      let iov1 := if payload_len > 0 then readBytes m.payload 0 payload_len else []
      some (iov0 ++ iov1)
  | _, _ => none

/-! ## `reliability.h` -/

def ACK_TIMEOUT_MS : Nat := 5000
def MAX_RETRIES : Nat := 3
def MAX_PENDING_MESSAGES : Nat := 100

/-- The `PendingMessage` struct. The `int is_active` field only ever holds 0 or 1 and is only
tested for truth, so it is a `Bool`. -/
structure PendingMessage where
  request_id : Nat
  message_type : Nat
  send_time : Nat
  retry_count : Nat
  payload : List Nat
  payload_len : Nat
  is_active : Bool
deriving DecidableEq, Repr

/-- The `PendingQueue` struct: `PendingMessage messages[MAX_PENDING_MESSAGES]` and `int count`
(which the code never makes negative). -/
structure PendingQueue where
  messages : List PendingMessage
  count : Nat
deriving DecidableEq, Repr

/-- An all-zero `PendingMessage`. -/
def PendingMessage.zero : PendingMessage :=
  { request_id := 0, message_type := 0, send_time := 0, retry_count := 0, payload := [],
    payload_len := 0, is_active := false }

/-- Apply `f` to the element at index `i` of a list (an assignment through `&xs[i]`). -/
def modifyAt {α : Type} (f : α → α) : List α → Nat → List α
  | [], _ => []
  | x :: xs, 0 => f x :: xs
  | x :: xs, i + 1 => x :: modifyAt f xs i

/-- The C function `pending_queue_init`, on a queue whose array is `messages`. -/
def pending_queue_init (q : PendingQueue) : PendingQueue :=
  { messages := (q.messages.take MAX_PENDING_MESSAGES).map (fun m => { m with is_active := false })
      ++ q.messages.drop MAX_PENDING_MESSAGES
    count := 0 }

/-- The C function `pending_queue_add`; `now_s` is the value of `time(NULL)`, a `NULL` payload is
`none`. Returns the index or -1, and the queue afterwards. -/
def pending_queue_add (q : PendingQueue) (now_s : Nat) (request_id msg_type : Nat)
    (payload : Option (List Nat)) (len : Nat) : Int × PendingQueue :=
  if q.count ≥ MAX_PENDING_MESSAGES then (-1, q)
  else
    let payload_len := if len > 2048 then 2048 else len
    let fill (pm : PendingMessage) : PendingMessage :=
      { request_id := request_id % 2 ^ 32
        message_type := msg_type % 2 ^ 8
        send_time := now_s * 1000 % 2 ^ 64
        retry_count := 0
        payload_len := payload_len
        payload :=
          match payload with
          | some p => if len > 0 then readBytes p 0 payload_len ++ pm.payload.drop payload_len
                      else pm.payload
          | none => pm.payload
        is_active := true }
    ((q.count : Int), { messages := modifyAt fill q.messages q.count, count := q.count + 1 })

/-- The scan of `pending_queue_find` over the entries from index `i` on. -/
def pending_queue_find_from (request_id : Nat) : List PendingMessage → Nat → Int
  | [], _ => -1
  | m :: ms, i =>
    if m.is_active && m.request_id == request_id then (i : Int)
    else pending_queue_find_from request_id ms (i + 1)

/-- The C function `pending_queue_find`: the first index below `count` holding an active entry
with this request id, or -1. -/
def pending_queue_find (q : PendingQueue) (request_id : Nat) : Int :=
  pending_queue_find_from request_id (q.messages.take q.count) 0

/-- The C function `pending_queue_ack`. -/
def pending_queue_ack (q : PendingQueue) (request_id : Nat) : PendingQueue :=
  let idx := pending_queue_find q request_id
  if idx ≥ 0 then
    { q with messages := modifyAt (fun m => { m with is_active := false }) q.messages idx.toNat }
  else q

/-- The loop of `pending_queue_get_expired` over the remaining entries; `out` is the part of
`request_ids[]` written so far. -/
def pending_queue_get_expired_from (now : Nat) (max_count : Int) :
    List PendingMessage → List Nat → List Nat
  | [], out => out
  | m :: ms, out =>
    if (out.length : Int) < max_count then
      if m.is_active then
        let elapsed := (now % 2 ^ 64 + 2 ^ 64 - m.send_time % 2 ^ 64) % 2 ^ 64
        if elapsed > ACK_TIMEOUT_MS ∧ m.retry_count < MAX_RETRIES then
          pending_queue_get_expired_from now max_count ms (out ++ [m.request_id])
        else pending_queue_get_expired_from now max_count ms out
      else pending_queue_get_expired_from now max_count ms out
    else out

/-- The C function `pending_queue_get_expired`; `now` is `(uint64_t)time(NULL) * 1000`. The result
is the written part of `request_ids[]`; the C return value is its length. -/
def pending_queue_get_expired (q : PendingQueue) (now : Nat) (max_count : Int) : List Nat :=
  pending_queue_get_expired_from now max_count (q.messages.take q.count) []

/-- The C function `pending_queue_increment_retry` (`retry_count` is a `uint8_t`). -/
def pending_queue_increment_retry (q : PendingQueue) (request_id : Nat) : PendingQueue :=
  let idx := pending_queue_find q request_id
  if idx ≥ 0 then
    { q with
      messages :=
        modifyAt (fun m => { m with retry_count := (m.retry_count + 1) % 2 ^ 8 }) q.messages
          idx.toNat }
  else q

/-- The C function `pending_queue_get_retry_count`. -/
def pending_queue_get_retry_count (q : PendingQueue) (request_id : Nat) : Nat :=
  let idx := pending_queue_find q request_id
  if idx ≥ 0 then (q.messages.getD idx.toNat PendingMessage.zero).retry_count else 0

/-- The C function `pending_queue_get_payload`: the stored buffer (or `none` for `NULL`) and the
value written to `*out_len`. -/
def pending_queue_get_payload (q : PendingQueue) (request_id : Nat) : Option (List Nat) × Nat :=
  let idx := pending_queue_find q request_id
  if idx ≥ 0 then
    let pm := q.messages.getD idx.toNat PendingMessage.zero
    (some pm.payload, pm.payload_len)
  else (none, 0)

/-- The C function `pending_queue_cleanup`. -/
def pending_queue_cleanup (q : PendingQueue) : PendingQueue :=
  { q with
    messages :=
      (q.messages.take q.count).map
          (fun m => if m.is_active && decide (m.retry_count ≥ MAX_RETRIES)
                    then { m with is_active := false } else m)
        ++ q.messages.drop q.count }

/-- The C function `create_ack_message`; `now_s` is the value of `time(NULL)`. -/
def create_ack_message (now_s : Nat) (ack_msg : Message) (request_id original_type : Nat) :
    Message :=
  { ack_msg with
    header :=
      { version := 1
        type := original_type % 2 ^ 8
        request_id := request_id % 2 ^ 32
        timestamp := now_s % 2 ^ 64
        payload_length := 0
        flags := set_flag ack_msg.header.flags FLAG_IS_ACK } }

/-- One retransmission sweep at time `now`: `pending_queue_get_expired`, then
`pending_queue_increment_retry` for each id it returned, then `pending_queue_cleanup`. Returns the
ids reported and the queue afterwards. -/
def sweep (q : PendingQueue) (now : Nat) (max_count : Int) : List Nat × PendingQueue :=
  let ids := pending_queue_get_expired q now max_count
  (ids, pending_queue_cleanup (ids.foldl pending_queue_increment_retry q))

/-! ## Sockets -/

/-- The outcome of one `recv` call: its return value and the bytes it stored in the buffer. -/
structure Recv where
  n : Int
  data : List Nat
deriving DecidableEq, Repr

/-- A `recv` of up to `len` bytes from a connection on which exactly the bytes `stream` are still
to arrive before the peer closes: it yields the next bytes (return value 0 at end of stream) and
the rest of the stream. -/
def sock_recv (stream : List Nat) (len : Nat) : Recv × List Nat :=
  ({ n := ((stream.take len).length : Int), data := stream.take len }, stream.drop len)

/-! ## `server.c`: the read loop of `client_thread` -/

/-- What one pass of the read loop does that is visible outside it. -/
inductive Event where
  | ack_sent (frame : List Nat)
  | handled (msg : Message)
deriving DecidableEq, Repr

/-- How a pass of the read loop ends. -/
inductive LoopExit where
  | next
  | disconnected
  | incomplete_payload
deriving DecidableEq, Repr

/-- One pass of the `while (1)` loop of `client_thread`. `hdr` is the outcome of the header
`recv`, `pay len` the outcome of the payload `recv` of `len` bytes should the loop issue it, and
`now_s` the value of `time(NULL)`. Returns the events of the pass in order, and how it ends. -/
def client_thread_iter (e : Endian) (now_s : Nat) (hdr : Recv) (pay : Nat → Recv) :
    List Event × LoopExit :=
  if hdr.n ≤ 0 then ([], LoopExit.disconnected)
  else
    let header := memHeader e hdr.data
    let payload_len := ntohl e header.payload_length
    let reads := decide (payload_len > 0) && decide (payload_len ≤ BUFF_SIZE)
    if reads && decide ((pay payload_len).n ≠ (payload_len : Int)) then
      ([], LoopExit.incomplete_payload)
    else
      let msg : Message :=
        { header := header, payload := if reads then (pay payload_len).data else [] }
      let acks :=
        if is_flag_set msg.header.flags FLAG_REQUIRES_ACK then
          let ack_msg := create_ack_message now_s Message.zero msg.header.request_id msg.header.type
          [Event.ack_sent (headerBytes e ack_msg.header)]
        else []
      let handles :=
        if !is_flag_set msg.header.flags FLAG_IS_ACK then [Event.handled msg] else []
      (acks ++ handles, LoopExit.next)

/-- The read loop of `client_thread` on a connection delivering `stream`, for at most `fuel`
passes. Returns the events in order and the way the loop was left, or `none` for the exit when
the fuel ran out first. -/
def client_thread_loop (e : Endian) (now_s : Nat) : Nat → List Nat → List Event × Option LoopExit
  | 0, _ => ([], none)
  | fuel + 1, stream =>
    let hdr := sock_recv stream HEADER_SIZE
    let r := client_thread_iter e now_s hdr.1 (fun len => (sock_recv hdr.2 len).1)
    match r.2 with
    | LoopExit.next =>
      let payload_len := ntohl e (memHeader e hdr.1.data).payload_length
      let rest :=
        if payload_len > 0 ∧ payload_len ≤ BUFF_SIZE then (sock_recv hdr.2 payload_len).2
        else hdr.2
      let tail := client_thread_loop e now_s fuel rest
      (r.1 ++ tail.1, tail.2)
    | exit => (r.1, some exit)

/-- The read loop of `client_thread` run to its end: every pass that continues has consumed at
least one byte, so `stream.length + 1` passes suffice. -/
def client_thread (e : Endian) (now_s : Nat) (stream : List Nat) : List Event × Option LoopExit :=
  client_thread_loop e now_s (stream.length + 1) stream

/-! ## `demo_client.c`: the receiver -/

/-- The C function `receive_message` of the client. `r` is the outcome of its single
`recv(sockfd, &msg, sizeof(Message), 0)`, `q` the global `pending_queue`. Returns the message
(`none` for `NULL`), the frames sent, and the queue afterwards. -/
def receive_message (e : Endian) (now_s : Nat) (r : Recv) (q : PendingQueue) :
    Option Message × List (List Nat) × PendingQueue :=
  if r.n < 0 then (none, [], q)
  else if r.n = 0 then (none, [], q)
  else
    let msg : Message := { header := memHeader e r.data, payload := r.data.drop HEADER_SIZE }
    let sent :=
      if is_flag_set msg.header.flags FLAG_REQUIRES_ACK then
        [headerBytes e
          (create_ack_message now_s Message.zero msg.header.request_id msg.header.type).header]
      else []
    if is_flag_set msg.header.flags FLAG_IS_ACK then
      (none, sent, pending_queue_ack q msg.header.request_id)
    else (some msg, sent, q)

/-! ## `session_mgr.c`: the session table -/

def MAX_CLIENTS : Nat := 1024

/-- The `SessionManager` struct behind the global `g_sessions`: `ClientSession* clients[MAX_CLIENTS]`
(a `NULL` slot is `none`; a session pointer is identified with the slot that holds it) and
`int client_count`. The mutex is not modelled: every function below runs as one atomic step. -/
structure SessionManager where
  clients : List (Option ClientSession)
  client_count : Int
deriving DecidableEq, Repr

/-- The C function `session_leave_room_nolock`. -/
def session_leave_room_nolock : Option ClientSession → Bool × Option ClientSession
  | none => (false, none)
  | some c =>
    if c.current_room_id = -1 then (false, some c)
    else (true, some { c with current_room_id := -1, state := ClientState.STATE_IN_LOBBY })

/-- The C function `session_join_room`. -/
def session_join_room : Option ClientSession → Int → Bool × Option ClientSession
  | none, _ => (false, none)
  | some c, room_id =>
    if room_id ≤ 0 then (false, some c)
    else
      let left :=
        if c.current_room_id ≠ -1 then (session_leave_room_nolock (some c)).2 else some c
      (true,
        left.map (fun c1 => { c1 with current_room_id := room_id, state := ClientState.STATE_IN_ROOM }))

/-- The C function `session_leave_room`. -/
def session_leave_room : Option ClientSession → Bool × Option ClientSession
  | none => (false, none)
  | some c =>
    if c.current_room_id = -1 then (false, some c)
    else (true, (session_leave_room_nolock (some c)).2)

/-- The first index below `MAX_CLIENTS` at or after `i` whose slot is `NULL`. -/
def first_free_slot : List (Option ClientSession) → Nat → Option Nat
  | [], _ => none
  | c :: cs, i =>
    if i < MAX_CLIENTS then
      match c with
      | none => some i
      | some _ => first_free_slot cs (i + 1)
    else none

/-- The C function `session_add_client`. `calloc_ok` tells whether `calloc` returned memory and
`now_s` is the value of `time(NULL)`. Returns the slot of the new session (`none` for `NULL`) and
the table afterwards. -/
def session_add_client (g : SessionManager) (calloc_ok : Bool) (now_s : Nat) (sockfd : Int) :
    Option Nat × SessionManager :=
  if !calloc_ok then (none, g)
  else
    let client : ClientSession :=
      { sockfd := sockfd, user_id := 0, username := [], session_token := [],
        current_room_id := -1, state := ClientState.STATE_DISCONNECTED, last_heartbeat := now_s }
    match first_free_slot g.clients 0 with
    | some i => (some i, { clients := g.clients.set i (some client),
                           client_count := g.client_count + 1 })
    | none => (none, g)

/-- The session held in a slot of the table (`NULL` for an empty slot or an index out of range). -/
def SessionManager.session (g : SessionManager) (slot : Nat) : Option ClientSession :=
  g.clients.getD slot none

/-- The C function `session_join_room` called with the pointer held in `slot`. -/
def session_join_room_at (g : SessionManager) (slot : Nat) (room_id : Int) :
    Bool × SessionManager :=
  let r := session_join_room (g.session slot) room_id
  (r.1, { g with clients := g.clients.set slot r.2 })

/-- The C function `session_leave_room` called with the pointer held in `slot`. -/
def session_leave_room_at (g : SessionManager) (slot : Nat) : Bool × SessionManager :=
  let r := session_leave_room (g.session slot)
  (r.1, { g with clients := g.clients.set slot r.2 })

/-- The loop of `session_broadcast_room` over the slots from index `i` on: each call of
`send_to_client` it makes, as the slot written to and the result of the call. -/
def session_broadcast_room_from (e : Endian) (room_id : Int) (msg_host : Option Message)
    (exclude : Option Nat) : List (Option ClientSession) → Nat → List (Nat × Option (List Nat))
  | [], _ => []
  | c :: cs, i =>
    if i < MAX_CLIENTS then
      match c with
      | some s =>
        if s.current_room_id = room_id ∧ some i ≠ exclude then
          (i, send_to_client e (some s) msg_host)
            :: session_broadcast_room_from e room_id msg_host exclude cs (i + 1)
        else session_broadcast_room_from e room_id msg_host exclude cs (i + 1)
      | none => session_broadcast_room_from e room_id msg_host exclude cs (i + 1)
    else []

/-- The C function `session_broadcast_room`; `exclude` is the slot of the excluded session, `none`
for `NULL`. Returns the calls of `send_to_client` made, in order. -/
def session_broadcast_room (e : Endian) (g : SessionManager) (room_id : Int)
    (msg_host : Option Message) (exclude : Option Nat) : List (Nat × Option (List Nat)) :=
  if room_id ≤ 0 then []
  else session_broadcast_room_from e room_id msg_host exclude g.clients 0

/-- The loop of `session_broadcast_all` over the slots from index `i` on. -/
def session_broadcast_all_from (e : Endian) (msg_host : Option Message) (exclude : Option Nat) :
    List (Option ClientSession) → Nat → List (Nat × Option (List Nat))
  | [], _ => []
  | c :: cs, i =>
    if i < MAX_CLIENTS then
      match c with
      | some s =>
        if some i ≠ exclude then
          (i, send_to_client e (some s) msg_host)
            :: session_broadcast_all_from e msg_host exclude cs (i + 1)
        else session_broadcast_all_from e msg_host exclude cs (i + 1)
      | none => session_broadcast_all_from e msg_host exclude cs (i + 1)
    else []

/-- The C function `session_broadcast_all`. -/
def session_broadcast_all (e : Endian) (g : SessionManager) (msg_host : Option Message)
    (exclude : Option Nat) : List (Nat × Option (List Nat)) :=
  session_broadcast_all_from e msg_host exclude g.clients 0

/-- The derived room index: the slots of the sessions to which
`session_broadcast_room(room_id, msg, NULL)` writes a frame. -/
def room_members (e : Endian) (g : SessionManager) (room_id : Int) (msg : Message) : List Nat :=
  (session_broadcast_room e g room_id (some msg) none).filterMap
    (fun w => if w.2.isSome then some w.1 else none)

/-- The sessions for which `session_broadcast_room(room_id, msg, NULL)` calls `send_to_client`,
by slot, whether or not the call writes a frame. -/
def room_targets (e : Endian) (g : SessionManager) (room_id : Int) (msg : Message) : List Nat :=
  (session_broadcast_room e g room_id (some msg) none).map Prod.fst

/-- A call on one session: `session_join_room(client, room_id)` or `session_leave_room(client)`. -/
inductive RoomOp where
  | join (room_id : Int)
  | leave
deriving DecidableEq, Repr

/-- The table after a sequence of join / leave calls on the session in `slot`. -/
def run_room_ops (g : SessionManager) (slot : Nat) : List RoomOp → SessionManager
  | [] => g
  | RoomOp.join room_id :: ops => run_room_ops (session_join_room_at g slot room_id).2 slot ops
  | RoomOp.leave :: ops => run_room_ops (session_leave_room_at g slot).2 slot ops

/-! ## `db_adapter.c`: the bid engine -/

/-- A row of the `"Item"` table, as far as `db_adapter.c` reads or writes it. The price is the
value of the column `current_price`, a whole amount; the source reads it back from its decimal
text with `atof`. `status` follows `ItemInfo`: 0 pending, 1 active, 2 sold. -/
structure ItemRow where
  current_price : Int
  buy_now_price : Int
  status : Nat
deriving DecidableEq, Repr

/-- A row of the `"Bid"` table. -/
structure BidRecord where
  item_id : Int
  bidder_id : Int
  bid_amount : Int
deriving DecidableEq, Repr

/-- The persistent store behind `db.conn`, as the bid engine uses it: the `"Item"` table keyed by
its primary key `item_id`, and the `"Bid"` table in insertion order. -/
structure Store where
  items : Int → Option ItemRow
  bids : List BidRecord

/-- The libpq result status, as far as the source tests it. -/
inductive ExecStatusType where
  | PGRES_COMMAND_OK
  | PGRES_TUPLES_OK
  | PGRES_FATAL_ERROR
deriving DecidableEq, Repr

/-- What `db_place_bid` leaves to the C library and to libpq, neither of which is part of the
source. Both may depend on the store and on the arguments of the call.

`price_text` is the amount the server reads from the text that
`snprintf(buf[2], sizeof(buf[2]), "%.2f", bid_amount)` leaves in `buf[2]`. The conversion `%.2f`
takes a `double` and is given an `int64_t`, so the C standard does not say what is printed: the
text need not show `bid_amount`. The store holds whole amounts, and the text is taken to show
one (`0.00` is the amount 0).

`command_status` is the status `PQresultStatus` reports for the command string
`UPDATE "Item" ...; INSERT INTO "Bid" ...` that the source hands to `PQexecParams` as one
command. -/
structure DbEnv where
  price_text : Store → Int → Int → Int → Int
  command_status : Store → Int → Int → Int → ExecStatusType

/-- The number of low bits a whole number loses when it is cut to the 53 bits of a `double`
significand: the least `e` with `n / 2 ^ e < 2 ^ 53`, searched for `fuel` steps. -/
def lost_bits : Nat → Nat → Nat
  | 0, _ => 0
  | fuel + 1, n => if n < 2 ^ 53 then 0 else lost_bits fuel (n / 2) + 1

/-- The `double` nearest to the whole number `n`, ties going to the even significand. Whole
numbers up to `2 ^ 53` are kept; above, the lowest bits are rounded away. (Past the largest
finite `double` the library returns an infinity; like every value outside `int64_t` it is then
converted by `double_to_int64`.) -/
def nearest_double (n : Nat) : Nat :=
  let e := lost_bits n n
  let q := n / 2 ^ e
  let r := n % 2 ^ e
  if 2 * r > 2 ^ e ∨ (2 * r = 2 ^ e ∧ q % 2 = 1) then (q + 1) * 2 ^ e else q * 2 ^ e

/-- The C library function `atof` on the decimal text of the whole amount `p`: the nearest
`double` (a whole number again). -/
def atof (p : Int) : Int :=
  if p < 0 then -(nearest_double p.natAbs : Int) else (nearest_double p.natAbs : Int)

/-- The conversion of a whole-valued `double` in the initialisation `int64_t current = atof(...)`.
A value outside the range of `int64_t` is converted to `-2 ^ 63`, as the x86-64 conversion
instruction does; C leaves that case undefined. -/
def double_to_int64 (d : Int) : Int :=
  if -(2 ^ 63) ≤ d ∧ d < 2 ^ 63 then d else -(2 ^ 63)

/-- The store's answer to `SELECT current_price FROM "Item" WHERE item_id=$1 FOR UPDATE`: no
tuple, or the price of the row (which `PQgetvalue` hands over as text). -/
def select_current_price (s : Store) (item_id : Int) : Option Int :=
  (s.items item_id).map (fun r => r.current_price)

/-- The call of `PQexecParams` with
`UPDATE "Item" SET current_price = $3 WHERE item_id = $1; INSERT INTO "Bid" ... VALUES ($1, $2, $3)`
inside the open transaction, `$3` being the text of `buf[2]`: the status reported and the store
with both statements applied to the amount the server reads from that text. The caller keeps the
second component only when the status is `PGRES_COMMAND_OK`. -/
def exec_update_insert (env : DbEnv) (s : Store) (item_id bidder_id bid_amount : Int) :
    ExecStatusType × Store :=
  let written := env.price_text s item_id bidder_id bid_amount
  (env.command_status s item_id bidder_id bid_amount,
    { items := fun i =>
        if i = item_id then (s.items i).map (fun r => { r with current_price := written })
        else s.items i
      bids := s.bids ++ [{ item_id := item_id, bidder_id := bidder_id, bid_amount := written }] })

/-- The C function `db_place_bid`, run as one transaction on the store `s` (`BEGIN`, the locking
`SELECT`, `int64_t current = atof(...)`, the comparison, the `UPDATE`/`INSERT`, then `COMMIT` or
`ROLLBACK`). `new_current_price` is the value behind the out-pointer before the call. Returns
the C return value, the committed store (`s` itself after `ROLLBACK`) and the value behind the
out-pointer afterwards. -/
def db_place_bid (env : DbEnv) (s : Store) (item_id bidder_id bid_amount : Int)
    (new_current_price : Int) : Bool × Store × Int :=
  match select_current_price s item_id with
  | none => (false, s, new_current_price)
  | some price =>
    let current := double_to_int64 (atof price)
    if bid_amount ≤ current then (false, s, new_current_price)
    else
      let res := exec_update_insert env s item_id bidder_id bid_amount
      if res.1 = ExecStatusType.PGRES_COMMAND_OK then (true, res.2, bid_amount)
      else (false, s, new_current_price)

/-- The C function `db_buy_now`: its body is `return false; // placeholder`. -/
def db_buy_now (s : Store) (_item_id _buyer_id _buy_now_price : Int) : Bool × Store :=
  (false, s)

/-- The store after a sequence of `db_place_bid` calls on one item, each given as
(bidder, amount), run one after the other. -/
def place_bids (env : DbEnv) (s : Store) (item_id : Int) : List (Int × Int) → Store
  | [] => s
  | c :: cs => place_bids env (db_place_bid env s item_id c.1 c.2 0).2.1 item_id cs

/-! ## Concrete inputs -/

/-- A connected session in room 3. -/
def demo_session : ClientSession :=
  { sockfd := 4, user_id := 7, username := [], session_token := [], current_room_id := 3,
    state := ClientState.STATE_IN_ROOM, last_heartbeat := 0 }

/-- A bid notification asking for acknowledgment: type 35, flags `FLAG_REQUIRES_ACK`, request id 1,
timestamp 1, payload `01 02 03`. -/
def demo_message : Message :=
  { header := { version := 1, type := 35, flags := 1, request_id := 1, timestamp := 1,
                payload_length := 3 }
    payload := [1, 2, 3] }

/-- The frame `send_to_client` emits for `demo_message`. -/
def demo_frame : List Nat :=
  [1, 35, 0, 1, 0, 0, 0, 1, 0, 0, 0, 0, 0, 0, 0, 1, 0, 0, 0, 3, 1, 2, 3]

/-- A store holding item 7 at price 90 with buy-now price 500, active, and no bids. -/
def demo_store : Store :=
  { items := fun i =>
      if i = 7 then some { current_price := 90, buy_now_price := 500, status := 1 } else none
    bids := [] }

/-- A store holding item 7 at price `2 ^ 53 + 1` (9007199254740993), active, and no bids. -/
def large_price_store : Store :=
  { items := fun i =>
      if i = 7 then some { current_price := 2 ^ 53 + 1, buy_now_price := 0, status := 1 }
      else none
    bids := [] }

/-- A platform on which `snprintf` with `%.2f` and an integer argument prints `0.00`, and a server
that reports `PGRES_COMMAND_OK` for the command string. -/
def zero_text_env : DbEnv :=
  { price_text := fun _ _ _ _ => 0
    command_status := fun _ _ _ _ => ExecStatusType.PGRES_COMMAND_OK }

/-- A libpq that refuses a command string of more than one statement in `PQexecParams`, as its
documentation says it does. -/
def single_command_env : DbEnv :=
  { price_text := fun _ _ _ _ => 0
    command_status := fun _ _ _ _ => ExecStatusType.PGRES_FATAL_ERROR }

/-- The behaviour the source aims at: the text in `buf[2]` shows `bid_amount`, and the server
carries out both statements and reports `PGRES_COMMAND_OK`. -/
def exact_text_env : DbEnv :=
  { price_text := fun _ _ _ bid_amount => bid_amount
    command_status := fun _ _ _ _ => ExecStatusType.PGRES_COMMAND_OK }

/-- A header declaring a payload of 2049 bytes: version 1, type 33 (`MSG_BID_REQ`), flags 0,
request id 0, timestamp 0, payload length `00 00 08 01`. -/
def oversize_header : List Nat :=
  [1, 33, 0, 0, 0, 0, 0, 0, 0, 0, 0, 0, 0, 0, 0, 0, 0, 0, 8, 1]

/-- Twenty bytes that read as a header: version 1, type 36 (`MSG_BUY_NOW_REQ`), everything else
zero. -/
def smuggled_header : List Nat :=
  [1, 36, 0, 0, 0, 0, 0, 0, 0, 0, 0, 0, 0, 0, 0, 0, 0, 0, 0, 0]

/-! ## Auxiliary functions for the reliability queue -/

/-- Apply `f` to the first element of a list that satisfies `p`. -/
def modifyFirst {α : Type} (p : α → Bool) (f : α → α) : List α → List α
  | [] => []
  | x :: xs => if p x then f x :: xs else x :: modifyFirst p f xs

/-- The test `pending_queue_find` applies to an entry. -/
def is_pending (request_id : Nat) (m : PendingMessage) : Bool :=
  m.is_active && m.request_id == request_id

/-- The entries the queue functions look at: those at an index below `count`. -/
def PendingQueue.visible (q : PendingQueue) : List PendingMessage := q.messages.take q.count

/-- The ids reported by a sequence of sweeps, given as (time, `max_count`) pairs and run one after
the other, and the queue they leave. -/
def run_sweeps (q : PendingQueue) : List (Nat × Int) → List (List Nat) × PendingQueue
  | [] => ([], q)
  | s :: ss =>
    let r := sweep q s.1 s.2
    let rest := run_sweeps r.2 ss
    (r.1 :: rest.1, rest.2)

/-- Two active entries carrying request id 5, the second stored after the first. -/
def duplicate_queue : PendingQueue :=
  { messages :=
      [{ request_id := 5, message_type := 33, send_time := 1000, retry_count := 0, payload := [],
         payload_len := 0, is_active := true },
       { request_id := 5, message_type := 33, send_time := 2000, retry_count := 0, payload := [],
         payload_len := 0, is_active := true }]
    count := 2 }

/-- The update `pending_queue_increment_retry` makes to the entry it finds. -/
def bump_retry (m : PendingMessage) : PendingMessage :=
  { m with retry_count := (m.retry_count + 1) % 2 ^ 8 }

/-- The update `pending_queue_cleanup` makes to each visible entry. -/
def expire (m : PendingMessage) : PendingMessage :=
  if m.is_active && decide (m.retry_count ≥ MAX_RETRIES) then { m with is_active := false } else m

/-- The test `pending_queue_get_expired` applies to an entry at time `now`. -/
def is_expired (now : Nat) (m : PendingMessage) : Bool :=
  m.is_active &&
    decide ((now % 2 ^ 64 + 2 ^ 64 - m.send_time % 2 ^ 64) % 2 ^ 64 > ACK_TIMEOUT_MS ∧
      m.retry_count < MAX_RETRIES)

/-- The visible entries after `pending_queue_increment_retry` for each of `ids` in turn. -/
def bump_all (a : List PendingMessage) (ids : List Nat) : List PendingMessage :=
  ids.foldl (fun l r => modifyFirst (is_pending r) bump_retry l) a

/-- Among the entries `a`, the one at index `i` is active, has request id `rid`, send time `st`
and retry count `j`, and no other active entry carries `rid`. -/
def Tracked (rid st i j : Nat) (a : List PendingMessage) : Prop :=
  ∃ pre e post, a = pre ++ e :: post ∧ pre.length = i ∧ e.request_id = rid ∧ e.send_time = st ∧
    e.is_active = true ∧ e.retry_count = j ∧
    (∀ m ∈ pre, is_pending rid m = false) ∧ (∀ m ∈ post, is_pending rid m = false)

/-- Among the entries `a`, the one at index `i` is inactive and no active entry carries `rid`. -/
def Retired (rid i : Nat) (a : List PendingMessage) : Prop :=
  (a.map (fun m => m.is_active))[i]? = some false ∧ ∀ m ∈ a, is_pending rid m = false

/-- The clock of `pending_queue_get_expired` and `pending_queue_add`: the value of
`(uint64_t)time(NULL) * 1000` when `time(NULL)` returns `now_s`. -/
def clock_ms (now_s : Nat) : Nat := now_s * 1000 % 2 ^ 64

/-- A queue of three entries, the middle one (request id 8, sent at 1000 ms) being the one
followed. -/
def retry_queue : PendingQueue :=
  { messages :=
      [{ request_id := 7, message_type := 33, send_time := 900000, retry_count := 0, payload := [],
         payload_len := 0, is_active := true },
       { request_id := 8, message_type := 33, send_time := 1000, retry_count := 0, payload := [],
         payload_len := 0, is_active := true },
       { request_id := 8, message_type := 35, send_time := 1000, retry_count := 1, payload := [],
         payload_len := 0, is_active := false }]
    count := 3 }

/-- The table after `session_init`: every slot `NULL`, `client_count` 0. -/
def empty_table : SessionManager :=
  { clients := List.replicate MAX_CLIENTS none, client_count := 0 }

/-- The slot holds a session on descriptor `fd` that is in no room or in a room with a positive
id. -/
def Registered (g : SessionManager) (slot : Nat) (fd : Int) : Prop :=
  slot < MAX_CLIENTS ∧
    ∃ s, g.clients[slot]? = some (some s) ∧ s.sockfd = fd ∧
      (s.current_room_id = -1 ∨ 0 < s.current_room_id)

/-! ## `demo_client.c`: the sender -/

/-- The globals of the client that its send and receive functions read and write: the counter
`uint32_t request_id` and `PendingQueue pending_queue`. -/
structure ClientGlobals where
  request_id : Nat
  pending_queue : PendingQueue
deriving DecidableEq, Repr

/-- The globals as the client starts: `request_id = 1`, `pending_queue = {0}`. -/
def client_init : ClientGlobals :=
  { request_id := 1
    pending_queue :=
      { messages := List.replicate MAX_PENDING_MESSAGES PendingMessage.zero, count := 0 } }

/-- The bytes `memcpy(dst, payload, payload_len)` copies under the guard
`payload && payload_len > 0`, into a zeroed destination. -/
def copied_payload (payload : Option (List Nat)) (payload_len : Nat) : List Nat :=
  match payload with
  | some p => if payload_len > 0 then readBytes p 0 payload_len else []
  | none => []

/-- The C function `send_message`; `now_s` is the value of `time(NULL)`, a `NULL` payload is
`none`. Returns the bytes handed to `send` (the header in host byte order, then `payload_len`
bytes of `msg.payload`) and the globals afterwards. -/
def send_message (e : Endian) (now_s : Nat) (st : ClientGlobals) (type : Nat)
    (payload : Option (List Nat)) (payload_len : Nat) : List Nat × ClientGlobals :=
  let len := payload_len % 2 ^ 16
  let header : MessageHeader :=
    { version := 1, type := type % 2 ^ 8, request_id := st.request_id % 2 ^ 32,
      timestamp := now_s % 2 ^ 64, payload_length := len, flags := 0 }
  (headerBytes e header ++ readBytes (copied_payload payload len) 0 len,
    { st with request_id := (st.request_id + 1) % 2 ^ 32 })

/-- The C function `send_message_reliable`. `now_s` is the value of `time(NULL)` for the header,
`add_now_s` the one read inside `pending_queue_add`, `send_n` the return value of `send`. The
local `char buffer[BUFF_SIZE]` holds the first `BUFF_SIZE` bytes of header and payload (what the two
`memcpy` calls place inside the array). Returns the bytes handed to `send` and the globals
afterwards. -/
def send_message_reliable (e : Endian) (now_s add_now_s : Nat) (send_n : Int)
    (st : ClientGlobals) (type : Nat) (payload : Option (List Nat)) (payload_len flags : Nat) :
    List Nat × ClientGlobals :=
  let len := payload_len % 2 ^ 16
  let current_req_id := st.request_id % 2 ^ 32
  let st1 : ClientGlobals := { st with request_id := (st.request_id + 1) % 2 ^ 32 }
  let header : MessageHeader :=
    { version := 1, type := type % 2 ^ 8, request_id := current_req_id,
      timestamp := now_s % 2 ^ 64, payload_length := len, flags := flags % 2 ^ 16 }
  let frame := headerBytes e header ++ readBytes (copied_payload payload len) 0 len
  if send_n < 0 then (frame, st1)
  else if is_flag_set (flags % 2 ^ 16) FLAG_REQUIRES_ACK then
    let buffer := (headerBytes e header ++ copied_payload payload len).take BUFF_SIZE
    (frame,
      { st1 with
        pending_queue :=
          (pending_queue_add st1.pending_queue add_now_s current_req_id type (some buffer)
            (HEADER_SIZE + len)).2 })
  else (frame, st1)

/-- A call the client makes: `send_message`, `send_message_reliable`, or `receive_message` with the
outcome `r` of its `recv`. -/
inductive ClientOp where
  | send (now_s type : Nat) (payload : Option (List Nat)) (payload_len : Nat)
  | send_reliable (now_s add_now_s : Nat) (send_n : Int) (type : Nat)
      (payload : Option (List Nat)) (payload_len flags : Nat)
  | receive (now_s : Nat) (r : Recv)
deriving DecidableEq, Repr

/-- The globals after one call. -/
def client_step (e : Endian) (st : ClientGlobals) : ClientOp → ClientGlobals
  | ClientOp.send now_s type payload payload_len =>
    (send_message e now_s st type payload payload_len).2
  | ClientOp.send_reliable now_s add_now_s send_n type payload payload_len flags =>
    (send_message_reliable e now_s add_now_s send_n st type payload payload_len flags).2
  | ClientOp.receive now_s r =>
    { st with pending_queue := (receive_message e now_s r st.pending_queue).2.2 }

/-- The globals after a sequence of calls. -/
def run_client (e : Endian) (st : ClientGlobals) (ops : List ClientOp) : ClientGlobals :=
  ops.foldl (client_step e) st

/-- Whether a call is one of the two send functions. -/
def ClientOp.is_send : ClientOp → Bool
  | ClientOp.receive _ _ => false
  | _ => true

/-- The state of the client after `n` sends: the counter is `(1 + n) mod 2^32`, the array of the
pending queue has its 100 entries, the request ids of the entries below `count` were handed out,
in this order, by some of the `n` sends, and the entries from `count` on are inactive. -/
def ClientInv (n : Nat) (st : ClientGlobals) : Prop :=
  st.request_id = (1 + n) % 2 ^ 32 ∧
    st.pending_queue.messages.length = MAX_PENDING_MESSAGES ∧
    st.pending_queue.count ≤ MAX_PENDING_MESSAGES ∧
    List.Sublist (st.pending_queue.visible.map (fun m => m.request_id))
      ((List.range n).map (fun k => (1 + k) % 2 ^ 32)) ∧
    ∀ m ∈ st.pending_queue.messages.drop st.pending_queue.count, m.is_active = false

/-- A reliable send, then `2^32 - 1` plain sends, then a reliable send again: the counter has gone
once around when the last message is sent. -/
def wrap_ops : List ClientOp :=
  ClientOp.send_reliable 5 6 20 33 none 0 FLAG_REQUIRES_ACK
    :: (List.replicate (2 ^ 32 - 1) (ClientOp.send 5 25 none 0)
        ++ [ClientOp.send_reliable 5 6 20 33 none 0 FLAG_REQUIRES_ACK])

/-! ## Further functions of the session table and operation sequences -/

/-- The eight `FLAG_*` constants of `protocol_header.h`, in the order of their definition. -/
def FLAGS : List Nat :=
  [FLAG_REQUIRES_ACK, FLAG_IS_ACK, FLAG_RETRANSMISSION, FLAG_COMPRESSED, FLAG_FRAGMENTED,
    FLAG_BROADCAST, FLAG_PRIORITY_HIGH, FLAG_ENCRYPTED]

/-- The loop of `session_remove_client` over the slots from index `i` on: the session it frees,
as `session_leave_room_nolock` left it (`none` when no slot matches), and the slots afterwards. -/
def session_remove_client_from (sockfd : Int) :
    List (Option ClientSession) → Nat → Option ClientSession × List (Option ClientSession)
  | [], _ => (none, [])
  | c :: cs, i =>
    if i < MAX_CLIENTS then
      match c with
      | some s =>
        if s.sockfd = sockfd then ((session_leave_room_nolock (some s)).2, none :: cs)
        else
          let r := session_remove_client_from sockfd cs (i + 1)
          (r.1, c :: r.2)
      | none =>
        let r := session_remove_client_from sockfd cs (i + 1)
        (r.1, c :: r.2)
    else (none, c :: cs)

/-- The C function `session_remove_client`. Returns the session freed, in the state in which it
is freed (`none` when no session has this descriptor), and the table afterwards. -/
def session_remove_client (g : SessionManager) (sockfd : Int) :
    Option ClientSession × SessionManager :=
  let r := session_remove_client_from sockfd g.clients 0
  match r.1 with
  | some s => (some s, { clients := r.2, client_count := g.client_count - 1 })
  | none => (none, g)

/-- A call that acts on the room fields of one session: `session_join_room`,
`session_leave_room`, or the `session_leave_room_nolock` that `session_remove_client` performs. -/
inductive SessionOp where
  | join (room_id : Int)
  | leave
  | leave_nolock
deriving DecidableEq, Repr

/-- One such call: its return value and the session afterwards. -/
def session_op (client : Option ClientSession) : SessionOp → Bool × Option ClientSession
  | SessionOp.join room_id => session_join_room client room_id
  | SessionOp.leave => session_leave_room client
  | SessionOp.leave_nolock => session_leave_room_nolock client

/-- The session after a sequence of such calls. -/
def run_session_ops (client : Option ClientSession) (ops : List SessionOp) :
    Option ClientSession :=
  ops.foldl (fun c op => (session_op c op).2) client

/-- The room fields of a session agree: `current_room_id` is -1 or positive, and the state is
`STATE_IN_ROOM` exactly when it is not -1. -/
def RoomConsistent (s : ClientSession) : Prop :=
  (s.current_room_id = -1 ∨ 0 < s.current_room_id) ∧
    (s.state = ClientState.STATE_IN_ROOM ↔ s.current_room_id ≠ -1)

/-- The writes of a room broadcast as the specification words them: going through the slots below
`MAX_CLIENTS` in order, one `send_to_client` for each slot that holds a session whose
`current_room_id` is the room and that is not the excluded one. -/
def room_fanout (e : Endian) (room_id : Int) (msg_host : Option Message) (exclude : Option Nat)
    (clients : List (Option ClientSession)) : List (Nat × Option (List Nat)) :=
  (List.enumFrom 0 clients).filterMap (fun p =>
    match p.2 with
    | some s =>
      if p.1 < MAX_CLIENTS ∧ s.current_room_id = room_id ∧ some p.1 ≠ exclude then
        some (p.1, send_to_client e (some s) msg_host)
      else none
    | none => none)

/-- The writes of a broadcast to all as the specification words them: one `send_to_client` for
each slot below `MAX_CLIENTS`, in order, that holds a session and is not the excluded one. -/
def all_fanout (e : Endian) (msg_host : Option Message) (exclude : Option Nat)
    (clients : List (Option ClientSession)) : List (Nat × Option (List Nat)) :=
  (List.enumFrom 0 clients).filterMap (fun p =>
    match p.2 with
    | some s =>
      if p.1 < MAX_CLIENTS ∧ some p.1 ≠ exclude then
        some (p.1, send_to_client e (some s) msg_host)
      else none
    | none => none)

/-- A call on a pending queue. -/
inductive QueueOp where
  | add (now_s request_id msg_type : Nat) (payload : Option (List Nat)) (len : Nat)
  | ack (request_id : Nat)
  | increment_retry (request_id : Nat)
  | cleanup
  | get_expired (now : Nat) (max_count : Int)
deriving DecidableEq, Repr

/-- The queue after one call (`pending_queue_get_expired` only reads it). -/
def queue_step (q : PendingQueue) : QueueOp → PendingQueue
  | QueueOp.add now_s request_id msg_type payload len =>
    (pending_queue_add q now_s request_id msg_type payload len).2
  | QueueOp.ack request_id => pending_queue_ack q request_id
  | QueueOp.increment_retry request_id => pending_queue_increment_retry q request_id
  | QueueOp.cleanup => pending_queue_cleanup q
  | QueueOp.get_expired _ _ => q

/-- The queue after a sequence of calls. -/
def run_queue_ops (q : PendingQueue) (ops : List QueueOp) : PendingQueue :=
  ops.foldl queue_step q

/-- Whether a call, made on `q`, is a `pending_queue_add` that returns an index (not -1). -/
def add_succeeds (q : PendingQueue) : QueueOp → Bool
  | QueueOp.add now_s request_id msg_type payload len =>
    decide ((pending_queue_add q now_s request_id msg_type payload len).1 ≠ -1)
  | _ => false

/-- The number of successful `pending_queue_add` calls in a sequence of calls run from `q`. -/
def successful_adds (q : PendingQueue) : List QueueOp → Nat
  | [] => 0
  | op :: ops =>
    (if add_succeeds q op then 1 else 0) + successful_adds (queue_step q op) ops

/-- The invariant of a pending queue in use: the array has its 100 entries, `count` is at most
100, and every entry from `count` on is inactive. -/
def QueueInv (q : PendingQueue) : Prop :=
  q.messages.length = MAX_PENDING_MESSAGES ∧ q.count ≤ MAX_PENDING_MESSAGES ∧
    ∀ m ∈ q.messages.drop q.count, m.is_active = false

/-! # Theorems -/

/-! ## Bid engine -/

/-- With enough fuel the search stops at the least exponent that brings the number below
`2 ^ 53`. -/
theorem lost_bits_spec : ∀ fuel n : Nat, n < 2 ^ 53 * 2 ^ fuel →
    n / 2 ^ lost_bits fuel n < 2 ^ 53 ∧
      (0 < lost_bits fuel n → 2 ^ 53 ≤ n / 2 ^ (lost_bits fuel n - 1)) := by
  intro fuel
  induction fuel with
  | zero =>
    intro n h
    simp only [lost_bits, pow_zero, Nat.div_one, Nat.lt_irrefl, false_implies, and_true]
    simpa using h
  | succ k ih =>
    intro n h
    by_cases hn : n < 2 ^ 53
    · simp only [lost_bits, if_pos hn, pow_zero, Nat.div_one, Nat.lt_irrefl, false_implies,
        and_true]
      exact hn
    · have hhalf : n / 2 < 2 ^ 53 * 2 ^ k := by
        apply Nat.div_lt_of_lt_mul
        rw [pow_succ] at h
        omega
      obtain ⟨h1, h2⟩ := ih (n / 2) hhalf
      have hdiv : ∀ e : Nat, n / 2 ^ (e + 1) = n / 2 / 2 ^ e := by
        intro e
        rw [Nat.div_div_eq_div_mul, pow_succ, Nat.mul_comm]
      simp only [lost_bits, if_neg hn, Nat.add_sub_cancel]
      refine ⟨by rw [hdiv]; exact h1, fun _ => ?_⟩
      rcases Nat.eq_zero_or_pos (lost_bits k (n / 2)) with h0 | hpos
      · rw [h0, pow_zero, Nat.div_one]
        exact not_lt.mp hn
      · have h3 := h2 hpos
        obtain ⟨e, he⟩ : ∃ e, lost_bits k (n / 2) = e + 1 := ⟨_, (Nat.succ_pred_eq_of_pos hpos).symm⟩
        rw [he, Nat.add_sub_cancel] at h3
        rw [he, hdiv]
        exact h3

/-- The fuel `nearest_double` gives the search is enough: what is kept has at most 53 bits. -/
theorem lost_bits_enough (n : Nat) : n / 2 ^ lost_bits n n < 2 ^ 53 := by
  apply (lost_bits_spec n n _).1
  have h1 : n < 2 ^ n := Nat.lt_two_pow n
  have h2 : 2 ^ n ≤ 2 ^ 53 * 2 ^ n := Nat.le_mul_of_pos_left _ (by decide)
  omega

/-- Whole numbers up to `2 ^ 53` are doubles. -/
theorem nearest_double_exact (n : Nat) (h : n ≤ 2 ^ 53) : nearest_double n = n := by
  rcases Nat.lt_or_eq_of_le h with hlt | heq
  · have h0 : lost_bits n n = 0 := by
      cases n with
      | zero => rfl
      | succ k => simp only [lost_bits, if_pos hlt]
    simp [nearest_double, h0, Nat.mod_one]
  · rw [heq]
    decide

theorem atof_exact (p : Int) (h : p.natAbs ≤ 2 ^ 53) : atof p = p := by
  unfold atof
  rw [nearest_double_exact _ h]
  by_cases hp : p < 0
  · rw [if_pos hp, Int.ofNat_natAbs_of_nonpos (le_of_lt hp), neg_neg]
  · rw [if_neg hp, Int.natAbs_of_nonneg (not_lt.mp hp)]

/-- A stored price of magnitude up to `2 ^ 53` is read back as it is. -/
theorem read_price_exact (p : Int) (h : p.natAbs ≤ 2 ^ 53) : double_to_int64 (atof p) = p := by
  rw [atof_exact p h]
  unfold double_to_int64
  have h1 : -(2 ^ 63 : Int) ≤ p ∧ p < 2 ^ 63 := by
    constructor <;> omega
  rw [if_pos h1]

/-- A bid not above the value read from the stored price is rolled back. -/
theorem db_place_bid_rejected (env : DbEnv) (s : Store) (item_id bidder_id bid_amount out : Int)
    (row : ItemRow) (hrow : s.items item_id = some row)
    (hlow : bid_amount ≤ double_to_int64 (atof row.current_price)) :
    db_place_bid env s item_id bidder_id bid_amount out = (false, s, out) := by
  simp only [db_place_bid, select_current_price, hrow, Option.map_some', if_pos hlow]

/-- A bid above the value read from the stored price reaches the `UPDATE`/`INSERT` command, and
the status reported for that command decides the call. -/
theorem db_place_bid_passed (env : DbEnv) (s : Store) (item_id bidder_id bid_amount out : Int)
    (row : ItemRow) (hrow : s.items item_id = some row)
    (hhigh : double_to_int64 (atof row.current_price) < bid_amount) :
    db_place_bid env s item_id bidder_id bid_amount out
      = if env.command_status s item_id bidder_id bid_amount = ExecStatusType.PGRES_COMMAND_OK
        then (true, (exec_update_insert env s item_id bidder_id bid_amount).2, bid_amount)
        else (false, s, out) := by
  have h : ¬ bid_amount ≤ double_to_int64 (atof row.current_price) := not_le.mpr hhigh
  simp only [db_place_bid, select_current_price, hrow, Option.map_some', if_neg h,
    exec_update_insert]

/-- What a call that returns true, and what a call that returns false, has done. -/
theorem db_place_bid_outcome (env : DbEnv) (s : Store) (item_id bidder_id bid_amount out : Int) :
    ((db_place_bid env s item_id bidder_id bid_amount out).1 = true →
        (db_place_bid env s item_id bidder_id bid_amount out).2.1.bids
            = s.bids ++ [{ item_id := item_id, bidder_id := bidder_id,
                           bid_amount := env.price_text s item_id bidder_id bid_amount }] ∧
          (db_place_bid env s item_id bidder_id bid_amount out).2.2 = bid_amount) ∧
      ((db_place_bid env s item_id bidder_id bid_amount out).1 = false →
        db_place_bid env s item_id bidder_id bid_amount out = (false, s, out)) := by
  cases hrow : s.items item_id with
  | none =>
    simp [db_place_bid, select_current_price, hrow]
  | some row =>
    by_cases hlow : bid_amount ≤ double_to_int64 (atof row.current_price)
    · rw [db_place_bid_rejected env s item_id bidder_id bid_amount out row hrow hlow]
      simp
    · rw [db_place_bid_passed env s item_id bidder_id bid_amount out row hrow (not_le.mp hlow)]
      by_cases hst : env.command_status s item_id bidder_id bid_amount
          = ExecStatusType.PGRES_COMMAND_OK
      · rw [if_pos hst]
        simp [exec_update_insert]
      · rw [if_neg hst]
        simp

/-- C2 (defect: the amount is printed with `%.2f`, and two statements are sent as one command).
Whatever the platform, a bid of 100 on item 7 of `demo_store` (price 90) returns true only when
the two-statement command is reported `PGRES_COMMAND_OK`, and the price then stored is the amount
read from the text `snprintf` printed, not `bid_amount`. Where that text is `0.00` and the command
is reported OK, the bid of 100 is accepted and the stored price falls from 90 to 0; the bid of 95
that follows is accepted too, and both bid records carry the amount 0. Where libpq refuses the
two-statement command, the bid of 100 returns false and stores nothing, although 100 > 90. -/
theorem C2_stored_price_decreases :
    (∀ env : DbEnv,
      db_place_bid env demo_store 7 1 100 0
        = if env.command_status demo_store 7 1 100 = ExecStatusType.PGRES_COMMAND_OK
          then (true, (exec_update_insert env demo_store 7 1 100).2, 100)
          else (false, demo_store, 0)) ∧
    (∀ env : DbEnv,
      ((exec_update_insert env demo_store 7 1 100).2.items 7).map (fun r => r.current_price)
        = some (env.price_text demo_store 7 1 100)) ∧
    (db_place_bid zero_text_env demo_store 7 1 100 0).1 = true ∧
    ((place_bids zero_text_env demo_store 7 [(1, 100)]).items 7).map (fun r => r.current_price)
      = some 0 ∧
    (db_place_bid zero_text_env (place_bids zero_text_env demo_store 7 [(1, 100)]) 7 2 95 0).1
      = true ∧
    ((place_bids zero_text_env demo_store 7 [(1, 100), (2, 95)]).items 7).map
        (fun r => r.current_price) = some 0 ∧
    (place_bids zero_text_env demo_store 7 [(1, 100), (2, 95)]).bids
      = [{ item_id := 7, bidder_id := 1, bid_amount := 0 },
         { item_id := 7, bidder_id := 2, bid_amount := 0 }] ∧
    (db_place_bid single_command_env demo_store 7 1 100 0).1 = false ∧
    ((db_place_bid single_command_env demo_store 7 1 100 0).2.1.items 7).map
        (fun r => r.current_price) = some 90 ∧
    (db_place_bid single_command_env demo_store 7 1 100 0).2.1.bids = [] := by
  refine ⟨?_, ?_, ?_, ?_, ?_, ?_, ?_, ?_, ?_, ?_⟩
  · intro env
    exact db_place_bid_passed env demo_store 7 1 100 0
      { current_price := 90, buy_now_price := 500, status := 1 } rfl (by decide)
  · intro env
    rfl
  all_goals decide

/-- C8 as stated fails, however the library and the server behave. On item 7 of `demo_store`
(price 90): where `snprintf` prints `0.00` and the command is reported OK, both orders of the
bids 100 and 150 store two bid records but end with the stored price 0, not 150. Where libpq
refuses the two-statement command, both orders store no bid record and leave the price at 90.
And were the amount printed as given and the command carried out, the order 150 then 100 would
end at 150 with one new bid record only, the bid of 100 being rejected by the price check. -/
theorem C8_scenario_A_counterexample :
    ((place_bids zero_text_env demo_store 7 [(1, 100), (2, 150)]).items 7).map
        (fun r => r.current_price) = some 0 ∧
    ((place_bids zero_text_env demo_store 7 [(2, 150), (1, 100)]).items 7).map
        (fun r => r.current_price) = some 0 ∧
    (place_bids zero_text_env demo_store 7 [(2, 150), (1, 100)]).bids.length = 2 ∧
    ((place_bids single_command_env demo_store 7 [(1, 100), (2, 150)]).items 7).map
        (fun r => r.current_price) = some 90 ∧
    (place_bids single_command_env demo_store 7 [(1, 100), (2, 150)]).bids = [] ∧
    ((place_bids single_command_env demo_store 7 [(2, 150), (1, 100)]).items 7).map
        (fun r => r.current_price) = some 90 ∧
    (place_bids single_command_env demo_store 7 [(2, 150), (1, 100)]).bids = [] ∧
    ((place_bids exact_text_env demo_store 7 [(2, 150), (1, 100)]).items 7).map
        (fun r => r.current_price) = some 150 ∧
    (place_bids exact_text_env demo_store 7 [(2, 150), (1, 100)]).bids
      = [{ item_id := 7, bidder_id := 2, bid_amount := 150 }] ∧
    (db_place_bid exact_text_env (place_bids exact_text_env demo_store 7 [(2, 150)]) 7 1 100 0).1
      = false := by
  refine ⟨?_, ?_, ?_, ?_, ?_, ?_, ?_, ?_, ?_, ?_⟩ <;> decide

/-- C8, amended. For an existing item whose stored current price is 90: a `db_place_bid` with
amount 100 or 150 passes the price check and returns true exactly when its `UPDATE`/`INSERT`
command is reported `PGRES_COMMAND_OK`. Every call that returns true has appended exactly one bid
record and reports its own `bid_amount` through `new_current_price`; every call that returns
false leaves the store and the out-value unchanged; so after two calls the number of new bid
records is the number of calls that returned true. A `db_place_bid` with amount 100 on a store
that holds the price 150 returns false and changes nothing. -/
theorem C8_scenario_A (env : DbEnv) (s : Store) (item_id : Int) (row : ItemRow)
    (hrow : s.items item_id = some row) (hprice : row.current_price = 90) :
    (∀ bidder_id amount out : Int, amount = 100 ∨ amount = 150 →
      db_place_bid env s item_id bidder_id amount out
        = if env.command_status s item_id bidder_id amount = ExecStatusType.PGRES_COMMAND_OK
          then (true, (exec_update_insert env s item_id bidder_id amount).2, amount)
          else (false, s, out)) ∧
    (∀ (s1 : Store) (bidder_id amount out : Int),
      ((db_place_bid env s1 item_id bidder_id amount out).1 = true →
        (db_place_bid env s1 item_id bidder_id amount out).2.1.bids
            = s1.bids ++ [{ item_id := item_id, bidder_id := bidder_id,
                            bid_amount := env.price_text s1 item_id bidder_id amount }] ∧
          (db_place_bid env s1 item_id bidder_id amount out).2.2 = amount) ∧
      ((db_place_bid env s1 item_id bidder_id amount out).1 = false →
        db_place_bid env s1 item_id bidder_id amount out = (false, s1, out))) ∧
    (∀ b1 a1 b2 a2 : Int,
      (place_bids env s item_id [(b1, a1), (b2, a2)]).bids.length
        = s.bids.length
          + (if (db_place_bid env s item_id b1 a1 0).1 then 1 else 0)
          + (if (db_place_bid env (place_bids env s item_id [(b1, a1)]) item_id b2 a2 0).1
              then 1 else 0)) ∧
    (∀ (s1 : Store) (row1 : ItemRow) (bidder_id out : Int),
      s1.items item_id = some row1 → row1.current_price = 150 →
        db_place_bid env s1 item_id bidder_id 100 out = (false, s1, out)) := by
  have hread : double_to_int64 (atof row.current_price) = 90 := by
    rw [hprice]
    decide
  have hlen : ∀ (s1 : Store) (b a : Int),
      (db_place_bid env s1 item_id b a 0).2.1.bids.length
        = s1.bids.length + (if (db_place_bid env s1 item_id b a 0).1 then 1 else 0) := by
    intro s1 b a
    obtain ⟨h1, h2⟩ := db_place_bid_outcome env s1 item_id b a 0
    cases hr : (db_place_bid env s1 item_id b a 0).1
    · rw [h2 hr]
      simp
    · rw [(h1 hr).1]
      simp
  refine ⟨?_, fun s1 b a out => db_place_bid_outcome env s1 item_id b a out, ?_, ?_⟩
  · intro bidder_id amount out ha
    apply db_place_bid_passed env s item_id bidder_id amount out row hrow
    rw [hread]
    rcases ha with rfl | rfl <;> decide
  · intro b1 a1 b2 a2
    show (db_place_bid env (db_place_bid env s item_id b1 a1 0).2.1 item_id b2 a2 0).2.1.bids.length
      = _
    rw [hlen, hlen]
    rfl
  · intro s1 row1 bidder_id out hrow1 hp1
    apply db_place_bid_rejected env s1 item_id bidder_id 100 out row1 hrow1
    rw [hp1]
    decide

/-- Witness for the amended C8: item 7 of `demo_store`, where `snprintf` prints `0.00`. -/
theorem C8_scenario_A_witness :
    demo_store.items 7 = some { current_price := 90, buy_now_price := 500, status := 1 } ∧
      (place_bids zero_text_env demo_store 7 [(2, 150), (1, 100)]).bids.length
        = demo_store.bids.length
          + (if (db_place_bid zero_text_env demo_store 7 2 150 0).1 then 1 else 0)
          + (if (db_place_bid zero_text_env (place_bids zero_text_env demo_store 7 [(2, 150)])
                7 1 100 0).1 then 1 else 0) :=
  ⟨rfl,
    (C8_scenario_A zero_text_env demo_store 7
      { current_price := 90, buy_now_price := 500, status := 1 } rfl rfl).2.2.1 2 150 1 100⟩

/-- A bid that is too low for the value read has no partial effect: for every existing item with
stored price `p` and every `bid_amount` not above the value `db_place_bid` reads for `p` (the
`int64_t` made from `atof` of its text), the call returns false and hands back the store it
started from (same item rows, same bid records) and the value behind `new_current_price`
untouched. The value read is `p` itself whenever `p` has magnitude at most `2 ^ 53`, so that then
every `bid_amount ≤ p` is rejected in this way. -/
theorem bid_too_low_no_effect (env : DbEnv) (s : Store)
    (item_id bidder_id bid_amount out : Int) (row : ItemRow)
    (hrow : s.items item_id = some row) :
    (bid_amount ≤ double_to_int64 (atof row.current_price) →
      db_place_bid env s item_id bidder_id bid_amount out = (false, s, out)) ∧
    (row.current_price.natAbs ≤ 2 ^ 53 →
      double_to_int64 (atof row.current_price) = row.current_price ∧
        (bid_amount ≤ row.current_price →
          db_place_bid env s item_id bidder_id bid_amount out = (false, s, out))) := by
  refine ⟨db_place_bid_rejected env s item_id bidder_id bid_amount out row hrow, ?_⟩
  intro hsmall
  have hread := read_price_exact row.current_price hsmall
  refine ⟨hread, fun hlow => ?_⟩
  apply db_place_bid_rejected env s item_id bidder_id bid_amount out row hrow
  rw [hread]
  exact hlow

/-- The bid of 80 against the price 90 of item 7 in `demo_store` is rolled back. -/
theorem bid_too_low_no_effect_demo :
    demo_store.items 7 = some { current_price := 90, buy_now_price := 500, status := 1 } ∧
      (90 : Int).natAbs ≤ 2 ^ 53 ∧ (80 : Int) ≤ 90 ∧
      db_place_bid zero_text_env demo_store 7 1 80 42 = (false, demo_store, 42) :=
  ⟨rfl, by decide, by decide,
    ((bid_too_low_no_effect zero_text_env demo_store 7 1 80 42
      { current_price := 90, buy_now_price := 500, status := 1 } rfl).2 (by decide)).2
      (by decide)⟩

/-- C9 (defect: the stored price is read back through `atof`, a `double`). Item 7 of
`large_price_store` has the price `2 ^ 53 + 1`, which `atof` reads as `2 ^ 53`. A bid of
`2 ^ 53 + 1`, not above the stored price, therefore passes the comparison
`bid_amount <= current` and reaches the `UPDATE`/`INSERT` command, whatever the platform: the
call is not rolled back as too low, and returns true whenever the command is reported
`PGRES_COMMAND_OK`. Then a bid record is appended, the out-value is written, and the price is
rewritten (to 0 where `snprintf` prints `0.00`; to the same `2 ^ 53 + 1` were the amount
printed as given). -/
theorem C9_large_price_passes_check :
    (large_price_store.items 7).map (fun r => r.current_price) = some (2 ^ 53 + 1) ∧
    ((2 : Int) ^ 53 + 1 ≤ 2 ^ 53 + 1) ∧
    double_to_int64 (atof (2 ^ 53 + 1)) = 2 ^ 53 ∧
    (∀ env : DbEnv,
      db_place_bid env large_price_store 7 1 (2 ^ 53 + 1) 42
        = if env.command_status large_price_store 7 1 (2 ^ 53 + 1)
              = ExecStatusType.PGRES_COMMAND_OK
          then (true, (exec_update_insert env large_price_store 7 1 (2 ^ 53 + 1)).2, 2 ^ 53 + 1)
          else (false, large_price_store, 42)) ∧
    (db_place_bid zero_text_env large_price_store 7 1 (2 ^ 53 + 1) 42).1 = true ∧
    ((db_place_bid zero_text_env large_price_store 7 1 (2 ^ 53 + 1) 42).2.1.items 7).map
        (fun r => r.current_price) = some 0 ∧
    (db_place_bid zero_text_env large_price_store 7 1 (2 ^ 53 + 1) 42).2.1.bids
      = [{ item_id := 7, bidder_id := 1, bid_amount := 0 }] ∧
    (db_place_bid zero_text_env large_price_store 7 1 (2 ^ 53 + 1) 42).2.2 = 2 ^ 53 + 1 ∧
    (db_place_bid exact_text_env large_price_store 7 1 (2 ^ 53 + 1) 42).1 = true ∧
    (db_place_bid exact_text_env large_price_store 7 1 (2 ^ 53 + 1) 42).2.1.bids
      = [{ item_id := 7, bidder_id := 1, bid_amount := 2 ^ 53 + 1 }] := by
  refine ⟨?_, ?_, ?_, ?_, ?_, ?_, ?_, ?_, ?_, ?_⟩
  · decide
  · decide
  · decide
  · intro env
    exact db_place_bid_passed env large_price_store 7 1 (2 ^ 53 + 1) 42
      { current_price := 2 ^ 53 + 1, buy_now_price := 0, status := 1 } rfl (by decide)
  all_goals decide

/-- C10 (defect: `db_buy_now` is a placeholder). Every call of `db_buy_now` returns false and
leaves the store as it was; in particular the first buy-now at 500 on the unsold item 7 of
`demo_store` fails and the item stays in status 1 (active) instead of becoming sold (2). -/
theorem C10_buy_now_is_a_placeholder :
    (∀ (s : Store) (item_id buyer_id price : Int),
        db_buy_now s item_id buyer_id price = (false, s)) ∧
      (db_buy_now demo_store 7 1 500).1 = false ∧
      (db_buy_now demo_store 7 1 500).2.items 7
        = some { current_price := 90, buy_now_price := 500, status := 1 } :=
  ⟨fun _ _ _ _ => rfl, rfl, rfl⟩

/-! ## Wire framing -/

theorem headerBytes_length (e : Endian) (h : MessageHeader) :
    (headerBytes e h).length = HEADER_SIZE := by
  cases e <;> simp [headerBytes, storeInt, beBytes, HEADER_SIZE]

theorem readBytes_length (mem : List Nat) (off len : Nat) : (readBytes mem off len).length = len := by
  simp [readBytes]

theorem ofBE_beBytes2 (v : Nat) : ofBE (beBytes 2 v) = v % 2 ^ 16 := by
  simp [beBytes, ofBE]
  omega

theorem ofBE_beBytes4 (v : Nat) : ofBE (beBytes 4 v) = v % 2 ^ 32 := by
  simp [beBytes, ofBE]
  omega

theorem ofBE_beBytes8 (v : Nat) : ofBE (beBytes 8 v) = v % 2 ^ 64 := by
  simp [beBytes, ofBE]
  omega

/-- The header a big-endian host reads back from its own memory image of a header. -/
theorem memHeader_headerBytes_big (h : MessageHeader) (rest : List Nat) :
    memHeader Endian.big (headerBytes Endian.big h ++ rest)
      = { version := h.version % 2 ^ 8, type := h.type % 2 ^ 8, flags := h.flags % 2 ^ 16,
          request_id := h.request_id % 2 ^ 32, timestamp := h.timestamp % 2 ^ 64,
          payload_length := h.payload_length % 2 ^ 32 } := by
  have e2 := ofBE_beBytes2 h.flags
  have e4 := ofBE_beBytes4 h.request_id
  have e8 := ofBE_beBytes8 h.timestamp
  have e4' := ofBE_beBytes4 h.payload_length
  simp only [beBytes, ofBE] at e2 e4 e8 e4'
  simp [memHeader, headerBytes, storeInt, loadInt, beBytes, readBytes, List.range_succ, ofBE]
  refine ⟨?_, ?_, ?_, ?_⟩
  · simpa using e2
  · simpa using e4
  · simpa using e8
  · simpa using e4'

/-- On a big-endian host the frame `send_to_client` emits for a message within the size limit
reads back, header field by header field and payload byte by payload byte, as the message sent
(with version 1). -/
theorem roundtrip_big_endian (c : ClientSession) (m : Message) (hfd : 0 ≤ c.sockfd)
    (htype : m.header.type < 2 ^ 8) (hflags : m.header.flags < 2 ^ 16)
    (hid : m.header.request_id < 2 ^ 32) (hts : m.header.timestamp < 2 ^ 64)
    (hlen : m.header.payload_length ≤ BUFF_SIZE) :
    ∃ frame, send_to_client Endian.big (some c) (some m) = some frame ∧
      memHeader Endian.big frame = { m.header with version := 1 } ∧
      frame.drop HEADER_SIZE = readBytes m.payload 0 m.header.payload_length := by
  have hfd' : ¬ c.sockfd < 0 := not_lt.mpr hfd
  have hlen' : m.header.payload_length < 2 ^ 32 := by
    simp only [BUFF_SIZE] at hlen
    omega
  have hmod : m.header.payload_length % 2 ^ 32 = m.header.payload_length :=
    Nat.mod_eq_of_lt hlen'
  have hnot : ¬ m.header.payload_length > BUFF_SIZE := not_lt.mpr hlen
  have hpay : (if m.header.payload_length > 0 then readBytes m.payload 0 m.header.payload_length
      else []) = readBytes m.payload 0 m.header.payload_length := by
    by_cases h0 : m.header.payload_length > 0
    · rw [if_pos h0]
    · have : m.header.payload_length = 0 := by omega
      simp [this, readBytes]
  have hsend : send_to_client Endian.big (some c) (some m)
      = some (headerBytes Endian.big
                { version := 1, type := m.header.type, flags := htons Endian.big m.header.flags,
                  request_id := htonl Endian.big m.header.request_id,
                  timestamp := host_to_net64 Endian.big m.header.timestamp,
                  payload_length := htonl Endian.big m.header.payload_length }
              ++ readBytes m.payload 0 m.header.payload_length) := by
    simp only [send_to_client, hfd', hmod, hnot, if_false, hpay]
  refine ⟨_, hsend, ?_, ?_⟩
  · rw [memHeader_headerBytes_big]
    simp only [htons, htonl, host_to_net64, Nat.mod_mod, Nat.mod_eq_of_lt htype,
      Nat.mod_eq_of_lt hflags, Nat.mod_eq_of_lt hid, Nat.mod_eq_of_lt hts, hmod]
    rfl
  · rw [List.drop_left' (headerBytes_length _ _)]

/-- The header a little-endian host reads back from its own memory image of a header. -/
theorem memHeader_headerBytes_little (h : MessageHeader) (rest : List Nat) :
    memHeader Endian.little (headerBytes Endian.little h ++ rest)
      = { version := h.version % 2 ^ 8, type := h.type % 2 ^ 8, flags := h.flags % 2 ^ 16,
          request_id := h.request_id % 2 ^ 32, timestamp := h.timestamp % 2 ^ 64,
          payload_length := h.payload_length % 2 ^ 32 } := by
  have e2 := ofBE_beBytes2 h.flags
  have e4 := ofBE_beBytes4 h.request_id
  have e8 := ofBE_beBytes8 h.timestamp
  have e4' := ofBE_beBytes4 h.payload_length
  simp only [beBytes, ofBE] at e2 e4 e8 e4'
  simp [memHeader, headerBytes, storeInt, loadInt, beBytes, readBytes, List.range_succ, ofBE]
  refine ⟨?_, ?_, ?_, ?_⟩
  · simpa using e2
  · simpa using e4
  · simpa using e8
  · simpa using e4'

/-- On a little-endian host the header read back from the frame `send_to_client` emits holds the
network-order values `htons(flags)`, `htonl(request_id)`, `host_to_net64(timestamp)` and
`htonl(payload_length)`, not the values sent. -/
theorem decoded_header_little_endian (c : ClientSession) (m : Message) (hfd : 0 ≤ c.sockfd)
    (hlen : m.header.payload_length ≤ BUFF_SIZE) :
    ∃ frame, send_to_client Endian.little (some c) (some m) = some frame ∧
      memHeader Endian.little frame
        = { version := 1, type := m.header.type % 2 ^ 8,
            flags := htons Endian.little m.header.flags % 2 ^ 16,
            request_id := htonl Endian.little m.header.request_id % 2 ^ 32,
            timestamp := host_to_net64 Endian.little m.header.timestamp % 2 ^ 64,
            payload_length := htonl Endian.little m.header.payload_length % 2 ^ 32 } := by
  have hfd' : ¬ c.sockfd < 0 := not_lt.mpr hfd
  have hlen' : m.header.payload_length < 2 ^ 32 := by
    simp only [BUFF_SIZE] at hlen
    omega
  have hmod : m.header.payload_length % 2 ^ 32 = m.header.payload_length :=
    Nat.mod_eq_of_lt hlen'
  have hnot : ¬ m.header.payload_length > BUFF_SIZE := not_lt.mpr hlen
  have hsend : send_to_client Endian.little (some c) (some m)
      = some (headerBytes Endian.little
                { version := 1, type := m.header.type,
                  flags := htons Endian.little m.header.flags,
                  request_id := htonl Endian.little m.header.request_id,
                  timestamp := host_to_net64 Endian.little m.header.timestamp,
                  payload_length := htonl Endian.little m.header.payload_length }
              ++ (if m.header.payload_length > 0 then
                    readBytes m.payload 0 m.header.payload_length else [])) := by
    simp only [send_to_client, hfd', hmod, hnot, if_false]
  refine ⟨_, hsend, ?_⟩
  rw [memHeader_headerBytes_little]
  rfl

/-- C1 (defect on a little-endian host). `send_to_client` emits the same big-endian frame for
`demo_message` on both hosts. A big-endian receiver gets the message back. On a little-endian
host `receive_message` returns flags 256, request id 16777216, timestamp 2^56 and payload length
50331648 instead of 1, 1, 1 and 3, and `client_thread` reads the same header fields (only its
`ntohl` of the payload length gives 3): the requires-ack flag is lost and no acknowledgment is
sent. -/
theorem C1_roundtrip_breaks_on_little_endian :
    send_to_client Endian.little (some demo_session) (some demo_message) = some demo_frame ∧
      send_to_client Endian.big (some demo_session) (some demo_message) = some demo_frame ∧
      (receive_message Endian.big 0 { n := 23, data := demo_frame } { messages := [], count := 0 }).1
        = some demo_message ∧
      (receive_message Endian.little 0 { n := 23, data := demo_frame }
          { messages := [], count := 0 }).1
        = some { header := { version := 1, type := 35, flags := 256, request_id := 16777216,
                             timestamp := 72057594037927936, payload_length := 50331648 }
                 payload := [1, 2, 3] } ∧
      client_thread Endian.little 0 demo_frame
        = ([Event.handled
              { header := { version := 1, type := 35, flags := 256, request_id := 16777216,
                            timestamp := 72057594037927936, payload_length := 50331648 }
                payload := [1, 2, 3] }],
            some LoopExit.disconnected) := by
  refine ⟨?_, ?_, ?_, ?_, ?_⟩ <;> decide

/-- C6 as stated fails: for a message with `payload_length` 2049, `send_to_client` does not fail
and does write: it hands `writev` a frame of 20 + 2048 bytes. -/
theorem C6_oversize_encode_counterexample :
    (send_to_client Endian.little (some demo_session)
        (some { header := { demo_message.header with payload_length := 2049 }
                payload := demo_message.payload })).map List.length = some 2068 := by
  simp [send_to_client, demo_session, headerBytes_length, readBytes_length, HEADER_SIZE, BUFF_SIZE,
    demo_message]

/-- C6, amended. For every message whose `payload_length` exceeds `BUFF_SIZE` (2048), sent to a
session with a valid descriptor, `send_to_client` does not fail: it clamps the length and writes a
frame of 20 + 2048 bytes whose header declares, big-endian, a payload length of 2048, followed by
the first 2048 bytes of the payload buffer. -/
theorem C6_oversize_encode_truncates (e : Endian) (c : ClientSession) (m : Message)
    (hfd : 0 ≤ c.sockfd) (hbig : BUFF_SIZE < m.header.payload_length)
    (h32 : m.header.payload_length < 2 ^ 32) :
    ∃ frame, send_to_client e (some c) (some m) = some frame ∧
      frame.length = HEADER_SIZE + BUFF_SIZE ∧
      (frame.take HEADER_SIZE).drop 16 = [0, 0, 8, 0] ∧
      frame.drop HEADER_SIZE = readBytes m.payload 0 BUFF_SIZE := by
  have hfd' : ¬ c.sockfd < 0 := not_lt.mpr hfd
  have hmod : m.header.payload_length % 2 ^ 32 = m.header.payload_length := Nat.mod_eq_of_lt h32
  have hsend : send_to_client e (some c) (some m)
      = some (headerBytes e
                { version := 1, type := m.header.type, flags := htons e m.header.flags,
                  request_id := htonl e m.header.request_id,
                  timestamp := host_to_net64 e m.header.timestamp,
                  payload_length := htonl e BUFF_SIZE }
              ++ readBytes m.payload 0 BUFF_SIZE) := by
    simp only [send_to_client, hfd', hmod, hbig, if_true, if_false]
    rfl
  refine ⟨_, hsend, ?_, ?_, ?_⟩
  · simp [headerBytes_length, readBytes_length, BUFF_SIZE]
  · rw [List.take_left' (headerBytes_length e _)]
    cases e <;> simp [headerBytes, storeInt, beBytes, htonl, bswap, ofBE, BUFF_SIZE]
  · rw [List.drop_left' (headerBytes_length e _)]

/-- Witness for the amended C6: `demo_message` with its `payload_length` set to 2049. -/
theorem C6_oversize_encode_truncates_witness :
    (0 : Int) ≤ demo_session.sockfd ∧ BUFF_SIZE < 2049 ∧
      ∃ frame,
        send_to_client Endian.little (some demo_session)
            (some { header := { demo_message.header with payload_length := 2049 }
                    payload := demo_message.payload }) = some frame ∧
          frame.length = HEADER_SIZE + BUFF_SIZE :=
  ⟨by decide, by decide, by
    obtain ⟨frame, h1, h2, _⟩ :=
      C6_oversize_encode_truncates Endian.little demo_session
        { header := { demo_message.header with payload_length := 2049 }
          payload := demo_message.payload } (by decide) (by decide) (by decide)
    exact ⟨frame, h1, h2⟩⟩

/-- A pass of the read loop whose header declares more than `BUFF_SIZE` payload bytes reads no
payload, does not leave the loop, and dispatches the header with an empty payload unless the
is-ack flag is set. -/
theorem client_thread_iter_oversize (e : Endian) (now_s : Nat) (hdr : Recv) (pay : Nat → Recv)
    (hn : 0 < hdr.n) (hbig : BUFF_SIZE < ntohl e (memHeader e hdr.data).payload_length) :
    (client_thread_iter e now_s hdr pay).2 = LoopExit.next ∧
      (is_flag_set (memHeader e hdr.data).flags FLAG_IS_ACK = false →
        Event.handled { header := memHeader e hdr.data, payload := [] }
          ∈ (client_thread_iter e now_s hdr pay).1) := by
  have h1 : ¬ hdr.n ≤ 0 := not_le.mpr hn
  have h2 : ¬ ntohl e (memHeader e hdr.data).payload_length ≤ BUFF_SIZE := not_le.mpr hbig
  constructor
  · simp [client_thread_iter, h1, h2]
  · intro hack
    simp [client_thread_iter, h1, h2, hack]

/-- C7 (defect: an oversize declared length is skipped, not rejected). On either host, for the
stream `oversize_header ++ smuggled_header` (a header declaring 2049 payload bytes, then twenty of
those bytes, then end of stream), `client_thread` does not leave the loop at the oversize header:
it passes that header with an empty payload to `handle_client_message`, then reads the following
payload bytes as the next header and passes that on too, and only leaves at end of stream. -/
theorem C7_oversize_decode_not_rejected :
    client_thread Endian.little 0 (oversize_header ++ smuggled_header)
        = ([Event.handled
              { header := { version := 1, type := 33, flags := 0, request_id := 0, timestamp := 0,
                            payload_length := 17301504 }
                payload := [] },
            Event.handled
              { header := { version := 1, type := 36, flags := 0, request_id := 0, timestamp := 0,
                            payload_length := 0 }
                payload := [] }],
            some LoopExit.disconnected) ∧
      client_thread Endian.big 0 (oversize_header ++ smuggled_header)
        = ([Event.handled
              { header := { version := 1, type := 33, flags := 0, request_id := 0, timestamp := 0,
                            payload_length := 2049 }
                payload := [] },
            Event.handled
              { header := { version := 1, type := 36, flags := 0, request_id := 0, timestamp := 0,
                            payload_length := 0 }
                payload := [] }],
            some LoopExit.disconnected) ∧
      ntohl Endian.little (memHeader Endian.little oversize_header).payload_length = 2049 ∧
      ntohl Endian.big (memHeader Endian.big oversize_header).payload_length = 2049 := by
  refine ⟨?_, ?_, ?_, ?_⟩ <;> decide

/-! ## Reliability queue -/

theorem modifyFirst_length {α : Type} (p : α → Bool) (f : α → α) (l : List α) :
    (modifyFirst p f l).length = l.length := by
  induction l with
  | nil => rfl
  | cons x xs ih => by_cases h : p x <;> simp [modifyFirst, h, ih]

theorem modifyFirst_of_none {α : Type} (p : α → Bool) (f : α → α) (l : List α)
    (h : ∀ x ∈ l, p x = false) : modifyFirst p f l = l := by
  induction l with
  | nil => rfl
  | cons x xs ih =>
    have hx : p x = false := h x (List.mem_cons_self _ _)
    simp [modifyFirst, hx, ih (fun y hy => h y (List.mem_cons_of_mem _ hy))]

theorem modifyAt_append_left {α : Type} (f : α → α) (l r : List α) (k : Nat) (hk : k < l.length) :
    modifyAt f (l ++ r) k = modifyAt f l k ++ r := by
  induction l generalizing k with
  | nil => simp at hk
  | cons x xs ih =>
    cases k with
    | zero => simp [modifyAt]
    | succ k =>
      have hk' : k < xs.length := by simpa using hk
      simp [modifyAt, ih k hk']

/-- The scan of `pending_queue_find` either finds nothing, or returns the position of the first
matching entry, the one `modifyFirst` acts on. -/
theorem find_from_spec (r : Nat) (f : PendingMessage → PendingMessage) (l : List PendingMessage) :
    ∀ i : Nat,
      (pending_queue_find_from r l i = -1 ∧ modifyFirst (is_pending r) f l = l) ∨
        ∃ k, k < l.length ∧ pending_queue_find_from r l i = ((i + k : Nat) : Int) ∧
          modifyAt f l k = modifyFirst (is_pending r) f l := by
  induction l with
  | nil => intro i; left; exact ⟨rfl, rfl⟩
  | cons m ms ih =>
    intro i
    by_cases hm : is_pending r m = true
    · have hm2 : (m.is_active && m.request_id == r) = true := hm
      right
      refine ⟨0, by simp, ?_, ?_⟩
      · simp [pending_queue_find_from, hm2]
      · simp [modifyAt, modifyFirst, hm]
    · have hm2 : ¬ (m.is_active && m.request_id == r) = true := hm
      rcases ih (i + 1) with ⟨h1, h2⟩ | ⟨k, hk, h1, h2⟩
      · left
        refine ⟨?_, ?_⟩
        · simp only [pending_queue_find_from, if_neg hm2]; exact h1
        · simp only [modifyFirst, if_neg hm, h2]
      · right
        refine ⟨k + 1, by simpa using hk, ?_, ?_⟩
        · simp only [pending_queue_find_from, if_neg hm2]
          rw [h1]
          congr 1
          omega
        · simp only [modifyAt, modifyFirst, if_neg hm, h2]

/-- An update through the index `pending_queue_find` returns is an update of the first matching
visible entry. -/
theorem modify_found (q : PendingQueue) (r : Nat) (f : PendingMessage → PendingMessage) :
    (if pending_queue_find q r ≥ 0 then
        { q with messages := modifyAt f q.messages (pending_queue_find q r).toNat }
      else q)
      = { messages := modifyFirst (is_pending r) f q.visible ++ q.messages.drop q.count
          count := q.count } := by
  unfold pending_queue_find PendingQueue.visible
  rcases find_from_spec r f (q.messages.take q.count) 0 with ⟨h1, h2⟩ | ⟨k, hk, h1, h2⟩
  · rw [h1, h2, List.take_append_drop]
    simp
  · rw [h1, ← h2]
    have hsplit : modifyAt f q.messages k
        = modifyAt f (q.messages.take q.count) k ++ q.messages.drop q.count := by
      conv_lhs => rw [← List.take_append_drop q.count q.messages]
      exact modifyAt_append_left f _ _ k hk
    simp [hsplit]

theorem pending_queue_ack_eq (q : PendingQueue) (r : Nat) :
    pending_queue_ack q r
      = { messages := modifyFirst (is_pending r) (fun m => { m with is_active := false }) q.visible
            ++ q.messages.drop q.count
          count := q.count } := by
  unfold pending_queue_ack
  exact modify_found q r _

theorem pending_queue_increment_retry_eq (q : PendingQueue) (r : Nat) :
    pending_queue_increment_retry q r
      = { messages :=
            modifyFirst (is_pending r) (fun m => { m with retry_count := (m.retry_count + 1) % 2 ^ 8 })
                q.visible
              ++ q.messages.drop q.count
          count := q.count } := by
  unfold pending_queue_increment_retry
  exact modify_found q r _

/-- Replacing the visible entries by as many others leaves the hidden ones in place. -/
theorem visible_replace (q : PendingQueue) (a : List PendingMessage)
    (ha : a.length = q.visible.length) :
    ({ messages := a ++ q.messages.drop q.count, count := q.count } : PendingQueue).visible = a ∧
      ({ messages := a ++ q.messages.drop q.count, count := q.count } : PendingQueue).messages.drop
          q.count = q.messages.drop q.count := by
  unfold PendingQueue.visible at *
  simp only [List.length_take] at ha
  rcases Nat.lt_or_ge q.messages.length q.count with hlt | hge
  · have hd : q.messages.drop q.count = [] := List.drop_eq_nil_of_le (le_of_lt hlt)
    have hal : a.length ≤ q.count := by omega
    simp [hd, List.take_of_length_le hal, List.drop_eq_nil_of_le hal]
  · have hal : a.length = q.count := by omega
    constructor
    · show List.take q.count (a ++ _) = a
      exact List.take_left' hal
    · show List.drop q.count (a ++ _) = _
      exact List.drop_left' hal

theorem deactivate_first_twice (r : Nat) (l : List PendingMessage)
    (h : (l.filter (is_pending r)).length ≤ 1) :
    modifyFirst (is_pending r) (fun m => { m with is_active := false })
        (modifyFirst (is_pending r) (fun m => { m with is_active := false }) l)
      = modifyFirst (is_pending r) (fun m => { m with is_active := false }) l := by
  induction l with
  | nil => rfl
  | cons m ms ih =>
    by_cases hm : is_pending r m = true
    · have hdead : is_pending r { m with is_active := false } = false := by simp [is_pending]
      have hnone : ∀ x ∈ ms, is_pending r x = false := by
        intro x hx
        by_contra hcon
        have hx' : x ∈ ms.filter (is_pending r) := List.mem_filter.mpr ⟨hx, by simpa using hcon⟩
        have hpos : 0 < (ms.filter (is_pending r)).length := List.length_pos_of_mem hx'
        rw [List.filter_cons_of_pos hm, List.length_cons] at h
        omega
      simp only [modifyFirst, if_pos hm, hdead, modifyFirst_of_none _ _ ms hnone]
      simp
    · have h' : (ms.filter (is_pending r)).length ≤ 1 := by
        simpa [List.filter, hm] using h
      simp only [modifyFirst, if_neg hm, ih h']

/-- C3 as stated fails: on `duplicate_queue`, where two active entries carry request id 5, the
second `pending_queue_ack` for id 5 deactivates the second entry, so applying it twice does not
give the same queue as applying it once. -/
theorem C3_ack_idempotence_counterexample :
    pending_queue_ack (pending_queue_ack duplicate_queue 5) 5 ≠ pending_queue_ack duplicate_queue 5 ∧
      ((pending_queue_ack duplicate_queue 5).messages.map (fun m => m.is_active) = [false, true]) ∧
      ((pending_queue_ack (pending_queue_ack duplicate_queue 5) 5).messages.map
          (fun m => m.is_active) = [false, false]) := by
  refine ⟨?_, ?_, ?_⟩ <;> decide

/-- C3, amended. For every pending queue `q` and request id `r` such that at most one active entry
below `count` carries `r`, applying `pending_queue_ack(q, r)` twice gives the same queue as
applying it once; and for every queue, an ACK whose id matches no active entry below `count`
leaves the queue unchanged. -/
theorem C3_ack_idempotence (q : PendingQueue) (r : Nat) :
    ((q.visible.filter (is_pending r)).length ≤ 1 →
        pending_queue_ack (pending_queue_ack q r) r = pending_queue_ack q r) ∧
      ((∀ m ∈ q.visible, ¬ (m.is_active = true ∧ m.request_id = r)) →
        pending_queue_ack q r = q) := by
  constructor
  · intro h
    have hlen : (modifyFirst (is_pending r) (fun m => { m with is_active := false }) q.visible).length
        = q.visible.length := modifyFirst_length _ _ _
    obtain ⟨hv, hd⟩ := visible_replace q _ hlen
    rw [pending_queue_ack_eq q r]
    rw [pending_queue_ack_eq]
    simp only [hv]
    rw [deactivate_first_twice r q.visible h]
    congr 1
    simp only [List.append_cancel_left_eq]
    exact hd
  · intro h
    have hnone : ∀ x ∈ q.visible, is_pending r x = false := by
      intro x hx
      have := h x hx
      simp only [is_pending]
      by_contra hcon
      simp at hcon
      exact this hcon
    rw [pending_queue_ack_eq q r, modifyFirst_of_none _ _ _ hnone]
    unfold PendingQueue.visible
    rw [List.take_append_drop]

/-- Witness for the amended C3: `duplicate_queue` after one ACK for id 5 has a single active entry
with that id, and no active entry with id 9. -/
theorem C3_ack_idempotence_witness :
    (((pending_queue_ack duplicate_queue 5).visible.filter (is_pending 5)).length ≤ 1 ∧
        pending_queue_ack (pending_queue_ack (pending_queue_ack duplicate_queue 5) 5) 5
          = pending_queue_ack (pending_queue_ack duplicate_queue 5) 5) ∧
      ((∀ m ∈ duplicate_queue.visible, ¬ (m.is_active = true ∧ m.request_id = 9)) ∧
        pending_queue_ack duplicate_queue 9 = duplicate_queue) :=
  ⟨⟨by decide, (C3_ack_idempotence (pending_queue_ack duplicate_queue 5) 5).1 (by decide)⟩,
    ⟨by decide, (C3_ack_idempotence duplicate_queue 9).2 (by decide)⟩⟩

theorem get_expired_from_eq (now : Nat) (max_count : Int) (l : List PendingMessage) :
    ∀ out : List Nat, ((out.length + l.length : Nat) : Int) ≤ max_count →
      pending_queue_get_expired_from now max_count l out
        = out ++ (l.filter (is_expired now)).map (fun m => m.request_id) := by
  induction l with
  | nil => intro out _; simp [pending_queue_get_expired_from]
  | cons m ms ih =>
    intro out hlen
    have hlt : (out.length : Int) < max_count := by
      simp only [List.length_cons] at hlen
      omega
    simp only [pending_queue_get_expired_from, if_pos hlt]
    by_cases hact : m.is_active = true
    · by_cases hexp : (now % 2 ^ 64 + 2 ^ 64 - m.send_time % 2 ^ 64) % 2 ^ 64 > ACK_TIMEOUT_MS ∧
          m.retry_count < MAX_RETRIES
      · have hm : is_expired now m = true := by
          simp only [is_expired, hact, Bool.true_and, decide_eq_true_eq]; exact hexp
        rw [if_pos hact, if_pos hexp, ih]
        · simp [List.filter_cons_of_pos hm]
        · simp only [List.length_append, List.length_cons, List.length_nil] at hlen ⊢
          omega
      · have hm : ¬ is_expired now m = true := by
          simp only [is_expired, hact, Bool.true_and, decide_eq_true_eq]; exact hexp
        rw [if_pos hact, if_neg hexp, ih]
        · simp [List.filter_cons_of_neg hm]
        · simp only [List.length_cons] at hlen
          omega
    · have hm : ¬ is_expired now m = true := by simp [is_expired, hact]
      rw [if_neg hact, ih]
      · simp [List.filter_cons_of_neg hm]
      · simp only [List.length_cons] at hlen
        omega

theorem queue_eq_visible (q : PendingQueue) :
    q = { messages := q.visible ++ q.messages.drop q.count, count := q.count } := by
  cases q
  simp [PendingQueue.visible]

theorem bump_all_length (ids : List Nat) : ∀ a : List PendingMessage,
    (bump_all a ids).length = a.length := by
  induction ids with
  | nil => intro a; rfl
  | cons r rs ih =>
    intro a
    simp only [bump_all, List.foldl_cons] at ih ⊢
    rw [ih, modifyFirst_length]

theorem increment_all_eq (ids : List Nat) : ∀ q : PendingQueue,
    ids.foldl pending_queue_increment_retry q
      = { messages := bump_all q.visible ids ++ q.messages.drop q.count, count := q.count } := by
  induction ids with
  | nil => intro q; exact queue_eq_visible q
  | cons r rs ih =>
    intro q
    have hlen : (modifyFirst (is_pending r) bump_retry q.visible).length = q.visible.length :=
      modifyFirst_length _ _ _
    obtain ⟨hv, hd⟩ := visible_replace q _ hlen
    simp only [List.foldl_cons]
    rw [ih, pending_queue_increment_retry_eq]
    have hb : (fun m : PendingMessage => { m with retry_count := (m.retry_count + 1) % 2 ^ 8 })
        = bump_retry := rfl
    rw [hb, hv, hd]
    rfl

/-- One sweep, in terms of the visible entries. -/
theorem sweep_eq (q : PendingQueue) (now : Nat) (max_count : Int)
    (hmax : (q.visible.length : Int) ≤ max_count) :
    (sweep q now max_count).1 = (q.visible.filter (is_expired now)).map (fun m => m.request_id) ∧
      (sweep q now max_count).2
        = { messages :=
              (bump_all q.visible ((q.visible.filter (is_expired now)).map (fun m => m.request_id))).map
                  expire
                ++ q.messages.drop q.count
            count := q.count } := by
  have hids : pending_queue_get_expired q now max_count
      = (q.visible.filter (is_expired now)).map (fun m => m.request_id) := by
    unfold pending_queue_get_expired
    rw [get_expired_from_eq now max_count _ [] (by simpa [PendingQueue.visible] using hmax)]
    simp [PendingQueue.visible]
  refine ⟨hids, ?_⟩
  have hc : ∀ p : PendingQueue, pending_queue_cleanup p
      = { messages := p.visible.map expire ++ p.messages.drop p.count, count := p.count } :=
    fun _ => rfl
  obtain ⟨hv, hd⟩ := visible_replace q _ (bump_all_length
    ((q.visible.filter (is_expired now)).map (fun m => m.request_id)) q.visible)
  simp only [sweep, hids, increment_all_eq]
  rw [hc, hv]
  congr 1
  rw [List.append_cancel_left_eq]
  exact hd

theorem is_pending_bump (r : Nat) (m : PendingMessage) :
    is_pending r (bump_retry m) = is_pending r m := rfl

theorem is_pending_expire (r : Nat) (m : PendingMessage) (h : is_pending r m = false) :
    is_pending r (expire m) = false := by
  unfold expire
  split
  · simp [is_pending]
  · exact h

theorem modifyFirst_append {α : Type} (p : α → Bool) (f : α → α) (l1 l2 : List α) :
    modifyFirst p f (l1 ++ l2)
      = if l1.any p then modifyFirst p f l1 ++ l2 else l1 ++ modifyFirst p f l2 := by
  induction l1 with
  | nil => simp
  | cons x xs ih =>
    by_cases hx : p x = true
    · simp [modifyFirst, hx]
    · have hx' : p x = false := by simpa using hx
      have hstep : modifyFirst p f (x :: xs ++ l2) = x :: modifyFirst p f (xs ++ l2) := by
        show modifyFirst p f (x :: (xs ++ l2)) = _
        simp only [modifyFirst, if_neg hx]
      rw [hstep, ih, List.any_cons, hx', Bool.false_or]
      by_cases hany : xs.any p = true
      · simp only [if_pos hany, modifyFirst, if_neg hx, List.cons_append]
      · simp only [if_neg hany, List.cons_append]

theorem modifyFirst_bump_pending (p : PendingMessage → Bool) (r : Nat) (l : List PendingMessage)
    (h : ∀ m ∈ l, is_pending r m = false) :
    ∀ m ∈ modifyFirst p bump_retry l, is_pending r m = false := by
  induction l with
  | nil => intro m hm; simp [modifyFirst] at hm
  | cons x xs ih =>
    intro m hm
    have hx := h x (List.mem_cons_self _ _)
    have hxs : ∀ y ∈ xs, is_pending r y = false := fun y hy => h y (List.mem_cons_of_mem _ hy)
    by_cases hp : p x = true
    · simp only [modifyFirst, if_pos hp, List.mem_cons] at hm
      rcases hm with rfl | hm
      · rw [is_pending_bump]; exact hx
      · exact hxs m hm
    · simp only [modifyFirst, if_neg hp, List.mem_cons] at hm
      rcases hm with rfl | hm
      · exact hx
      · exact ih hxs m hm

theorem modifyFirst_bump_active (p : PendingMessage → Bool) (l : List PendingMessage) :
    (modifyFirst p bump_retry l).map (fun m => m.is_active) = l.map (fun m => m.is_active) := by
  induction l with
  | nil => rfl
  | cons x xs ih =>
    by_cases hp : p x = true
    · simp [modifyFirst, hp, bump_retry]
    · simp [modifyFirst, hp, ih]

theorem any_false_of_forall {α : Type} (p : α → Bool) (l : List α) (h : ∀ x ∈ l, p x = false) :
    l.any p = false := by
  induction l with
  | nil => rfl
  | cons x xs ih =>
    simp only [List.any_cons, h x (List.mem_cons_self _ _), Bool.false_or]
    exact ih (fun y hy => h y (List.mem_cons_of_mem _ hy))

/-- Incrementing the retry count of another id leaves the followed entry as it is. -/
theorem tracked_bump_other (rid st i j r : Nat) (a : List PendingMessage) (hr : r ≠ rid)
    (h : Tracked rid st i j a) : Tracked rid st i j (modifyFirst (is_pending r) bump_retry a) := by
  obtain ⟨pre, e, post, ha, hlen, hid, hst, hact, hret, hpre, hpost⟩ := h
  have he : is_pending r e = false := by
    simp only [is_pending, hact, Bool.true_and, hid]
    simpa using fun h' : rid = r => hr h'.symm
  subst ha
  rw [modifyFirst_append]
  split
  · exact ⟨_, e, post, rfl, by rw [modifyFirst_length]; exact hlen, hid, hst, hact, hret,
      modifyFirst_bump_pending _ rid pre hpre, hpost⟩
  · refine ⟨pre, e, modifyFirst (is_pending r) bump_retry post, ?_, hlen, hid, hst, hact, hret,
      hpre, modifyFirst_bump_pending _ rid post hpost⟩
    simp [modifyFirst, he]

/-- Incrementing the retry count of the followed id increments the followed entry. -/
theorem tracked_bump_self (rid st i j : Nat) (a : List PendingMessage)
    (h : Tracked rid st i j a) :
    Tracked rid st i ((j + 1) % 2 ^ 8) (modifyFirst (is_pending rid) bump_retry a) := by
  obtain ⟨pre, e, post, ha, hlen, hid, hst, hact, hret, hpre, hpost⟩ := h
  have he : is_pending rid e = true := by simp [is_pending, hact, hid]
  subst ha
  rw [modifyFirst_append, any_false_of_forall _ pre hpre]
  refine ⟨pre, bump_retry e, post, ?_, hlen, hid, hst, hact, ?_, hpre, hpost⟩
  · simp [modifyFirst, he]
  · simp [bump_retry, hret]

theorem tracked_bump_all_other (rid st i j : Nat) (ids : List Nat) (hids : rid ∉ ids) :
    ∀ a : List PendingMessage, Tracked rid st i j a → Tracked rid st i j (bump_all a ids) := by
  induction ids with
  | nil => intro a h; exact h
  | cons r rs ih =>
    intro a h
    have hr : r ≠ rid := fun h' => hids (by simp [h'])
    have hrs : rid ∉ rs := fun h' => hids (List.mem_cons_of_mem _ h')
    simp only [bump_all, List.foldl_cons]
    exact ih hrs _ (tracked_bump_other rid st i j r a hr h)

theorem bump_all_append (a : List PendingMessage) (ids1 ids2 : List Nat) :
    bump_all a (ids1 ++ ids2) = bump_all (bump_all a ids1) ids2 := by
  simp [bump_all, List.foldl_append]

theorem tracked_bump_all (rid st i j : Nat) (ids1 ids2 : List Nat) (h1 : rid ∉ ids1)
    (h2 : rid ∉ ids2) (a : List PendingMessage) (h : Tracked rid st i j a) :
    Tracked rid st i ((j + 1) % 2 ^ 8) (bump_all a (ids1 ++ rid :: ids2)) := by
  rw [bump_all_append]
  have ha := tracked_bump_all_other rid st i j ids1 h1 a h
  have hb := tracked_bump_self rid st i j _ ha
  exact tracked_bump_all_other rid st i _ ids2 h2 _ hb

theorem expired_ids_not_mem (now rid : Nat) (l : List PendingMessage)
    (h : ∀ m ∈ l, is_pending rid m = false) :
    rid ∉ (l.filter (is_expired now)).map (fun m => m.request_id) := by
  intro hmem
  obtain ⟨m, hm, hid⟩ := List.mem_map.mp hmem
  obtain ⟨hml, hexp⟩ := List.mem_filter.mp hm
  have hact : m.is_active = true := by
    simp only [is_expired, Bool.and_eq_true] at hexp
    exact hexp.1
  have := h m hml
  simp [is_pending, hact, hid] at this

/-- A sweep late enough reports the followed entry exactly once. -/
theorem tracked_expired_ids (rid st i j now : Nat) (a : List PendingMessage)
    (h : Tracked rid st i j a) (hj : j < MAX_RETRIES) (hlate : st + ACK_TIMEOUT_MS < now)
    (hnow : now < 2 ^ 64) :
    ∃ ids1 ids2, (a.filter (is_expired now)).map (fun m => m.request_id) = ids1 ++ rid :: ids2 ∧
      rid ∉ ids1 ∧ rid ∉ ids2 := by
  obtain ⟨pre, e, post, ha, _, hid, hst, hact, hret, hpre, hpost⟩ := h
  have he : is_expired now e = true := by
    simp only [is_expired, hact, Bool.true_and, decide_eq_true_eq, hst, hret]
    refine ⟨?_, hj⟩
    simp only [ACK_TIMEOUT_MS] at hlate ⊢
    omega
  refine ⟨(pre.filter (is_expired now)).map (fun m => m.request_id),
    (post.filter (is_expired now)).map (fun m => m.request_id), ?_,
    expired_ids_not_mem now rid pre hpre, expired_ids_not_mem now rid post hpost⟩
  rw [ha, List.filter_append, List.filter_cons_of_pos he, List.map_append, List.map_cons, hid]

theorem tracked_expire_alive (rid st i j : Nat) (a : List PendingMessage)
    (h : Tracked rid st i j a) (hj : j < MAX_RETRIES) : Tracked rid st i j (a.map expire) := by
  obtain ⟨pre, e, post, ha, hlen, hid, hst, hact, hret, hpre, hpost⟩ := h
  have he : expire e = e := by
    unfold expire
    have hno : ¬ e.retry_count ≥ MAX_RETRIES := by omega
    simp [hno]
  refine ⟨pre.map expire, e, post.map expire, ?_, by simpa using hlen, hid, hst, hact, hret, ?_, ?_⟩
  · rw [ha, List.map_append, List.map_cons, he]
  · intro m hm
    obtain ⟨x, hx, rfl⟩ := List.mem_map.mp hm
    exact is_pending_expire rid x (hpre x hx)
  · intro m hm
    obtain ⟨x, hx, rfl⟩ := List.mem_map.mp hm
    exact is_pending_expire rid x (hpost x hx)

theorem tracked_expire_dead (rid st i j : Nat) (a : List PendingMessage)
    (h : Tracked rid st i j a) (hj : MAX_RETRIES ≤ j) : Retired rid i (a.map expire) := by
  obtain ⟨pre, e, post, ha, hlen, hid, hst, hact, hret, hpre, hpost⟩ := h
  have he : (expire e).is_active = false := by
    unfold expire
    have hyes : e.retry_count ≥ MAX_RETRIES := by omega
    simp [hact, hyes]
  constructor
  · rw [ha]
    simp only [List.map_append, List.map_cons]
    rw [List.getElem?_append_right (by simp [hlen])]
    simp [hlen, he]
  · intro m hm
    rw [ha, List.map_append, List.map_cons, List.mem_append, List.mem_cons] at hm
    rcases hm with hm | rfl | hm
    · obtain ⟨x, hx, rfl⟩ := List.mem_map.mp hm
      exact is_pending_expire rid x (hpre x hx)
    · simp [is_pending, he]
    · obtain ⟨x, hx, rfl⟩ := List.mem_map.mp hm
      exact is_pending_expire rid x (hpost x hx)

theorem retired_bump_all (rid i : Nat) (ids : List Nat) :
    ∀ a : List PendingMessage, Retired rid i a → Retired rid i (bump_all a ids) := by
  induction ids with
  | nil => intro a h; exact h
  | cons r rs ih =>
    intro a h
    simp only [bump_all, List.foldl_cons]
    refine ih _ ⟨?_, modifyFirst_bump_pending _ rid a h.2⟩
    rw [modifyFirst_bump_active]
    exact h.1

theorem retired_expire (rid i : Nat) (a : List PendingMessage) (h : Retired rid i a) :
    Retired rid i (a.map expire) := by
  obtain ⟨hact, hpend⟩ := h
  constructor
  · rw [List.getElem?_map] at hact
    rw [List.getElem?_map, List.getElem?_map]
    cases hm : a[i]? with
    | none => rw [hm] at hact; simp at hact
    | some m =>
      rw [hm] at hact
      have hma : m.is_active = false := by simpa using hact
      simp [expire, hma]
  · intro m hm
    obtain ⟨x, hx, rfl⟩ := List.mem_map.mp hm
    exact is_pending_expire rid x (hpend x hx)

/-- The visible entries and the count after a sweep. -/
theorem sweep_visible (q : PendingQueue) (now : Nat) (max_count : Int)
    (hmax : (q.visible.length : Int) ≤ max_count) :
    (sweep q now max_count).2.visible
        = (bump_all q.visible
            ((q.visible.filter (is_expired now)).map (fun m => m.request_id))).map expire ∧
      (sweep q now max_count).2.count = q.count := by
  obtain ⟨_, h2⟩ := sweep_eq q now max_count hmax
  rw [h2]
  refine ⟨(visible_replace q _ ?_).1, rfl⟩
  rw [List.length_map, bump_all_length]

theorem visible_length_le (q : PendingQueue) : q.visible.length ≤ q.count := by
  simp [PendingQueue.visible, List.length_take]

/-- Once the followed entry is retired, no sweep reports its id and it stays retired. -/
theorem run_sweeps_retired (rid i : Nat) (sweeps : List (Nat × Int)) :
    ∀ q : PendingQueue, Retired rid i q.visible → q.count ≤ MAX_PENDING_MESSAGES →
      (∀ s ∈ sweeps, (MAX_PENDING_MESSAGES : Int) ≤ s.2) →
      (∀ k, k < sweeps.length → (((run_sweeps q sweeps).1)[k]?.getD []).count rid = 0) ∧
        Retired rid i (run_sweeps q sweeps).2.visible ∧
        (run_sweeps q sweeps).2.count = q.count := by
  induction sweeps with
  | nil => intro q h _ _; exact ⟨fun k hk => by simp at hk, h, rfl⟩
  | cons s ss ih =>
    intro q h hc hs
    have hmax : (q.visible.length : Int) ≤ s.2 := by
      have h1 := visible_length_le q
      have h2 := hs s (List.mem_cons_self _ _)
      omega
    obtain ⟨hids, _⟩ := sweep_eq q s.1 s.2 hmax
    obtain ⟨hvis, hcnt⟩ := sweep_visible q s.1 s.2 hmax
    have hret : Retired rid i (sweep q s.1 s.2).2.visible := by
      rw [hvis]
      exact retired_expire rid i _ (retired_bump_all rid i _ _ h)
    obtain ⟨ih1, ih2, ih3⟩ := ih (sweep q s.1 s.2).2 hret (by rw [hcnt]; exact hc)
      (fun x hx => hs x (List.mem_cons_of_mem _ hx))
    refine ⟨?_, ih2, by rw [← hcnt]; exact ih3⟩
    intro k hk
    cases k with
    | zero =>
      simp only [run_sweeps, List.getElem?_cons_zero, Option.getD_some, hids]
      exact List.count_eq_zero.mpr (expired_ids_not_mem s.1 rid _ h.2)
    | succ k =>
      simp only [run_sweeps, List.getElem?_cons_succ]
      exact ih1 k (by simpa using hk)

/-- While the followed entry has retry count `j < 3`, the next `3 - j` sweeps report its id once
each, later ones never do, and after them it is retired. -/
theorem run_sweeps_tracked (rid st i : Nat) (sweeps : List (Nat × Int)) :
    ∀ (q : PendingQueue) (j : Nat), j < MAX_RETRIES → Tracked rid st i j q.visible →
      q.count ≤ MAX_PENDING_MESSAGES →
      (∀ s ∈ sweeps, st + ACK_TIMEOUT_MS < s.1 ∧ s.1 < 2 ^ 64 ∧ (MAX_PENDING_MESSAGES : Int) ≤ s.2) →
      (∀ k, k < sweeps.length →
          (((run_sweeps q sweeps).1)[k]?.getD []).count rid = if j + k < MAX_RETRIES then 1 else 0) ∧
        (MAX_RETRIES ≤ j + sweeps.length → Retired rid i (run_sweeps q sweeps).2.visible) ∧
        (run_sweeps q sweeps).2.count = q.count := by
  induction sweeps with
  | nil =>
    intro q j hj _ _ _
    exact ⟨fun k hk => by simp at hk, fun h => by simp at h; omega, rfl⟩
  | cons s ss ih =>
    intro q j hj h hc hs
    obtain ⟨hlate, hnow, hcap⟩ := hs s (List.mem_cons_self _ _)
    have hss : ∀ x ∈ ss, st + ACK_TIMEOUT_MS < x.1 ∧ x.1 < 2 ^ 64 ∧
        (MAX_PENDING_MESSAGES : Int) ≤ x.2 := fun x hx => hs x (List.mem_cons_of_mem _ hx)
    have hmax : (q.visible.length : Int) ≤ s.2 := by
      have h1 := visible_length_le q
      omega
    obtain ⟨hids, _⟩ := sweep_eq q s.1 s.2 hmax
    obtain ⟨hvis, hcnt⟩ := sweep_visible q s.1 s.2 hmax
    obtain ⟨ids1, ids2, hsplit, hn1, hn2⟩ := tracked_expired_ids rid st i j s.1 _ h hj hlate hnow
    have hbump := tracked_bump_all rid st i j ids1 ids2 hn1 hn2 _ h
    have hj1 : (j + 1) % 2 ^ 8 = j + 1 := by
      simp only [MAX_RETRIES] at hj
      omega
    rw [hj1, ← hsplit] at hbump
    have hc' : (sweep q s.1 s.2).2.count ≤ MAX_PENDING_MESSAGES := by rw [hcnt]; exact hc
    have hzero : ((run_sweeps q (s :: ss)).1[0]?.getD []).count rid = 1 := by
      simp only [run_sweeps, List.getElem?_cons_zero, Option.getD_some, hids, hsplit]
      rw [List.count_append, List.count_cons_self, List.count_eq_zero.mpr hn1,
        List.count_eq_zero.mpr hn2]
    by_cases hlast : j + 1 < MAX_RETRIES
    · have htr : Tracked rid st i (j + 1) (sweep q s.1 s.2).2.visible := by
        rw [hvis]
        exact tracked_expire_alive rid st i (j + 1) _ hbump hlast
      obtain ⟨ih1, ih2, ih3⟩ := ih (sweep q s.1 s.2).2 (j + 1) hlast htr hc' hss
      refine ⟨?_, ?_, by rw [← hcnt]; exact ih3⟩
      · intro k hk
        cases k with
        | zero => rw [hzero, if_pos (by omega)]
        | succ k =>
          simp only [run_sweeps, List.getElem?_cons_succ]
          rw [ih1 k (by simpa using hk)]
          have : j + 1 + k = j + (k + 1) := by omega
          rw [this]
      · intro hlen
        exact ih2 (by simp only [List.length_cons] at hlen; omega)
    · have hdead : Retired rid i (sweep q s.1 s.2).2.visible := by
        rw [hvis]
        exact tracked_expire_dead rid st i (j + 1) _ hbump (by omega)
      obtain ⟨r1, r2, r3⟩ := run_sweeps_retired rid i ss (sweep q s.1 s.2).2 hdead hc'
        (fun x hx => (hss x hx).2.2)
      refine ⟨?_, fun _ => r2, by rw [← hcnt]; exact r3⟩
      intro k hk
      cases k with
      | zero => rw [hzero, if_pos (by omega)]
      | succ k =>
        simp only [run_sweeps, List.getElem?_cons_succ]
        rw [r1 k (by simpa using hk), if_neg (by omega)]

/-- An active visible entry whose request id no other active visible entry shares is tracked. -/
theorem tracked_of_distinct (q : PendingQueue) (i : Nat) (e : PendingMessage) (hi : i < q.count)
    (he : q.messages[i]? = some e) (hact : e.is_active = true)
    (hdistinct :
      ((q.visible.filter (fun m => m.is_active)).map (fun m => m.request_id)).Nodup) :
    Tracked e.request_id e.send_time i e.retry_count q.visible := by
  have hV : q.visible[i]? = some e := by
    unfold PendingQueue.visible
    rw [List.getElem?_take_of_lt hi]
    exact he
  obtain ⟨hlt, hget⟩ := List.getElem?_eq_some.mp hV
  have hsplit : q.visible = q.visible.take i ++ e :: q.visible.drop (i + 1) := by
    conv_lhs => rw [← List.take_append_drop i q.visible, List.drop_eq_getElem_cons hlt, hget]
  rw [hsplit, List.filter_append, List.filter_cons_of_pos (by simpa using hact),
    List.map_append, List.map_cons] at hdistinct
  have hnot := (List.nodup_cons.mp (List.nodup_middle.mp hdistinct)).1
  have hside : ∀ l : List PendingMessage,
      e.request_id ∉ (l.filter (fun m => m.is_active)).map (fun m => m.request_id) →
      ∀ m ∈ l, is_pending e.request_id m = false := by
    intro l hl m hm
    by_contra hcon
    have hp : is_pending e.request_id m = true := by simpa using hcon
    simp only [is_pending, Bool.and_eq_true, beq_iff_eq] at hp
    exact hl (List.mem_map.mpr ⟨m, List.mem_filter.mpr ⟨hm, by simpa using hp.1⟩, hp.2⟩)
  refine ⟨q.visible.take i, e, q.visible.drop (i + 1), hsplit, ?_, rfl, rfl, hact, rfl, ?_, ?_⟩
  · rw [List.length_take]; omega
  · exact hside _ (fun h => hnot (List.mem_append_left _ h))
  · exact hside _ (fun h => hnot (List.mem_append_right _ h))

/-- C4. Retry exhaustion. Let `q` be a queue with `count ≤ 100` whose active entries below `count`
have pairwise distinct request ids, and `e` an active entry of it, at index `i < count`, with
retry count 0. Run any sequence of sweeps (`pending_queue_get_expired` with `max_count ≥ 100`,
`pending_queue_increment_retry` for each returned id, `pending_queue_cleanup`), each at a time more
than `ACK_TIMEOUT_MS` after `e.send_time`, with no acknowledgment in between. Then each of the
first `MAX_RETRIES` sweeps returns the request id of `e` exactly once, no later sweep returns it,
and after the third sweep, and after any later one, the entry at index `i` is inactive. -/
theorem C4_retry_exhaustion (q : PendingQueue) (i : Nat) (e : PendingMessage)
    (sweeps : List (Nat × Int))
    (hcount : q.count ≤ MAX_PENDING_MESSAGES) (hi : i < q.count)
    (he : q.messages[i]? = some e) (hact : e.is_active = true) (hretry : e.retry_count = 0)
    (hdistinct :
      ((q.visible.filter (fun m => m.is_active)).map (fun m => m.request_id)).Nodup)
    (hsweeps : ∀ s ∈ sweeps,
      e.send_time + ACK_TIMEOUT_MS < s.1 ∧ s.1 < 2 ^ 64 ∧ (MAX_PENDING_MESSAGES : Int) ≤ s.2) :
    (∀ k, k < sweeps.length →
        (((run_sweeps q sweeps).1)[k]?.getD []).count e.request_id
          = if k < MAX_RETRIES then 1 else 0) ∧
      (∀ n, MAX_RETRIES ≤ n → n ≤ sweeps.length →
        ((run_sweeps q (sweeps.take n)).2.messages[i]?).map (fun m => m.is_active)
          = some false) := by
  have htr := tracked_of_distinct q i e hi he hact hdistinct
  rw [hretry] at htr
  constructor
  · intro k hk
    have h := (run_sweeps_tracked e.request_id e.send_time i sweeps q 0 (by decide) htr hcount
      hsweeps).1 k hk
    simpa using h
  · intro n hn hlen
    obtain ⟨_, h2, h3⟩ := run_sweeps_tracked e.request_id e.send_time i (sweeps.take n) q 0
      (by decide) htr hcount (fun s hs => hsweeps s (List.mem_of_mem_take hs))
    have hret := (h2 (by rw [List.length_take]; omega)).1
    unfold PendingQueue.visible at hret
    rw [h3, List.getElem?_map, List.getElem?_take_of_lt hi] at hret
    exact hret

/-- Witness for C4: the entry with request id 8 at index 1 of `retry_queue`, sent at 1000 ms, under
four sweeps at 7000, 7001, 20000 and 30000 ms. -/
theorem C4_retry_exhaustion_witness :
    (((run_sweeps retry_queue [(7000, 100), (7001, 100), (20000, 128), (30000, 100)]).1).map
        (fun ids => ids.count 8) = [1, 1, 1, 0]) ∧
      ((run_sweeps retry_queue
          ([(7000, 100), (7001, 100), (20000, 128), (30000, 100)].take 3)).2.messages[1]?).map
          (fun m => m.is_active) = some false :=
  ⟨by decide,
    (C4_retry_exhaustion retry_queue 1
      { request_id := 8, message_type := 33, send_time := 1000, retry_count := 0, payload := [],
        payload_len := 0, is_active := true }
      [(7000, 100), (7001, 100), (20000, 128), (30000, 100)]
      (by decide) (by decide) (by decide) rfl rfl (by decide) (by decide)).2 3 (by decide)
      (by decide)⟩

/-! ## Session table -/

theorem first_free_slot_spec (l : List (Option ClientSession)) :
    ∀ k i : Nat, first_free_slot l k = some i → k ≤ i ∧ i < k + l.length ∧ i < MAX_CLIENTS := by
  induction l with
  | nil => intro k i h; simp [first_free_slot] at h
  | cons c cs ih =>
    intro k i h
    by_cases hk : k < MAX_CLIENTS
    · cases c with
      | none =>
        simp only [first_free_slot, if_pos hk, Option.some.injEq] at h
        subst h
        simp only [List.length_cons]
        omega
      | some s =>
        simp only [first_free_slot, if_pos hk] at h
        obtain ⟨h1, h2, h3⟩ := ih (k + 1) i h
        simp only [List.length_cons]
        omega
    · simp [first_free_slot, hk] at h

theorem cons_index_shift {α : Type} (c : α) (cs : List α) (i k : Nat) (h : k + 1 ≤ i) :
    (c :: cs)[i - k]? = cs[i - (k + 1)]? := by
  have : i - k = (i - (k + 1)) + 1 := by omega
  rw [this, List.getElem?_cons_succ]

/-- The calls `session_broadcast_room` makes with no session excluded: one for each slot below
`MAX_CLIENTS` that holds a session whose `current_room_id` is the room. -/
theorem broadcast_from_mem (e : Endian) (r : Int) (msg : Option Message)
    (l : List (Option ClientSession)) :
    ∀ (k i : Nat) (out : Option (List Nat)),
      (i, out) ∈ session_broadcast_room_from e r msg none l k ↔
        (k ≤ i ∧ i < MAX_CLIENTS ∧
          ∃ s, l[i - k]? = some (some s) ∧ s.current_room_id = r ∧
            out = send_to_client e (some s) msg) := by
  induction l with
  | nil => intro k i out; simp [session_broadcast_room_from]
  | cons c cs ih =>
    intro k i out
    by_cases hk : k < MAX_CLIENTS
    · have hrec : (i, out) ∈ session_broadcast_room_from e r msg none cs (k + 1) ↔
          (k + 1 ≤ i ∧ i < MAX_CLIENTS ∧
            ∃ s, (c :: cs)[i - k]? = some (some s) ∧ s.current_room_id = r ∧
              out = send_to_client e (some s) msg) := by
        rw [ih]
        constructor
        · rintro ⟨h1, h2, s, h3, h4⟩
          exact ⟨h1, h2, s, by rw [cons_index_shift c cs i k h1]; exact h3, h4⟩
        · rintro ⟨h1, h2, s, h3, h4⟩
          exact ⟨h1, h2, s, by rw [← cons_index_shift c cs i k h1]; exact h3, h4⟩
      cases c with
      | none =>
        simp only [session_broadcast_room_from, if_pos hk]
        rw [hrec]
        constructor
        · rintro ⟨h1, h2, h3⟩
          exact ⟨by omega, h2, h3⟩
        · rintro ⟨h1, h2, s, h3, h4⟩
          have hne : i ≠ k := by
            intro h
            subst h
            simp at h3
          exact ⟨by omega, h2, s, h3, h4⟩
      | some s0 =>
        by_cases hr : s0.current_room_id = r
        · have hcond : s0.current_room_id = r ∧ some k ≠ (none : Option Nat) := ⟨hr, by simp⟩
          simp only [session_broadcast_room_from, if_pos hk, if_pos hcond, List.mem_cons]
          rw [hrec]
          constructor
          · rintro (h | ⟨h1, h2, h3⟩)
            · obtain ⟨rfl, rfl⟩ := Prod.mk.inj h
              exact ⟨le_refl _, hk, s0, by simp, hr, rfl⟩
            · exact ⟨by omega, h2, h3⟩
          · rintro ⟨h1, h2, s, h3, h4, h5⟩
            by_cases hik : i = k
            · left
              subst hik
              simp only [Nat.sub_self, List.getElem?_cons_zero, Option.some.injEq] at h3
              subst h3
              rw [h5]
            · right
              exact ⟨by omega, h2, s, h3, h4, h5⟩
        · have hcond : ¬ (s0.current_room_id = r ∧ some k ≠ (none : Option Nat)) :=
            fun h => hr h.1
          simp only [session_broadcast_room_from, if_pos hk, if_neg hcond]
          rw [hrec]
          constructor
          · rintro ⟨h1, h2, h3⟩
            exact ⟨by omega, h2, h3⟩
          · rintro ⟨h1, h2, s, h3, h4, h5⟩
            have hne : i ≠ k := by
              intro h
              subst h
              simp only [Nat.sub_self, List.getElem?_cons_zero, Option.some.injEq] at h3
              subst h3
              exact hr h4
            exact ⟨by omega, h2, s, h3, h4, h5⟩
    · simp only [session_broadcast_room_from, if_neg hk, List.not_mem_nil, false_iff]
      rintro ⟨h1, h2, _⟩
      omega

/-- Membership in the derived room index, for a slot holding a session with a valid descriptor. -/
theorem room_members_iff (e : Endian) (g : SessionManager) (r : Int) (msg : Message) (slot : Nat)
    (s : ClientSession) (hs : g.clients[slot]? = some (some s)) (hslot : slot < MAX_CLIENTS)
    (hfd : 0 ≤ s.sockfd) :
    slot ∈ room_members e g r msg ↔ (0 < r ∧ s.current_room_id = r) := by
  unfold room_members session_broadcast_room
  by_cases hr : r ≤ 0
  · simp only [if_pos hr, List.filterMap_nil, List.not_mem_nil, false_iff]
    rintro ⟨h, _⟩
    omega
  · simp only [if_neg hr, List.mem_filterMap]
    constructor
    · rintro ⟨⟨i, out⟩, hmem, hsome⟩
      have hi : i = slot := by
        by_cases ho : out.isSome = true
        · simpa [ho] using hsome
        · simp [ho] at hsome
      subst hi
      obtain ⟨_, _, s1, h1, h2, _⟩ := (broadcast_from_mem e r (some msg) g.clients 0 i out).mp hmem
      simp only [Nat.sub_zero, hs, Option.some.injEq] at h1
      subst h1
      exact ⟨by omega, h2⟩
    · rintro ⟨_, hcur⟩
      refine ⟨(slot, send_to_client e (some s) (some msg)), ?_, ?_⟩
      · exact (broadcast_from_mem e r (some msg) g.clients 0 slot _).mpr
          ⟨Nat.zero_le _, hslot, s, by simpa using hs, hcur, rfl⟩
      · have hfd' : ¬ s.sockfd < 0 := not_lt.mpr hfd
        simp [send_to_client, hfd']

theorem session_join_room_some (c : ClientSession) (b : Int) (hb : 0 < b) :
    session_join_room (some c) b
      = (true, some { c with current_room_id := b, state := ClientState.STATE_IN_ROOM }) := by
  have hb' : ¬ b ≤ 0 := not_le.mpr hb
  by_cases hc : c.current_room_id = -1
  · simp [session_join_room, hb', hc]
  · simp [session_join_room, session_leave_room_nolock, hb', hc]

theorem registered_add (g g0 : SessionManager) (now_s : Nat) (sockfd : Int) (slot : Nat)
    (hreg : session_add_client g true now_s sockfd = (some slot, g0)) :
    Registered g0 slot sockfd := by
  simp only [session_add_client, Bool.not_true, Bool.false_eq_true, if_false] at hreg
  cases hfree : first_free_slot g.clients 0 with
  | none => rw [hfree] at hreg; simp at hreg
  | some i =>
    rw [hfree] at hreg
    simp only [Prod.mk.injEq, Option.some.injEq] at hreg
    obtain ⟨hi, hg⟩ := hreg
    subst hi
    subst hg
    obtain ⟨_, hlen, hmax⟩ := first_free_slot_spec g.clients 0 i hfree
    simp only [zero_add] at hlen
    exact ⟨hmax,
      { sockfd := sockfd, user_id := 0, username := [], session_token := [],
        current_room_id := -1, state := ClientState.STATE_DISCONNECTED,
        last_heartbeat := now_s },
      List.getElem?_set_self hlen, rfl, Or.inl rfl⟩

theorem registered_join (g : SessionManager) (slot : Nat) (fd : Int) (room_id : Int)
    (h : Registered g slot fd) : Registered (session_join_room_at g slot room_id).2 slot fd := by
  obtain ⟨hmax, s, hs, hfd, hroom⟩ := h
  have hlen : slot < g.clients.length := (List.getElem?_eq_some.mp hs).1
  have hsess : g.session slot = some s := by simp [SessionManager.session, hs]
  refine ⟨hmax, ?_⟩
  simp only [session_join_room_at, hsess]
  by_cases hb : 0 < room_id
  · rw [session_join_room_some s room_id hb]
    exact ⟨_, List.getElem?_set_self hlen, hfd, Or.inr hb⟩
  · have hb' : room_id ≤ 0 := not_lt.mp hb
    simp only [session_join_room, if_pos hb']
    exact ⟨s, List.getElem?_set_self hlen, hfd, hroom⟩

theorem registered_leave (g : SessionManager) (slot : Nat) (fd : Int)
    (h : Registered g slot fd) : Registered (session_leave_room_at g slot).2 slot fd := by
  obtain ⟨hmax, s, hs, hfd, hroom⟩ := h
  have hlen : slot < g.clients.length := (List.getElem?_eq_some.mp hs).1
  have hsess : g.session slot = some s := by simp [SessionManager.session, hs]
  refine ⟨hmax, ?_⟩
  simp only [session_leave_room_at, hsess]
  by_cases hc : s.current_room_id = -1
  · simp only [session_leave_room, if_pos hc]
    exact ⟨s, List.getElem?_set_self hlen, hfd, hroom⟩
  · simp only [session_leave_room, session_leave_room_nolock, if_neg hc]
    exact ⟨_, List.getElem?_set_self hlen, hfd, Or.inl rfl⟩

theorem registered_run (slot : Nat) (fd : Int) (ops : List RoomOp) :
    ∀ g : SessionManager, Registered g slot fd → Registered (run_room_ops g slot ops) slot fd := by
  induction ops with
  | nil => intro g h; exact h
  | cons op ops ih =>
    intro g h
    cases op with
    | join room_id => exact ih _ (registered_join g slot fd room_id h)
    | leave => exact ih _ (registered_leave g slot fd h)

/-- A session registered by `session_add_client`, whatever `calloc` was asked: a slot is
returned only when memory was available. -/
theorem registered_add_any (g g0 : SessionManager) (calloc_ok : Bool) (now_s : Nat)
    (sockfd : Int) (slot : Nat)
    (hreg : session_add_client g calloc_ok now_s sockfd = (some slot, g0)) :
    Registered g0 slot sockfd := by
  cases calloc_ok with
  | false => simp [session_add_client] at hreg
  | true => exact registered_add g g0 now_s sockfd slot hreg

/-- The table after a successful `session_join_room` on the session in `slot`: that slot holds
the session with the new room and state, and the call returns true. -/
theorem session_join_room_at_some (g : SessionManager) (slot : Nat) (s : ClientSession)
    (b : Int) (hs : g.clients[slot]? = some (some s)) (hb : 0 < b) :
    session_join_room_at g slot b
      = (true,
        { g with
          clients :=
            g.clients.set slot
              (some { s with current_room_id := b, state := ClientState.STATE_IN_ROOM }) }) := by
  have hsess : g.session slot = some s := by simp [SessionManager.session, hs]
  simp only [session_join_room_at, hsess]
  rw [session_join_room_some s b hb]

/-- The table after `session_leave_room` on the session in `slot` while it is in a room. -/
theorem session_leave_room_at_some (g : SessionManager) (slot : Nat) (s : ClientSession)
    (hs : g.clients[slot]? = some (some s)) (hc : s.current_room_id ≠ -1) :
    session_leave_room_at g slot
      = (true,
        { g with
          clients :=
            g.clients.set slot
              (some { s with current_room_id := -1, state := ClientState.STATE_IN_LOBBY }) }) := by
  have hsess : g.session slot = some s := by simp [SessionManager.session, hs]
  simp only [session_leave_room_at, hsess, session_leave_room, session_leave_room_nolock,
    if_neg hc]

/-- Writing back the entry a slot already holds leaves the list as it is. -/
theorem set_same {α : Type} (l : List α) (i : Nat) (x : α) (h : l[i]? = some x) :
    l.set i x = l := by
  apply List.ext_getElem?
  intro j
  by_cases hj : i = j
  · subst hj
    rw [List.getElem?_set_self (List.getElem?_eq_some.mp h).1, h]
  · rw [List.getElem?_set_ne hj]

/-- A failed `session_join_room` leaves the table as it is. -/
theorem session_join_room_at_fail (g : SessionManager) (slot : Nat) (s : ClientSession)
    (b : Int) (hs : g.clients[slot]? = some (some s)) (hb : b ≤ 0) :
    session_join_room_at g slot b = (false, g) := by
  have hsess : g.session slot = some s := by simp [SessionManager.session, hs]
  simp only [session_join_room_at, hsess, session_join_room, if_pos hb]
  rw [set_same g.clients slot (some s) hs]

/-- A failed `session_leave_room` leaves the table as it is. -/
theorem session_leave_room_at_fail (g : SessionManager) (slot : Nat) (s : ClientSession)
    (hs : g.clients[slot]? = some (some s)) (hc : s.current_room_id = -1) :
    session_leave_room_at g slot = (false, g) := by
  have hsess : g.session slot = some s := by simp [SessionManager.session, hs]
  simp only [session_leave_room_at, hsess, session_leave_room, if_pos hc]
  rw [set_same g.clients slot (some s) hs]

/-- Membership in the set of sessions a room broadcast calls `send_to_client` for. -/
theorem room_targets_iff (e : Endian) (g : SessionManager) (r : Int) (msg : Message) (slot : Nat)
    (s : ClientSession) (hs : g.clients[slot]? = some (some s)) (hslot : slot < MAX_CLIENTS) :
    slot ∈ room_targets e g r msg ↔ (0 < r ∧ s.current_room_id = r) := by
  unfold room_targets session_broadcast_room
  by_cases hr : r ≤ 0
  · simp only [if_pos hr, List.map_nil, List.not_mem_nil, false_iff]
    rintro ⟨h, _⟩
    omega
  · simp only [if_neg hr, List.mem_map]
    constructor
    · rintro ⟨⟨i, out⟩, hmem, hi⟩
      have hi2 : i = slot := hi
      subst hi2
      obtain ⟨_, _, s1, h1, h2, _⟩ := (broadcast_from_mem e r (some msg) g.clients 0 i out).mp hmem
      simp only [Nat.sub_zero, hs, Option.some.injEq] at h1
      subst h1
      exact ⟨by omega, h2⟩
    · rintro ⟨_, hcur⟩
      refine ⟨(slot, send_to_client e (some s) (some msg)), ?_, rfl⟩
      exact (broadcast_from_mem e r (some msg) g.clients 0 slot _).mpr
        ⟨Nat.zero_le _, hslot, s, by simpa using hs, hcur, rfl⟩

/-- A session a room broadcast writes a frame to is one it calls `send_to_client` for. -/
theorem room_members_targets (e : Endian) (g : SessionManager) (r : Int) (msg : Message)
    (slot : Nat) (h : slot ∈ room_members e g r msg) : slot ∈ room_targets e g r msg := by
  unfold room_members at h
  unfold room_targets
  obtain ⟨⟨i, out⟩, hmem, hsome⟩ := List.mem_filterMap.mp h
  have hi : i = slot := by
    by_cases ho : out.isSome = true
    · simpa [ho] using hsome
    · simp [ho] at hsome
  subst hi
  exact List.mem_map.mpr ⟨(i, out), hmem, rfl⟩

/-- C5. Room exclusivity. Register a session with `session_add_client` and apply to it any
finite sequence of `session_join_room` / `session_leave_room` calls. In the table that results
(hence after each call of the sequence) the session is still registered, and, the room index
being the set of sessions that `session_broadcast_room(r, msg, NULL)` sends to: the session is a
member of room `r` exactly when its `current_room_id` equals `r`, for every room id `r` (every
value but -1, which `current_room_id` uses for "in no room"); it is a member of at most one room;
and a `session_join_room(s, b)` with `b > 0` succeeds on any session and gives the same session,
in room `b`, whether `s` was in a room before or in none. The calls act on the table the index is
derived from: on that table a further `session_join_room` with `b > 0` returns true, stores the
session with room `b` and state `STATE_IN_ROOM` in its slot, and leaves it a member of room `b`
and of no other room; a `session_join_room` with `b ≤ 0` returns false and leaves the table as it
is; a `session_leave_room` returns true exactly when the session was in a room and leaves it a
member of no room; and no call changes another slot. All of this holds for the index of the
sessions `send_to_client` is called for (`room_targets`), and, when the descriptor is not
negative, for the index of the sessions a frame is written to (`room_members`). -/
theorem C5_room_exclusivity (e : Endian) (g g0 : SessionManager) (calloc_ok : Bool)
    (now_s : Nat) (sockfd : Int) (slot : Nat)
    (hreg : session_add_client g calloc_ok now_s sockfd = (some slot, g0))
    (ops : List RoomOp) (msg : Message) :
    ∃ s, (run_room_ops g0 slot ops).session slot = some s ∧ s.sockfd = sockfd ∧
      (∀ r : Int, r ≠ -1 →
        (slot ∈ room_targets e (run_room_ops g0 slot ops) r msg ↔ s.current_room_id = r)) ∧
      (∀ r1 r2 : Int, slot ∈ room_targets e (run_room_ops g0 slot ops) r1 msg →
        slot ∈ room_targets e (run_room_ops g0 slot ops) r2 msg → r1 = r2) ∧
      (0 ≤ sockfd →
        (∀ r : Int, r ≠ -1 →
          (slot ∈ room_members e (run_room_ops g0 slot ops) r msg ↔ s.current_room_id = r)) ∧
        (∀ r1 r2 : Int, slot ∈ room_members e (run_room_ops g0 slot ops) r1 msg →
          slot ∈ room_members e (run_room_ops g0 slot ops) r2 msg → r1 = r2)) ∧
      (∀ (c : ClientSession) (b : Int), 0 < b →
        session_join_room (some c) b
            = (true, some { c with current_room_id := b, state := ClientState.STATE_IN_ROOM }) ∧
          session_join_room (some c) b
            = session_join_room (some { c with current_room_id := -1 }) b) ∧
      (∀ b : Int, 0 < b →
        (session_join_room_at (run_room_ops g0 slot ops) slot b).1 = true ∧
          (session_join_room_at (run_room_ops g0 slot ops) slot b).2.session slot
            = some { s with current_room_id := b, state := ClientState.STATE_IN_ROOM } ∧
          (∀ r : Int,
            (slot ∈ room_targets e (session_join_room_at (run_room_ops g0 slot ops) slot b).2 r msg
              ↔ r = b)) ∧
          (0 ≤ sockfd → ∀ r : Int,
            (slot ∈ room_members e (session_join_room_at (run_room_ops g0 slot ops) slot b).2 r msg
              ↔ r = b))) ∧
      (∀ b : Int, b ≤ 0 →
        session_join_room_at (run_room_ops g0 slot ops) slot b
          = (false, run_room_ops g0 slot ops)) ∧
      ((session_leave_room_at (run_room_ops g0 slot ops) slot).1
          = decide (s.current_room_id ≠ -1) ∧
        ((session_leave_room_at (run_room_ops g0 slot ops) slot).2.session slot).map
            (fun c => c.current_room_id) = some (-1) ∧
        (∀ r : Int,
          slot ∉ room_targets e (session_leave_room_at (run_room_ops g0 slot ops) slot).2 r msg) ∧
        (∀ r : Int,
          slot ∉ room_members e (session_leave_room_at (run_room_ops g0 slot ops) slot).2 r msg)) ∧
      (∀ (j : Nat) (b : Int), j ≠ slot →
        (session_join_room_at (run_room_ops g0 slot ops) slot b).2.clients[j]?
            = (run_room_ops g0 slot ops).clients[j]? ∧
          (session_leave_room_at (run_room_ops g0 slot ops) slot).2.clients[j]?
            = (run_room_ops g0 slot ops).clients[j]?) := by
  obtain ⟨hmax, s, hs, hsfd, hroom⟩ :=
    registered_run slot sockfd ops g0 (registered_add_any g g0 calloc_ok now_s sockfd slot hreg)
  have hlen : slot < (run_room_ops g0 slot ops).clients.length := (List.getElem?_eq_some.mp hs).1
  have htar := fun r => room_targets_iff e (run_room_ops g0 slot ops) r msg slot s hs hmax
  have hone : ∀ r : Int, r ≠ -1 → ((0 < r ∧ s.current_room_id = r) ↔ s.current_room_id = r) := by
    intro r hr
    constructor
    · exact fun h => h.2
    · intro h
      refine ⟨?_, h⟩
      rcases hroom with h1 | h1
      · exact absurd (h.symm.trans h1) hr
      · rw [← h]; exact h1
  have hleave_targets : ∀ r : Int,
      slot ∉ room_targets e (session_leave_room_at (run_room_ops g0 slot ops) slot).2 r msg := by
    intro r hin
    by_cases hc : s.current_room_id = -1
    · rw [session_leave_room_at_fail _ slot s hs hc] at hin
      have h1 := (htar r).mp hin
      rw [hc] at h1
      omega
    · rw [session_leave_room_at_some _ slot s hs hc] at hin
      have hnew : (((run_room_ops g0 slot ops).clients.set slot
          (some { s with current_room_id := -1, state := ClientState.STATE_IN_LOBBY }))[slot]?)
          = some (some { s with current_room_id := -1, state := ClientState.STATE_IN_LOBBY }) :=
        List.getElem?_set_self hlen
      rw [room_targets_iff e _ r msg slot
        { s with current_room_id := -1, state := ClientState.STATE_IN_LOBBY } hnew hmax] at hin
      have h1 : (-1 : Int) = r := hin.2
      omega
  refine ⟨s, by simp [SessionManager.session, hs], hsfd, ?_, ?_, ?_, ?_, ?_, ?_, ?_, ?_⟩
  · intro r hr
    rw [htar r]
    exact hone r hr
  · intro r1 r2 h1 h2
    rw [← ((htar r1).mp h1).2, ← ((htar r2).mp h2).2]
  · intro hfd
    have hmem := fun r => room_members_iff e (run_room_ops g0 slot ops) r msg slot s hs hmax
      (by rw [hsfd]; exact hfd)
    constructor
    · intro r hr
      rw [hmem r]
      exact hone r hr
    · intro r1 r2 h1 h2
      rw [← ((hmem r1).mp h1).2, ← ((hmem r2).mp h2).2]
  · intro c b hb
    refine ⟨session_join_room_some c b hb, ?_⟩
    rw [session_join_room_some c b hb, session_join_room_some _ b hb]
  · intro b hb
    rw [session_join_room_at_some _ slot s b hs hb]
    have hnew : (((run_room_ops g0 slot ops).clients.set slot
        (some { s with current_room_id := b, state := ClientState.STATE_IN_ROOM }))[slot]?)
        = some (some { s with current_room_id := b, state := ClientState.STATE_IN_ROOM }) :=
      List.getElem?_set_self hlen
    have hiff : ∀ r : Int, (0 < r ∧ b = r) ↔ r = b := by
      intro r
      constructor
      · rintro ⟨_, h⟩
        exact h.symm
      · intro h
        exact ⟨by rw [h]; exact hb, h.symm⟩
    refine ⟨rfl, by simp [SessionManager.session, hnew], ?_, ?_⟩
    · intro r
      rw [room_targets_iff e _ r msg slot
        { s with current_room_id := b, state := ClientState.STATE_IN_ROOM } hnew hmax]
      exact hiff r
    · intro hfd r
      rw [room_members_iff e _ r msg slot
        { s with current_room_id := b, state := ClientState.STATE_IN_ROOM } hnew hmax
        (by show 0 ≤ s.sockfd; rw [hsfd]; exact hfd)]
      exact hiff r
  · intro b hb
    exact session_join_room_at_fail _ slot s b hs hb
  · refine ⟨?_, ?_, hleave_targets, fun r hin =>
      hleave_targets r (room_members_targets e _ r msg slot hin)⟩
    · by_cases hc : s.current_room_id = -1
      · rw [session_leave_room_at_fail _ slot s hs hc]
        simp [hc]
      · rw [session_leave_room_at_some _ slot s hs hc]
        simp [hc]
    · by_cases hc : s.current_room_id = -1
      · rw [session_leave_room_at_fail _ slot s hs hc]
        simp [SessionManager.session, hs, hc]
      · rw [session_leave_room_at_some _ slot s hs hc]
        have hnew : (((run_room_ops g0 slot ops).clients.set slot
            (some { s with current_room_id := -1, state := ClientState.STATE_IN_LOBBY }))[slot]?)
            = some (some { s with current_room_id := -1, state := ClientState.STATE_IN_LOBBY }) :=
          List.getElem?_set_self hlen
        simp [SessionManager.session, hnew]
  · intro j b hj
    constructor
    · show ((run_room_ops g0 slot ops).clients.set slot _)[j]? = _
      exact List.getElem?_set_ne (fun h => hj h.symm)
    · show ((run_room_ops g0 slot ops).clients.set slot _)[j]? = _
      exact List.getElem?_set_ne (fun h => hj h.symm)

/-- Witness for C5: the first session of an empty table, on descriptor 4, after joining room 3,
joining room 5, leaving, and joining room 2: it is a member of room 2, and a further join of
room 9 leaves it a member of room 9 only. -/
theorem C5_room_exclusivity_witness :
    (session_add_client empty_table true 0 4).1 = some 0 ∧
      ∃ s,
        (run_room_ops (session_add_client empty_table true 0 4).2 0
            [RoomOp.join 3, RoomOp.join 5, RoomOp.leave, RoomOp.join 2]).session 0 = some s ∧
          (0 ∈ room_targets Endian.little
                (run_room_ops (session_add_client empty_table true 0 4).2 0
                  [RoomOp.join 3, RoomOp.join 5, RoomOp.leave, RoomOp.join 2])
                2 demo_message ↔ s.current_room_id = 2) ∧
          (∀ r : Int,
            0 ∈ room_members Endian.little
                (session_join_room_at
                  (run_room_ops (session_add_client empty_table true 0 4).2 0
                    [RoomOp.join 3, RoomOp.join 5, RoomOp.leave, RoomOp.join 2]) 0 9).2
                r demo_message ↔ r = 9) :=
  ⟨by decide, by
    obtain ⟨s, h1, _, h2, _, _, _, h3, _⟩ :=
      C5_room_exclusivity Endian.little empty_table
        (session_add_client empty_table true 0 4).2 true 0 4 0 (Prod.ext (by decide) rfl)
        [RoomOp.join 3, RoomOp.join 5, RoomOp.leave, RoomOp.join 2] demo_message
    exact ⟨s, h1, h2 2 (by decide), (h3 9 (by decide)).2.2.2 (by decide)⟩⟩

/-! ## Pending queue: insertion -/

theorem modifyAt_length {α : Type} (f : α → α) (l : List α) (i : Nat) :
    (modifyAt f l i).length = l.length := by
  induction l generalizing i with
  | nil => rfl
  | cons x xs ih => cases i <;> simp [modifyAt, ih]

theorem modifyAt_getElem?_self {α : Type} (f : α → α) (l : List α) (i : Nat) :
    (modifyAt f l i)[i]? = l[i]?.map f := by
  induction l generalizing i with
  | nil => simp [modifyAt]
  | cons x xs ih => cases i <;> simp [modifyAt, ih]

theorem modifyAt_getElem?_ne {α : Type} (f : α → α) (l : List α) (i j : Nat) (h : j ≠ i) :
    (modifyAt f l i)[j]? = l[j]? := by
  induction l generalizing i j with
  | nil => simp [modifyAt]
  | cons x xs ih =>
    cases i with
    | zero =>
      cases j with
      | zero => exact absurd rfl h
      | succ j => simp [modifyAt]
    | succ i =>
      cases j with
      | zero => simp [modifyAt]
      | succ j => simpa [modifyAt] using ih i j (fun h' => h (by rw [h']))

theorem take_modifyAt {α : Type} (f : α → α) (l : List α) (i : Nat) (old : α)
    (h : l[i]? = some old) : (modifyAt f l i).take (i + 1) = l.take i ++ [f old] := by
  induction l generalizing i with
  | nil => simp at h
  | cons x xs ih =>
    cases i with
    | zero =>
      simp only [List.getElem?_cons_zero, Option.some.injEq] at h
      simp [modifyAt, h]
    | succ i =>
      simp only [List.getElem?_cons_succ] at h
      simp [modifyAt, ih i h]

theorem find_from_append_none (r : Nat) (l l2 : List PendingMessage)
    (h : ∀ m ∈ l, is_pending r m = false) :
    ∀ i : Nat, pending_queue_find_from r (l ++ l2) i = pending_queue_find_from r l2 (i + l.length) := by
  induction l with
  | nil => intro i; simp
  | cons m ms ih =>
    intro i
    have hm : ¬ (m.is_active && m.request_id == r) = true := by
      have := h m (List.mem_cons_self _ _)
      simp only [is_pending] at this
      simp [this]
    have hstep : pending_queue_find_from r (m :: ms ++ l2) i
        = pending_queue_find_from r (ms ++ l2) (i + 1) := by
      show pending_queue_find_from r (m :: (ms ++ l2)) i = _
      simp only [pending_queue_find_from, if_neg hm]
    rw [hstep, ih (fun x hx => h x (List.mem_cons_of_mem _ hx)) (i + 1), List.length_cons]
    congr 1
    omega

theorem find_from_nonneg_of_mem (r : Nat) (l : List PendingMessage) :
    ∀ i : Nat, (∃ m ∈ l, is_pending r m = true) → 0 ≤ pending_queue_find_from r l i := by
  induction l with
  | nil => intro i h; obtain ⟨m, hm, _⟩ := h; simp at hm
  | cons x xs ih =>
    intro i h
    by_cases hx : (x.is_active && x.request_id == r) = true
    · simp only [pending_queue_find_from, if_pos hx]
      exact Int.natCast_nonneg i
    · simp only [pending_queue_find_from, if_neg hx]
      apply ih
      obtain ⟨m, hm, hp⟩ := h
      rcases List.mem_cons.mp hm with rfl | hm'
      · exact absurd hp hx
      · exact ⟨m, hm', hp⟩

/-- The visible entries after a successful `pending_queue_add`: the old ones, then the new one. -/
theorem pending_queue_add_visible (q : PendingQueue) (now_s request_id msg_type : Nat)
    (payload : Option (List Nat)) (len : Nat) (old : PendingMessage)
    (hroom : q.count < MAX_PENDING_MESSAGES) (hold : q.messages[q.count]? = some old) :
    ∃ m, (pending_queue_add q now_s request_id msg_type payload len).2.visible = q.visible ++ [m] ∧
      (pending_queue_add q now_s request_id msg_type payload len).2.messages[q.count]? = some m ∧
      (pending_queue_add q now_s request_id msg_type payload len).2.count = q.count + 1 ∧
      (pending_queue_add q now_s request_id msg_type payload len).1 = (q.count : Int) ∧
      m.request_id = request_id % 2 ^ 32 ∧ m.message_type = msg_type % 2 ^ 8 ∧
      m.send_time = now_s * 1000 % 2 ^ 64 ∧ m.retry_count = 0 ∧ m.is_active = true ∧
      m.payload_len = (if len > 2048 then 2048 else len) ∧
      m.payload = (match payload with
        | some p => if len > 0 then
            readBytes p 0 (if len > 2048 then 2048 else len)
              ++ old.payload.drop (if len > 2048 then 2048 else len)
          else old.payload
        | none => old.payload) := by
  have hroom' : ¬ q.count ≥ MAX_PENDING_MESSAGES := not_le.mpr hroom
  simp only [pending_queue_add, if_neg hroom', PendingQueue.visible]
  refine ⟨_, take_modifyAt _ _ _ old hold, ?_⟩
  simp only [modifyAt_getElem?_self, hold, Option.map_some', and_self, and_true, true_and]

/-- C20. The pending queue fails closed when full. `pending_queue_add` returns -1 exactly when
`count` is at least `MAX_PENDING_MESSAGES` (100), and then leaves the queue unchanged. Otherwise
(on the 100-entry array, with a 32-bit request id and an 8-bit message type) it returns the
previous `count`, stores at that index an active entry with the given request id and message type
and retry count 0, increases `count` by one and changes no other entry, and `pending_queue_find`
of that id then succeeds. -/
theorem C20_pending_queue_add (q : PendingQueue) (now_s request_id msg_type : Nat)
    (payload : Option (List Nat)) (len : Nat) :
    ((pending_queue_add q now_s request_id msg_type payload len).1 = -1
        ↔ MAX_PENDING_MESSAGES ≤ q.count) ∧
      (MAX_PENDING_MESSAGES ≤ q.count →
        (pending_queue_add q now_s request_id msg_type payload len).2 = q) ∧
      (q.count < MAX_PENDING_MESSAGES → q.messages.length = MAX_PENDING_MESSAGES →
        request_id < 2 ^ 32 → msg_type < 2 ^ 8 →
        (pending_queue_add q now_s request_id msg_type payload len).1 = (q.count : Int) ∧
          (pending_queue_add q now_s request_id msg_type payload len).2.count = q.count + 1 ∧
          (∃ m, (pending_queue_add q now_s request_id msg_type payload len).2.messages[q.count]?
                = some m ∧
              m.is_active = true ∧ m.request_id = request_id ∧ m.message_type = msg_type ∧
              m.retry_count = 0) ∧
          (∀ j, j ≠ q.count →
            (pending_queue_add q now_s request_id msg_type payload len).2.messages[j]?
              = q.messages[j]?) ∧
          0 ≤ pending_queue_find
                (pending_queue_add q now_s request_id msg_type payload len).2 request_id) := by
  refine ⟨?_, ?_, ?_⟩
  · by_cases hfull : q.count ≥ MAX_PENDING_MESSAGES
    · simp [pending_queue_add, hfull]
    · simp only [pending_queue_add, if_neg hfull]
      constructor
      · intro h
        have : (0 : Int) ≤ (q.count : Int) := Int.natCast_nonneg _
        omega
      · intro h
        exact absurd h hfull
  · intro hfull
    have hfull' : q.count ≥ MAX_PENDING_MESSAGES := hfull
    simp [pending_queue_add, hfull']
  · intro hroom hlen hid hty
    have hlt : q.count < q.messages.length := by rw [hlen]; exact hroom
    obtain ⟨old, hold⟩ : ∃ old, q.messages[q.count]? = some old :=
      ⟨q.messages[q.count], List.getElem?_eq_getElem hlt⟩
    obtain ⟨m, hvis, hm, hcnt, hret, h1, h2, _, h4, h5, _⟩ :=
      pending_queue_add_visible q now_s request_id msg_type payload len old hroom hold
    rw [Nat.mod_eq_of_lt hid] at h1
    rw [Nat.mod_eq_of_lt hty] at h2
    refine ⟨hret, hcnt, ⟨m, hm, h5, h1, h2, h4⟩, ?_, ?_⟩
    · intro j hj
      have hroom' : ¬ q.count ≥ MAX_PENDING_MESSAGES := not_le.mpr hroom
      simp only [pending_queue_add, if_neg hroom']
      exact modifyAt_getElem?_ne _ _ _ _ hj
    · have hfind : pending_queue_find
          (pending_queue_add q now_s request_id msg_type payload len).2 request_id
          = pending_queue_find_from request_id (q.visible ++ [m]) 0 := by
        rw [← hvis]
        rfl
      rw [hfind]
      apply find_from_nonneg_of_mem
      exact ⟨m, by simp, by simp [is_pending, h5, h1]⟩

/-- Witness for C20: adding request id 7 of type 33 to the empty queue of the client. -/
theorem C20_pending_queue_add_witness :
    client_init.pending_queue.count < MAX_PENDING_MESSAGES ∧
      client_init.pending_queue.messages.length = MAX_PENDING_MESSAGES ∧
      (pending_queue_add client_init.pending_queue 5 7 33 (some [1, 2, 3]) 3).1 = 0 ∧
      (pending_queue_add client_init.pending_queue 5 7 33 (some [1, 2, 3]) 3).2.count = 1 ∧
      0 ≤ pending_queue_find (pending_queue_add client_init.pending_queue 5 7 33 (some [1, 2, 3]) 3).2 7 :=
  ⟨by decide, by decide,
    ((C20_pending_queue_add client_init.pending_queue 5 7 33 (some [1, 2, 3]) 3).2.2
      (by decide) (by decide) (by decide) (by decide)).1,
    ((C20_pending_queue_add client_init.pending_queue 5 7 33 (some [1, 2, 3]) 3).2.2
      (by decide) (by decide) (by decide) (by decide)).2.1,
    ((C20_pending_queue_add client_init.pending_queue 5 7 33 (some [1, 2, 3]) 3).2.2
      (by decide) (by decide) (by decide) (by decide)).2.2.2.2⟩

/-! ## Buffers -/

theorem readBytes_getElem? (mem : List Nat) (off k i : Nat) :
    (readBytes mem off k)[i]? = if i < k then some (mem[off + i]?.getD 0) else none := by
  simp only [readBytes, List.getElem?_map, List.getElem?_range, List.getD_eq_getElem?_getD]
  by_cases h : i < k
  · simp [h, List.getElem?_range h]
  · simp [h, List.getElem?_eq_none (show (List.range k).length ≤ i by simp; omega)]

theorem readBytes_eq_take (l : List Nat) (k : Nat) (h : k ≤ l.length) :
    readBytes l 0 k = l.take k := by
  apply List.ext_getElem?
  intro i
  rw [readBytes_getElem?, List.getElem?_take]
  by_cases hi : i < k
  · have hil : i < l.length := by omega
    simp [hi, List.getElem?_eq_getElem hil]
  · simp [hi]

theorem readBytes_take_source (l : List Nat) (n k : Nat) (h : k ≤ n) :
    readBytes (l.take n) 0 k = readBytes l 0 k := by
  apply List.ext_getElem?
  intro i
  rw [readBytes_getElem?, readBytes_getElem?]
  by_cases hi : i < k
  · have hin : i < n := by omega
    simp [hi, List.getElem?_take, hin]
  · simp [hi]

theorem readBytes_append_prefix (a b : List Nat) : readBytes (a ++ b) 0 a.length = a := by
  apply List.ext_getElem?
  intro i
  rw [readBytes_getElem?]
  by_cases hi : i < a.length
  · simp [hi, List.getElem?_append_left hi, List.getElem?_eq_getElem hi]
  · simp [hi, List.getElem?_eq_none (show a.length ≤ i by omega)]

theorem readBytes_append_source (a b : List Nat) (n : Nat) :
    readBytes (a ++ b) 0 (a.length + n) = a ++ readBytes b 0 n := by
  apply List.ext_getElem?
  intro i
  rw [readBytes_getElem?]
  by_cases hi : i < a.length
  · have : i < a.length + n := by omega
    simp [this, List.getElem?_append_left hi, List.getElem?_eq_getElem hi]
  · have hge : a.length ≤ i := by omega
    rw [List.getElem?_append_right hge, readBytes_getElem?]
    simp only [zero_add]
    rw [List.getElem?_append_right hge]
    by_cases hk : i < a.length + n
    · have : i - a.length < n := by omega
      simp [hk, this]
    · have : ¬ i - a.length < n := by omega
      simp [hk, this]

theorem readBytes_take_result (l : List Nat) (n k : Nat) (h : k ≤ n) :
    (readBytes l 0 n).take k = readBytes l 0 k := by
  apply List.ext_getElem?
  intro i
  rw [List.getElem?_take, readBytes_getElem?, readBytes_getElem?]
  by_cases hi : i < k
  · have : i < n := by omega
    simp [hi, this]
  · simp [hi]

theorem readBytes_idem (l : List Nat) (n : Nat) : readBytes (readBytes l 0 n) 0 n = readBytes l 0 n := by
  have h := readBytes_eq_take (readBytes l 0 n) n (by rw [readBytes_length])
  rw [h, List.take_of_length_le (by rw [readBytes_length])]

/-! ## Client sender -/

/-- Whenever the `send` succeeds, requires-ack is set and the queue has room,
`send_message_reliable` adds an entry, whatever the other flag bits are. -/
theorem send_message_reliable_tracks (e : Endian) (now_s add_now_s : Nat) (send_n : Int)
    (st : ClientGlobals) (type : Nat) (payload : Option (List Nat)) (payload_len flags : Nat)
    (hn : 0 ≤ send_n) (hack : is_flag_set (flags % 2 ^ 16) FLAG_REQUIRES_ACK = true)
    (hroom : st.pending_queue.count < MAX_PENDING_MESSAGES) :
    (send_message_reliable e now_s add_now_s send_n st type payload payload_len flags).2.pending_queue.count
      = st.pending_queue.count + 1 := by
  have hn' : ¬ send_n < 0 := not_lt.mpr hn
  have hroom' : ¬ st.pending_queue.count ≥ MAX_PENDING_MESSAGES := not_le.mpr hroom
  simp only [send_message_reliable]
  rw [if_neg hn', if_pos hack]
  simp [pending_queue_add, hroom']

/-- C11 (defect: the broadcast flag is never consulted). A `send_message_reliable` call whose flags
are `FLAG_BROADCAST | FLAG_REQUIRES_ACK`, made on the initial globals with a successful `send`,
adds an active entry with the assigned request id 1 to the pending queue: the queue after the call
is not the queue before it. With `FLAG_BROADCAST` alone the queue is unchanged. -/
theorem C11_broadcast_with_ack_is_tracked :
    (send_message_reliable Endian.little 5 6 23 client_init 35 (some [1, 2, 3]) 3
        (FLAG_BROADCAST ||| FLAG_REQUIRES_ACK)).2.pending_queue ≠ client_init.pending_queue ∧
      (send_message_reliable Endian.little 5 6 23 client_init 35 (some [1, 2, 3]) 3
        (FLAG_BROADCAST ||| FLAG_REQUIRES_ACK)).2.pending_queue.count = 1 ∧
      ((send_message_reliable Endian.little 5 6 23 client_init 35 (some [1, 2, 3]) 3
        (FLAG_BROADCAST ||| FLAG_REQUIRES_ACK)).2.pending_queue.messages.take 1).map
          (fun m => (m.request_id, m.is_active)) = [(1, true)] ∧
      (send_message_reliable Endian.little 5 6 23 client_init 35 (some [1, 2, 3]) 3
        FLAG_BROADCAST).2.pending_queue = client_init.pending_queue := by
  refine ⟨?_, ?_, ?_, ?_⟩ <;> decide

/-- After a successful `pending_queue_add` of an id that no active entry carried,
`pending_queue_get_payload` for that id returns the buffer and length of the new entry. -/
theorem pending_queue_add_get_payload (q : PendingQueue) (now_s request_id msg_type : Nat)
    (payload : Option (List Nat)) (len : Nat) (old : PendingMessage)
    (hroom : q.count < MAX_PENDING_MESSAGES) (hold : q.messages[q.count]? = some old)
    (hfresh : ∀ m ∈ q.visible, is_pending (request_id % 2 ^ 32) m = false) :
    ∃ m, (pending_queue_add q now_s request_id msg_type payload len).2.messages[q.count]? = some m ∧
      pending_queue_get_payload (pending_queue_add q now_s request_id msg_type payload len).2
          (request_id % 2 ^ 32) = (some m.payload, m.payload_len) ∧
      m.payload_len = (if len > 2048 then 2048 else len) ∧
      m.payload = (match payload with
        | some p => if len > 0 then
            readBytes p 0 (if len > 2048 then 2048 else len)
              ++ old.payload.drop (if len > 2048 then 2048 else len)
          else old.payload
        | none => old.payload) := by
  obtain ⟨m, hvis, hm, _, _, h1, _, _, _, h5, h6, h7⟩ :=
    pending_queue_add_visible q now_s request_id msg_type payload len old hroom hold
  refine ⟨m, hm, ?_, h6, h7⟩
  have hlt : q.count < q.messages.length := (List.getElem?_eq_some.mp hold).1
  have hvlen : q.visible.length = q.count := by
    simp only [PendingQueue.visible, List.length_take]
    omega
  have hpend : (m.is_active && m.request_id == request_id % 2 ^ 32) = true := by
    simp [h5, h1]
  have hfind : pending_queue_find
      (pending_queue_add q now_s request_id msg_type payload len).2 (request_id % 2 ^ 32)
      = (q.count : Int) := by
    have h0 : pending_queue_find
        (pending_queue_add q now_s request_id msg_type payload len).2 (request_id % 2 ^ 32)
        = pending_queue_find_from (request_id % 2 ^ 32) (q.visible ++ [m]) 0 := by
      rw [← hvis]; rfl
    rw [h0, find_from_append_none _ _ _ hfresh 0]
    simp only [pending_queue_find_from, if_pos hpend, zero_add, hvlen]
  simp only [pending_queue_get_payload, hfind]
  have hnn : (q.count : Int) ≥ 0 := Int.natCast_nonneg _
  rw [if_pos hnn]
  simp [List.getD_eq_getElem?_getD, hm]

/-- What `send_message_reliable` transmits and what it keeps for retransmission: the frame has
20 + `payload_len` bytes, while the pending queue keeps its first min(2048, 20 + `payload_len`)
bytes and reports that length. -/
theorem send_message_reliable_stored (e : Endian) (now_s add_now_s : Nat) (send_n : Int)
    (st : ClientGlobals) (type : Nat) (payload : Option (List Nat)) (payload_len flags : Nat)
    (old : PendingMessage)
    (hn : 0 ≤ send_n) (hack : is_flag_set (flags % 2 ^ 16) FLAG_REQUIRES_ACK = true)
    (hlen : payload_len < 2 ^ 16)
    (hroom : st.pending_queue.count < MAX_PENDING_MESSAGES)
    (hold : st.pending_queue.messages[st.pending_queue.count]? = some old)
    (hfresh : ∀ m ∈ st.pending_queue.visible, is_pending (st.request_id % 2 ^ 32) m = false) :
    (send_message_reliable e now_s add_now_s send_n st type payload payload_len flags).1.length
        = HEADER_SIZE + payload_len ∧
      ∃ buf,
        pending_queue_get_payload
            (send_message_reliable e now_s add_now_s send_n st type payload payload_len
              flags).2.pending_queue (st.request_id % 2 ^ 32)
          = (some buf, min 2048 (HEADER_SIZE + payload_len)) ∧
        readBytes buf 0 (min 2048 (HEADER_SIZE + payload_len))
          = (send_message_reliable e now_s add_now_s send_n st type payload payload_len
              flags).1.take (min 2048 (HEADER_SIZE + payload_len)) := by
  have hn' : ¬ send_n < 0 := not_lt.mpr hn
  have hmod : payload_len % 2 ^ 16 = payload_len := Nat.mod_eq_of_lt hlen
  have hidem : st.request_id % 2 ^ 32 % 2 ^ 32 = st.request_id % 2 ^ 32 := Nat.mod_mod _ _
  have hfresh' : ∀ m ∈ st.pending_queue.visible,
      is_pending (st.request_id % 2 ^ 32 % 2 ^ 32) m = false := by rw [hidem]; exact hfresh
  simp only [send_message_reliable, if_neg hn', if_pos hack, hmod]
  generalize hH : (headerBytes e
      { version := 1, type := type % 2 ^ 8, flags := flags % 2 ^ 16,
        request_id := st.request_id % 2 ^ 32, timestamp := now_s % 2 ^ 64,
        payload_length := payload_len }) = H
  have hHlen : H.length = HEADER_SIZE := by rw [← hH]; exact headerBytes_length _ _
  have hframe : H ++ readBytes (copied_payload payload payload_len) 0 payload_len
      = readBytes (H ++ copied_payload payload payload_len) 0 (HEADER_SIZE + payload_len) := by
    rw [← hHlen, readBytes_append_source]
  constructor
  · simp [hHlen, readBytes_length]
  · obtain ⟨m, _, hget, hml, hmp⟩ := pending_queue_add_get_payload st.pending_queue add_now_s
      (st.request_id % 2 ^ 32) type
      (some ((H ++ copied_payload payload payload_len).take BUFF_SIZE))
      (HEADER_SIZE + payload_len) old hroom hold hfresh'
    rw [hidem] at hget
    have hL : (if HEADER_SIZE + payload_len > 2048 then 2048 else HEADER_SIZE + payload_len)
        = min 2048 (HEADER_SIZE + payload_len) := by
      split <;> omega
    rw [hL] at hml hmp
    have hpos : HEADER_SIZE + payload_len > 0 := by simp [HEADER_SIZE]
    simp only [if_pos hpos] at hmp
    refine ⟨m.payload, ?_, ?_⟩
    · rw [hget, hml]
    · rw [hmp, hframe]
      have hrl : (readBytes (List.take BUFF_SIZE (H ++ copied_payload payload payload_len)) 0
          (min 2048 (HEADER_SIZE + payload_len))).length = min 2048 (HEADER_SIZE + payload_len) :=
        readBytes_length _ _ _
      have h1 := readBytes_append_prefix
        (readBytes (List.take BUFF_SIZE (H ++ copied_payload payload payload_len)) 0
          (min 2048 (HEADER_SIZE + payload_len)))
        (List.drop (min 2048 (HEADER_SIZE + payload_len)) old.payload)
      rw [hrl] at h1
      rw [h1, readBytes_take_source _ _ _ (by simp [BUFF_SIZE]),
        readBytes_take_result _ _ _ (Nat.min_le_right _ _)]

/-- C12 (defect: the retransmission buffer is 20 bytes too small). A `send_message_reliable` call
with requires-ack and a payload of 2048 bytes (the maximum frame payload), made on the initial
globals, hands `send` a frame of 2068 bytes, but `pending_queue_get_payload` for the assigned
request id 1 reports length 2048 and holds only the first 2048 bytes of that frame. -/
theorem C12_retransmission_buffer_truncated :
    (send_message_reliable Endian.little 5 6 2068 client_init 33 (some (List.replicate 2048 65))
        2048 FLAG_REQUIRES_ACK).1.length = 2068 ∧
      ∃ buf,
        pending_queue_get_payload
            (send_message_reliable Endian.little 5 6 2068 client_init 33
              (some (List.replicate 2048 65)) 2048 FLAG_REQUIRES_ACK).2.pending_queue 1
          = (some buf, 2048) ∧
        readBytes buf 0 2048
          = (send_message_reliable Endian.little 5 6 2068 client_init 33
              (some (List.replicate 2048 65)) 2048 FLAG_REQUIRES_ACK).1.take 2048 :=
  send_message_reliable_stored Endian.little 5 6 2068 client_init 33
    (some (List.replicate 2048 65)) 2048 FLAG_REQUIRES_ACK PendingMessage.zero
    (by decide) (by decide) (by decide) (by decide) (by decide) (by decide)

/-- For a payload of at most 2028 bytes the pending queue keeps the whole transmitted frame and
reports its full length. -/
theorem retransmission_bytes_within_buffer (e : Endian) (now_s add_now_s : Nat) (send_n : Int)
    (st : ClientGlobals) (type : Nat) (payload : Option (List Nat)) (payload_len flags : Nat)
    (old : PendingMessage)
    (hn : 0 ≤ send_n) (hack : is_flag_set (flags % 2 ^ 16) FLAG_REQUIRES_ACK = true)
    (hlen : payload_len ≤ 2028)
    (hroom : st.pending_queue.count < MAX_PENDING_MESSAGES)
    (hold : st.pending_queue.messages[st.pending_queue.count]? = some old)
    (hfresh : ∀ m ∈ st.pending_queue.visible, is_pending (st.request_id % 2 ^ 32) m = false) :
    ∃ buf,
      pending_queue_get_payload
          (send_message_reliable e now_s add_now_s send_n st type payload payload_len
            flags).2.pending_queue (st.request_id % 2 ^ 32)
        = (some buf, HEADER_SIZE + payload_len) ∧
      readBytes buf 0 (HEADER_SIZE + payload_len)
        = (send_message_reliable e now_s add_now_s send_n st type payload payload_len flags).1 := by
  obtain ⟨hflen, buf, h1, h2⟩ := send_message_reliable_stored e now_s add_now_s send_n st type
    payload payload_len flags old hn hack (by omega) hroom hold hfresh
  have hmin : min 2048 (HEADER_SIZE + payload_len) = HEADER_SIZE + payload_len := by
    simp only [HEADER_SIZE]
    omega
  rw [hmin] at h1 h2
  refine ⟨buf, h1, ?_⟩
  rw [h2, List.take_of_length_le (by rw [hflen])]

/-! ## Byte order -/

theorem ofBE_concat (bs : List Nat) (b : Nat) : ofBE (bs ++ [b]) = ofBE bs * 256 + b % 256 := by
  simp [ofBE, List.foldl_append]

theorem ofBE_lt (bs : List Nat) : ofBE bs < 256 ^ bs.length := by
  induction bs using List.reverseRecOn with
  | nil => simp [ofBE]
  | append_singleton bs b ih =>
    rw [ofBE_concat, List.length_append, List.length_singleton, pow_succ]
    have hb : b % 256 < 256 := Nat.mod_lt _ (by decide)
    omega

theorem beBytes_length (k v : Nat) : (beBytes k v).length = k := by
  induction k with
  | zero => rfl
  | succ k ih => simp [beBytes, ih]

theorem beBytes_succ_eq (k : Nat) : ∀ v : Nat, beBytes (k + 1) v = beBytes k (v / 256) ++ [v % 256] := by
  induction k with
  | zero => intro v; simp [beBytes]
  | succ k ih =>
    intro v
    have h1 : beBytes (k + 2) v = (v / 256 ^ (k + 1) % 256) :: beBytes (k + 1) v := rfl
    have h2 : beBytes (k + 1) (v / 256) = (v / 256 / 256 ^ k % 256) :: beBytes k (v / 256) := rfl
    rw [h1, ih v, h2, Nat.div_div_eq_div_mul, pow_succ, Nat.mul_comm 256 (256 ^ k)]
    rfl

theorem beBytes_ofBE (bs : List Nat) : beBytes bs.length (ofBE bs) = bs.map (fun b => b % 256) := by
  induction bs using List.reverseRecOn with
  | nil => rfl
  | append_singleton bs b ih =>
    rw [List.length_append, List.length_singleton, beBytes_succ_eq, ofBE_concat, List.map_append,
      List.map_singleton]
    have hb : b % 256 < 256 := Nat.mod_lt _ (by decide)
    have h1 : (ofBE bs * 256 + b % 256) / 256 = ofBE bs := by omega
    have h2 : (ofBE bs * 256 + b % 256) % 256 = b % 256 := by omega
    rw [h1, h2, ih]

theorem beBytes_map_mod (k : Nat) : ∀ v : Nat, (beBytes k v).map (fun b => b % 256) = beBytes k v := by
  induction k with
  | zero => intro v; rfl
  | succ k ih =>
    intro v
    simp only [beBytes, List.map_cons, ih v, Nat.mod_mod]

theorem beBytes_mod (k : Nat) : ∀ v : Nat, beBytes k (v % 256 ^ k) = beBytes k v := by
  induction k with
  | zero => intro v; rfl
  | succ k ih =>
    intro v
    rw [beBytes_succ_eq, beBytes_succ_eq]
    have h1 : v % 256 ^ (k + 1) / 256 = v / 256 % 256 ^ k := by
      rw [pow_succ, Nat.mul_comm (256 ^ k) 256, Nat.mod_mul_right_div_self]
    have h2 : v % 256 ^ (k + 1) % 256 = v % 256 := by
      apply Nat.mod_mod_of_dvd
      exact Dvd.intro_left (256 ^ k) (by rw [pow_succ])
    rw [h1, h2, ih]

/-- A value byte-swapped on a little-endian host lies in memory in big-endian order. -/
theorem storeInt_little_bswap (k v : Nat) : storeInt Endian.little k (bswap k v) = beBytes k v := by
  have hlen : ((beBytes k v).reverse).length = k := by rw [List.length_reverse, beBytes_length]
  have h := beBytes_ofBE (beBytes k v).reverse
  rw [hlen] at h
  simp only [storeInt, bswap]
  rw [h, List.map_reverse, beBytes_map_mod, List.reverse_reverse]

theorem storeInt_htons (e : Endian) (v : Nat) : storeInt e 2 (htons e v) = beBytes 2 v := by
  cases e
  · exact storeInt_little_bswap 2 v
  · exact beBytes_mod 2 v

theorem storeInt_htonl (e : Endian) (v : Nat) : storeInt e 4 (htonl e v) = beBytes 4 v := by
  cases e
  · exact storeInt_little_bswap 4 v
  · exact beBytes_mod 4 v

theorem storeInt_host_to_net64 (e : Endian) (v : Nat) :
    storeInt e 8 (host_to_net64 e v) = beBytes 8 v := by
  cases e
  · exact storeInt_little_bswap 8 v
  · exact beBytes_mod 8 v

/-- On either host, the header `send_to_client` writes is laid out big-endian: version 1, type,
then flags, request id, timestamp and (clamped) payload length most significant byte first. -/
theorem send_to_client_big_endian (e : Endian) (c : ClientSession) (m : Message)
    (hfd : 0 ≤ c.sockfd) :
    ∃ frame, send_to_client e (some c) (some m) = some frame ∧
      frame.take HEADER_SIZE
        = [1, m.header.type % 256] ++ beBytes 2 m.header.flags ++ beBytes 4 m.header.request_id
            ++ beBytes 8 m.header.timestamp
            ++ beBytes 4 (min (m.header.payload_length % 2 ^ 32) BUFF_SIZE) := by
  have hfd' : ¬ c.sockfd < 0 := not_lt.mpr hfd
  have hclamp : (if m.header.payload_length % 2 ^ 32 > BUFF_SIZE then BUFF_SIZE
      else m.header.payload_length % 2 ^ 32) = min (m.header.payload_length % 2 ^ 32) BUFF_SIZE := by
    split <;> omega
  simp only [send_to_client, if_neg hfd', hclamp]
  refine ⟨_, rfl, ?_⟩
  rw [List.take_left' (headerBytes_length e _)]
  simp only [headerBytes, storeInt_htons, storeInt_htonl, storeInt_host_to_net64]
  try rfl

/-! ## Server read loop -/

theorem loadInt_lt (e : Endian) (bs : List Nat) : loadInt e bs < 256 ^ bs.length := by
  cases e
  · have h := ofBE_lt bs.reverse
    rw [List.length_reverse] at h
    exact h
  · exact ofBE_lt bs

theorem memHeader_bounds (e : Endian) (mem : List Nat) :
    (memHeader e mem).type < 2 ^ 8 ∧ (memHeader e mem).flags < 2 ^ 16 ∧
      (memHeader e mem).request_id < 2 ^ 32 := by
  refine ⟨?_, ?_, ?_⟩
  · exact Nat.mod_lt _ (by decide)
  · have h := loadInt_lt e (readBytes mem 2 2)
    rw [readBytes_length] at h
    exact h
  · have h := loadInt_lt e (readBytes mem 4 4)
    rw [readBytes_length] at h
    exact h

/-- A header read that returns nothing (end of stream or error) ends the loop with no
acknowledgment and no dispatch. -/
theorem client_thread_iter_no_data (e : Endian) (now_s : Nat) (hdr : Recv) (pay : Nat → Recv)
    (hn : hdr.n ≤ 0) : client_thread_iter e now_s hdr pay = ([], LoopExit.disconnected) := by
  simp [client_thread_iter, hn]

/-- C14. The acknowledgment frame. For every pass of the read loop of `client_thread` that receives
a frame (the header read returns data and the pass does not end on an incomplete payload) whose
flags have `FLAG_REQUIRES_ACK` set, the first thing the pass does is send one header-only frame of
20 bytes, the memory image of the header that `create_ack_message` builds on a zeroed `Message`:
version 1, `payload_length` 0, the `request_id` and `type` of the received header, and flags
exactly `FLAG_IS_ACK` (requires-ack not set); the call of `handle_client_message` for the frame,
when there is one, comes after it. -/
theorem C14_ack_frame (e : Endian) (now_s : Nat) (hdr : Recv) (pay : Nat → Recv)
    (hn : 0 < hdr.n)
    (hreq : is_flag_set (memHeader e hdr.data).flags FLAG_REQUIRES_ACK = true)
    (hnext : (client_thread_iter e now_s hdr pay).2 = LoopExit.next) :
    ∃ msg : Message, msg.header = memHeader e hdr.data ∧
      create_ack_message now_s Message.zero msg.header.request_id msg.header.type
        = { header := { version := 1, type := msg.header.type, flags := FLAG_IS_ACK,
                        request_id := msg.header.request_id, timestamp := now_s % 2 ^ 64,
                        payload_length := 0 }
            payload := [] } ∧
      (client_thread_iter e now_s hdr pay).1
        = Event.ack_sent
            (headerBytes e { version := 1, type := msg.header.type, flags := FLAG_IS_ACK,
                             request_id := msg.header.request_id, timestamp := now_s % 2 ^ 64,
                             payload_length := 0 })
          :: (if is_flag_set msg.header.flags FLAG_IS_ACK then [] else [Event.handled msg]) ∧
      (headerBytes e { version := 1, type := msg.header.type, flags := FLAG_IS_ACK,
                       request_id := msg.header.request_id, timestamp := now_s % 2 ^ 64,
                       payload_length := 0 }).length = HEADER_SIZE ∧
      is_flag_set FLAG_IS_ACK FLAG_REQUIRES_ACK = false := by
  obtain ⟨hty, _, hid⟩ := memHeader_bounds e hdr.data
  have hn' : ¬ hdr.n ≤ 0 := not_le.mpr hn
  have hack : create_ack_message now_s Message.zero (memHeader e hdr.data).request_id
      (memHeader e hdr.data).type
      = { header := { version := 1, type := (memHeader e hdr.data).type, flags := FLAG_IS_ACK,
                      request_id := (memHeader e hdr.data).request_id,
                      timestamp := now_s % 2 ^ 64, payload_length := 0 }
          payload := [] } := by
    simp only [create_ack_message, Message.zero, MessageHeader.zero, Nat.mod_eq_of_lt hty,
      Nat.mod_eq_of_lt hid]
    rfl
  by_cases hinc : (decide (ntohl e (memHeader e hdr.data).payload_length > 0) &&
        decide (ntohl e (memHeader e hdr.data).payload_length ≤ BUFF_SIZE) &&
        decide ((pay (ntohl e (memHeader e hdr.data).payload_length)).n
          ≠ ((ntohl e (memHeader e hdr.data).payload_length : Nat) : Int))) = true
  · simp only [client_thread_iter, if_neg hn', if_pos hinc] at hnext
    exact absurd hnext (by decide)
  · refine ⟨{ header := memHeader e hdr.data,
              payload := if (decide (ntohl e (memHeader e hdr.data).payload_length > 0) &&
                  decide (ntohl e (memHeader e hdr.data).payload_length ≤ BUFF_SIZE)) = true
                then (pay (ntohl e (memHeader e hdr.data).payload_length)).data else [] },
      rfl, hack, ?_, headerBytes_length _ _, by decide⟩
    simp only [client_thread_iter, if_neg hn', if_neg hinc, hreq, if_true, hack]
    by_cases hia : is_flag_set (memHeader e hdr.data).flags FLAG_IS_ACK = true
    · simp [hia]
    · simp [hia]

/-- Witness for C14: on a little-endian host, a 20-byte header of type 33 with requires-ack set
and request id 7, received at time 1000. -/
theorem C14_ack_frame_witness :
    ∃ msg : Message,
      msg.header = memHeader Endian.little
        [1, 33, 1, 0, 7, 0, 0, 0, 0, 0, 0, 0, 0, 0, 0, 0, 0, 0, 0, 0] ∧
      (client_thread_iter Endian.little 1000
          { n := 20, data := [1, 33, 1, 0, 7, 0, 0, 0, 0, 0, 0, 0, 0, 0, 0, 0, 0, 0, 0, 0] }
          (fun _ => { n := 0, data := [] })).1
        = Event.ack_sent
            (headerBytes Endian.little
              { version := 1, type := msg.header.type, flags := FLAG_IS_ACK,
                request_id := msg.header.request_id, timestamp := 1000 % 2 ^ 64,
                payload_length := 0 })
          :: (if is_flag_set msg.header.flags FLAG_IS_ACK then [] else [Event.handled msg]) := by
  obtain ⟨msg, h1, _, h3, _⟩ :=
    C14_ack_frame Endian.little 1000
      { n := 20, data := [1, 33, 1, 0, 7, 0, 0, 0, 0, 0, 0, 0, 0, 0, 0, 0, 0, 0, 0, 0] }
      (fun _ => { n := 0, data := [] }) (by decide) (by decide) (by decide)
  exact ⟨msg, h1, h3⟩

/-- C15 (defect: the acknowledgment path sends the header in host byte order). On a little-endian
host, for a received header of type 33 with requires-ack set and request id 7, at time 1000,
`client_thread` sends the acknowledgment `01 21 02 00 07 00 00 00 e8 03 00 ... 00`: flags,
request id and timestamp are laid out little-endian, not as in the big-endian layout
`01 21 00 02 00 00 00 07 00 ... 03 e8 00 00 00 00` of the same header. The frame `send_to_client`
writes for `demo_message` on the same host is big-endian. -/
theorem C15_ack_path_is_host_order :
    client_thread Endian.little 1000
        [1, 33, 1, 0, 7, 0, 0, 0, 0, 0, 0, 0, 0, 0, 0, 0, 0, 0, 0, 0]
      = ([Event.ack_sent [1, 33, 2, 0, 7, 0, 0, 0, 232, 3, 0, 0, 0, 0, 0, 0, 0, 0, 0, 0],
          Event.handled
            { header := { version := 1, type := 33, flags := 1, request_id := 7, timestamp := 0,
                          payload_length := 0 }
              payload := [] }],
          some LoopExit.disconnected) ∧
      [1, 33] ++ beBytes 2 FLAG_IS_ACK ++ beBytes 4 7 ++ beBytes 8 1000 ++ beBytes 4 0
        = [1, 33, 0, 2, 0, 0, 0, 7, 0, 0, 0, 0, 0, 0, 3, 232, 0, 0, 0, 0] ∧
      (send_to_client Endian.little (some demo_session) (some demo_message)).map
          (fun frame => frame.take HEADER_SIZE)
        = some ([1, 35] ++ beBytes 2 1 ++ beBytes 4 1 ++ beBytes 8 1 ++ beBytes 4 3) := by
  refine ⟨?_, ?_, ?_⟩ <;> decide

/-- C16 (defect: a partial header is processed). On a little-endian host, when the connection
delivers only the four bytes `01 21 01 00` and then closes, the header read returns 4 bytes, and
`client_thread` does not leave the loop on it: it sends an acknowledgment and calls
`handle_client_message` with the partly filled header, and only leaves at the next read. A read
that returns 0 or less does leave the loop at once (`client_thread_iter_no_data`). -/
theorem C16_partial_header_is_processed :
    (sock_recv [1, 33, 1, 0] HEADER_SIZE).1.n = 4 ∧
      client_thread Endian.little 1000 [1, 33, 1, 0]
        = ([Event.ack_sent [1, 33, 2, 0, 0, 0, 0, 0, 232, 3, 0, 0, 0, 0, 0, 0, 0, 0, 0, 0],
            Event.handled
              { header := { version := 1, type := 33, flags := 1, request_id := 0,
                            timestamp := 0, payload_length := 0 }
                payload := [] }],
            some LoopExit.disconnected) := by
  refine ⟨?_, ?_⟩ <;> decide

/-! ## Retransmission timing -/

/-- What one sweep at time `now` does to a followed entry: it is reported only if more than
`ACK_TIMEOUT_MS` have elapsed (in 64-bit arithmetic) since its send time, and afterwards it is
still followed, with the same send time, or retired. -/
theorem tracked_sweep (rid st i j now : Nat) (a : List PendingMessage)
    (h : Tracked rid st i j a) :
    (rid ∈ (a.filter (is_expired now)).map (fun m => m.request_id) →
        (now % 2 ^ 64 + 2 ^ 64 - st % 2 ^ 64) % 2 ^ 64 > ACK_TIMEOUT_MS) ∧
      ((∃ j1, Tracked rid st i j1
          ((bump_all a ((a.filter (is_expired now)).map (fun m => m.request_id))).map expire)) ∨
        Retired rid i
          ((bump_all a ((a.filter (is_expired now)).map (fun m => m.request_id))).map expire)) := by
  have h0 := h
  obtain ⟨pre, e, post, ha, hlen, hid, hst, hact, hret, hpre, hpost⟩ := h
  have hn1 := expired_ids_not_mem now rid pre hpre
  have hn2 := expired_ids_not_mem now rid post hpost
  by_cases hexp : is_expired now e = true
  · have hsplit : (a.filter (is_expired now)).map (fun m => m.request_id)
        = (pre.filter (is_expired now)).map (fun m => m.request_id)
          ++ rid :: (post.filter (is_expired now)).map (fun m => m.request_id) := by
      rw [ha, List.filter_append, List.filter_cons_of_pos hexp, List.map_append, List.map_cons, hid]
    constructor
    · intro _
      simp only [is_expired, hact, Bool.true_and, decide_eq_true_eq, hst] at hexp
      exact hexp.1
    · have hb := tracked_bump_all rid st i j _ _ hn1 hn2 a h0
      rw [← hsplit] at hb
      by_cases hj : (j + 1) % 2 ^ 8 < MAX_RETRIES
      · exact Or.inl ⟨_, tracked_expire_alive rid st i _ _ hb hj⟩
      · exact Or.inr (tracked_expire_dead rid st i _ _ hb (not_lt.mp hj))
  · have hsplit : (a.filter (is_expired now)).map (fun m => m.request_id)
        = (pre.filter (is_expired now)).map (fun m => m.request_id)
          ++ (post.filter (is_expired now)).map (fun m => m.request_id) := by
      rw [ha, List.filter_append, List.filter_cons_of_neg hexp, List.map_append]
    have hnot : rid ∉ (a.filter (is_expired now)).map (fun m => m.request_id) := by
      rw [hsplit, List.mem_append]
      exact fun hc => hc.elim hn1 hn2
    constructor
    · intro hc
      exact absurd hc hnot
    · have hb := tracked_bump_all_other rid st i j _ hnot a h0
      by_cases hj : j < MAX_RETRIES
      · exact Or.inl ⟨_, tracked_expire_alive rid st i _ _ hb hj⟩
      · exact Or.inr (tracked_expire_dead rid st i _ _ hb (not_lt.mp hj))

/-- In any sequence of sweeps, every sweep that reports the followed id runs more than
`ACK_TIMEOUT_MS` (in 64-bit arithmetic) after the send time of its entry. -/
theorem run_sweeps_elapsed (rid st i : Nat) (sweeps : List (Nat × Int)) :
    ∀ q : PendingQueue,
      ((∃ j, Tracked rid st i j q.visible) ∨ Retired rid i q.visible) →
      q.count ≤ MAX_PENDING_MESSAGES →
      (∀ s ∈ sweeps, (MAX_PENDING_MESSAGES : Int) ≤ s.2) →
      ∀ p ∈ List.zip sweeps (run_sweeps q sweeps).1, rid ∈ p.2 →
        (p.1.1 % 2 ^ 64 + 2 ^ 64 - st % 2 ^ 64) % 2 ^ 64 > ACK_TIMEOUT_MS := by
  induction sweeps with
  | nil => intro q _ _ _ p hp; simp [run_sweeps] at hp
  | cons s ss ih =>
    intro q hq hc hs p hp hmem
    have hmax : (q.visible.length : Int) ≤ s.2 := by
      have h1 := visible_length_le q
      have h2 := hs s (List.mem_cons_self _ _)
      omega
    obtain ⟨hids, _⟩ := sweep_eq q s.1 s.2 hmax
    obtain ⟨hvis, hcnt⟩ := sweep_visible q s.1 s.2 hmax
    have hnext : (∃ j, Tracked rid st i j (sweep q s.1 s.2).2.visible) ∨
        Retired rid i (sweep q s.1 s.2).2.visible := by
      rw [hvis]
      rcases hq with ⟨j, hj⟩ | hr
      · exact (tracked_sweep rid st i j s.1 _ hj).2
      · exact Or.inr (retired_expire rid i _ (retired_bump_all rid i _ _ hr))
    simp only [run_sweeps, List.zip_cons_cons, List.mem_cons] at hp
    rcases hp with rfl | hp
    · simp only [hids] at hmem
      rcases hq with ⟨j, hj⟩ | hr
      · exact (tracked_sweep rid st i j s.1 _ hj).1 hmem
      · exact absurd hmem (expired_ids_not_mem s.1 rid _ hr.2)
    · exact ih (sweep q s.1 s.2).2 hnext (by rw [hcnt]; exact hc)
        (fun x hx => hs x (List.mem_cons_of_mem _ hx)) p hp hmem

/-- A followed entry with retries left is reported by every sweep that runs more than
`ACK_TIMEOUT_MS` after its send time, and stays followed, one retry further, while its count
stays below `MAX_RETRIES`. -/
theorem tracked_reported (rid st i j now : Nat) (a : List PendingMessage)
    (h : Tracked rid st i j a)
    (hel : (now % 2 ^ 64 + 2 ^ 64 - st % 2 ^ 64) % 2 ^ 64 > ACK_TIMEOUT_MS)
    (hj : j < MAX_RETRIES) :
    rid ∈ (a.filter (is_expired now)).map (fun m => m.request_id) ∧
      (j + 1 < MAX_RETRIES →
        Tracked rid st i (j + 1)
          ((bump_all a ((a.filter (is_expired now)).map (fun m => m.request_id))).map expire)) := by
  have h0 := h
  obtain ⟨pre, e, post, ha, hlen, hid, hst, hact, hret, hpre, hpost⟩ := h
  have hn1 := expired_ids_not_mem now rid pre hpre
  have hn2 := expired_ids_not_mem now rid post hpost
  have hexp : is_expired now e = true := by
    simp only [is_expired, hact, Bool.true_and, decide_eq_true_eq, hst, hret]
    exact ⟨hel, hj⟩
  have hsplit : (a.filter (is_expired now)).map (fun m => m.request_id)
      = (pre.filter (is_expired now)).map (fun m => m.request_id)
        ++ rid :: (post.filter (is_expired now)).map (fun m => m.request_id) := by
    rw [ha, List.filter_append, List.filter_cons_of_pos hexp, List.map_append, List.map_cons, hid]
  constructor
  · rw [hsplit]
    exact List.mem_append_right _ (List.mem_cons_self _ _)
  · intro hj1
    have hb := tracked_bump_all rid st i j _ _ hn1 hn2 a h0
    rw [← hsplit] at hb
    have hmod : (j + 1) % 2 ^ 8 = j + 1 := by
      simp only [MAX_RETRIES] at hj1
      omega
    rw [hmod] at hb
    exact tracked_expire_alive rid st i _ _ hb hj1

/-- C13 as stated fails: on `retry_queue`, the sweeps at the clock readings 7000 ms and 8000 ms
(`time(NULL)` 7 and 8) both return the request id 8 of the entry sent at 1000 ms, and they are
1000 ms apart, less than `ACK_TIMEOUT_MS`. -/
theorem C13_retransmission_spacing_counterexample :
    clock_ms 7 = 7000 ∧ clock_ms 8 = 8000 ∧
      (run_sweeps retry_queue [(clock_ms 7, 100), (clock_ms 8, 100)]).1.map
          (fun ids => decide (8 ∈ ids)) = [true, true] ∧
      clock_ms 7 < clock_ms 8 ∧
      ¬ (clock_ms 8 - clock_ms 7 ≥ ACK_TIMEOUT_MS) := by
  refine ⟨?_, ?_, ?_, ?_, ?_⟩ <;> decide

/-- C13, amended. Let `q` be a queue with `count ≤ 100` whose active entries below `count` have
pairwise distinct request ids, `e` an active entry of it at index `i < count`, and run any sequence
of sweeps (with `max_count ≥ 100`) with no acknowledgment in between. Every sweep that returns the
request id of `e` runs at a time `t` with `(t - e.send_time) mod 2^64 > ACK_TIMEOUT_MS`, that is,
more than 5000 ms after the entry was first sent whenever the clock value `t` is not below
`e.send_time`. Two different readings of the clock `(uint64_t)time(NULL) * 1000` (below the
wrap) are at least 1000 ms apart, and two sweeps that return the id need be no further apart
than that: when `e` has at least two retries left, a sweep more than 5000 ms after `e.send_time`
and the sweep one clock tick later both return the id of `e`. -/
theorem C13_retransmission_timing (q : PendingQueue) (i : Nat) (e : PendingMessage)
    (sweeps : List (Nat × Int))
    (hcount : q.count ≤ MAX_PENDING_MESSAGES) (hi : i < q.count)
    (he : q.messages[i]? = some e) (hact : e.is_active = true)
    (hdistinct :
      ((q.visible.filter (fun m => m.is_active)).map (fun m => m.request_id)).Nodup)
    (hsweeps : ∀ s ∈ sweeps, (MAX_PENDING_MESSAGES : Int) ≤ s.2) :
    (∀ p ∈ List.zip sweeps (run_sweeps q sweeps).1, e.request_id ∈ p.2 →
      (p.1.1 % 2 ^ 64 + 2 ^ 64 - e.send_time % 2 ^ 64) % 2 ^ 64 > ACK_TIMEOUT_MS ∧
        (e.send_time ≤ p.1.1 → p.1.1 < 2 ^ 64 → e.send_time + ACK_TIMEOUT_MS < p.1.1)) ∧
    (∀ n1 n2 : Nat, n2 * 1000 < 2 ^ 64 → n1 < n2 → clock_ms n1 + 1000 ≤ clock_ms n2) ∧
    (∀ (n : Nat) (mc1 mc2 : Int),
      (MAX_PENDING_MESSAGES : Int) ≤ mc1 → (MAX_PENDING_MESSAGES : Int) ≤ mc2 →
      (n + 1) * 1000 < 2 ^ 64 → e.send_time + ACK_TIMEOUT_MS < clock_ms n →
      e.retry_count + 1 < MAX_RETRIES →
        e.request_id ∈ (sweep q (clock_ms n) mc1).1 ∧
          e.request_id ∈ (sweep (sweep q (clock_ms n) mc1).2 (clock_ms (n + 1)) mc2).1 ∧
          clock_ms (n + 1) - clock_ms n = 1000) := by
  have htr := tracked_of_distinct q i e hi he hact hdistinct
  refine ⟨?_, ?_, ?_⟩
  · intro p hp hmem
    have h := run_sweeps_elapsed e.request_id e.send_time i sweeps q (Or.inl ⟨_, htr⟩) hcount
      hsweeps p hp hmem
    refine ⟨h, ?_⟩
    intro h1 h2
    simp only [ACK_TIMEOUT_MS] at h ⊢
    omega
  · intro n1 n2 h2 h12
    have h1 : n1 * 1000 < 2 ^ 64 := by omega
    rw [clock_ms, clock_ms, Nat.mod_eq_of_lt h1, Nat.mod_eq_of_lt h2]
    omega
  · intro n mc1 mc2 hm1 hm2 hwrap hlate hretry
    have hvl := visible_length_le q
    have hmax1 : (q.visible.length : Int) ≤ mc1 := by omega
    obtain ⟨hids1, _⟩ := sweep_eq q (clock_ms n) mc1 hmax1
    obtain ⟨hvis1, hcnt1⟩ := sweep_visible q (clock_ms n) mc1 hmax1
    have hwrap0 : n * 1000 < 2 ^ 64 := by omega
    have hc1 : clock_ms n = n * 1000 := Nat.mod_eq_of_lt hwrap0
    have hc2 : clock_ms (n + 1) = (n + 1) * 1000 := Nat.mod_eq_of_lt hwrap
    have hlate1 : e.send_time + 5000 < n * 1000 := by
      rw [hc1] at hlate
      exact hlate
    have hel1 : (clock_ms n % 2 ^ 64 + 2 ^ 64 - e.send_time % 2 ^ 64) % 2 ^ 64
        > ACK_TIMEOUT_MS := by
      rw [hc1]
      show (n * 1000 % 2 ^ 64 + 2 ^ 64 - e.send_time % 2 ^ 64) % 2 ^ 64 > 5000
      clear hc1 hc2 hlate hids1 hvis1 hcnt1 htr hdistinct hsweeps he hact hretry hm1 hm2 hmax1
      omega
    have hel2 : (clock_ms (n + 1) % 2 ^ 64 + 2 ^ 64 - e.send_time % 2 ^ 64) % 2 ^ 64
        > ACK_TIMEOUT_MS := by
      rw [hc2]
      show ((n + 1) * 1000 % 2 ^ 64 + 2 ^ 64 - e.send_time % 2 ^ 64) % 2 ^ 64 > 5000
      clear hc1 hc2 hlate hids1 hvis1 hcnt1 htr hdistinct hsweeps he hact hretry hm1 hm2 hmax1
        hel1
      omega
    have hj : e.retry_count < MAX_RETRIES := by omega
    obtain ⟨hin1, hnext⟩ :=
      tracked_reported e.request_id e.send_time i e.retry_count (clock_ms n) q.visible htr hel1 hj
    have htr2 := hnext hretry
    rw [← hvis1] at htr2
    have hvl2 := visible_length_le (sweep q (clock_ms n) mc1).2
    have hmax2 : ((sweep q (clock_ms n) mc1).2.visible.length : Int) ≤ mc2 := by
      rw [hcnt1] at hvl2
      omega
    obtain ⟨hids2, _⟩ := sweep_eq (sweep q (clock_ms n) mc1).2 (clock_ms (n + 1)) mc2 hmax2
    obtain ⟨hin2, _⟩ :=
      tracked_reported e.request_id e.send_time i (e.retry_count + 1) (clock_ms (n + 1))
        (sweep q (clock_ms n) mc1).2.visible htr2 hel2 hretry
    refine ⟨by rw [hids1]; exact hin1, by rw [hids2]; exact hin2, ?_⟩
    rw [hc1, hc2]
    omega

/-- Witness for the amended C13: the entry with request id 8 of `retry_queue`, sent at 1000 ms,
under the sweeps at the clock readings 7000 and 8000 ms; both return it, the first more than
5000 ms after 1000. -/
theorem C13_retransmission_timing_witness :
    ((clock_ms 7, 100), [7, 8]) ∈ List.zip [(clock_ms 7, (100 : Int)), (clock_ms 8, 100)]
        (run_sweeps retry_queue [(clock_ms 7, 100), (clock_ms 8, 100)]).1 ∧
      (1000 + ACK_TIMEOUT_MS < clock_ms 7) ∧
      8 ∈ (sweep retry_queue (clock_ms 7) 100).1 ∧
      8 ∈ (sweep (sweep retry_queue (clock_ms 7) 100).2 (clock_ms (7 + 1)) 100).1 ∧
      clock_ms (7 + 1) - clock_ms 7 = 1000 :=
  ⟨by decide,
    ((C13_retransmission_timing retry_queue 1
      { request_id := 8, message_type := 33, send_time := 1000, retry_count := 0, payload := [],
        payload_len := 0, is_active := true }
      [(clock_ms 7, 100), (clock_ms 8, 100)] (by decide) (by decide) rfl rfl (by decide)
      (by decide)).1
      ((clock_ms 7, 100), [7, 8]) (by decide) (by decide)).2 (by decide) (by decide),
    (C13_retransmission_timing retry_queue 1
      { request_id := 8, message_type := 33, send_time := 1000, retry_count := 0, payload := [],
        payload_len := 0, is_active := true }
      [] (by decide) (by decide) rfl rfl (by decide) (by decide)).2.2 7 100 100
      (by decide) (by decide) (by decide) (by decide) (by decide)⟩

/-! ## Session lifecycle and capacity -/

theorem session_leave_room_some (c : ClientSession) (hc : c.current_room_id ≠ -1) :
    session_leave_room (some c)
      = (true, some { c with current_room_id := -1, state := ClientState.STATE_IN_LOBBY }) := by
  simp [session_leave_room, session_leave_room_nolock, hc]

/-- C17 as stated fails: a session freshly registered in the empty table (state
`STATE_DISCONNECTED`, `user_id` 0) is moved to `STATE_IN_ROOM` by `session_join_room(s, 3)`, and
then to `STATE_IN_LOBBY` by `session_leave_room`, without ever being authenticated. -/
theorem C17_lifecycle_counterexample :
    ((session_add_client empty_table true 0 4).2.session 0).map (fun s => (s.state, s.user_id))
        = some (ClientState.STATE_DISCONNECTED, 0) ∧
      ((session_join_room_at (session_add_client empty_table true 0 4).2 0 3).2.session 0).map
          (fun s => (s.state, s.user_id)) = some (ClientState.STATE_IN_ROOM, 0) ∧
      ((session_leave_room_at
          (session_join_room_at (session_add_client empty_table true 0 4).2 0 3).2 0).2.session
            0).map (fun s => (s.state, s.user_id)) = some (ClientState.STATE_IN_LOBBY, 0) := by
  refine ⟨?_, ?_, ?_⟩ <;> decide

/-- C17, amended. The registry does not look at the lifecycle state. `session_join_room` with a
room id above 0 succeeds on every session and sets `STATE_IN_ROOM` whatever the state was (also
`STATE_DISCONNECTED`); with a room id of 0 or less it fails and changes nothing.
`session_leave_room` succeeds on every session that is in a room and sets `STATE_IN_LOBBY`
whatever the state was; on a session in no room it fails and changes nothing. Neither changes
`user_id`. -/
theorem C17_lifecycle_not_enforced (c : ClientSession) (room_id : Int) :
    (0 < room_id →
        session_join_room (some c) room_id
          = (true, some { c with current_room_id := room_id,
                                 state := ClientState.STATE_IN_ROOM })) ∧
      (room_id ≤ 0 → session_join_room (some c) room_id = (false, some c)) ∧
      (c.current_room_id ≠ -1 →
        session_leave_room (some c)
          = (true, some { c with current_room_id := -1,
                                 state := ClientState.STATE_IN_LOBBY })) ∧
      (c.current_room_id = -1 → session_leave_room (some c) = (false, some c)) := by
  refine ⟨session_join_room_some c room_id, ?_, session_leave_room_some c, ?_⟩
  · intro h
    simp [session_join_room, h]
  · intro h
    simp [session_leave_room, h]

/-- Witness for the amended C17: `demo_session` with its state reset to `STATE_DISCONNECTED`. -/
theorem C17_lifecycle_not_enforced_witness :
    (0 : Int) < 5 ∧
      session_join_room (some { demo_session with state := ClientState.STATE_DISCONNECTED }) 5
        = (true, some { demo_session with current_room_id := 5,
                                          state := ClientState.STATE_IN_ROOM }) ∧
      ({ demo_session with state := ClientState.STATE_DISCONNECTED } : ClientSession).current_room_id
        ≠ -1 ∧
      session_leave_room (some { demo_session with state := ClientState.STATE_DISCONNECTED })
        = (true, some { demo_session with current_room_id := -1,
                                          state := ClientState.STATE_IN_LOBBY }) :=
  ⟨by decide,
    (C17_lifecycle_not_enforced { demo_session with state := ClientState.STATE_DISCONNECTED } 5).1
      (by decide),
    by decide,
    (C17_lifecycle_not_enforced { demo_session with state := ClientState.STATE_DISCONNECTED }
      5).2.2.1 (by decide)⟩
theorem first_free_slot_full (l : List (Option ClientSession)) :
    ∀ k : Nat, (∀ c ∈ l, c.isSome = true) → first_free_slot l k = none := by
  induction l with
  | nil => intro k _; rfl
  | cons c cs ih =>
    intro k h
    by_cases hk : k < MAX_CLIENTS
    · cases c with
      | none => simpa using h none (List.mem_cons_self _ _)
      | some s =>
        simp only [first_free_slot, if_pos hk]
        exact ih (k + 1) (fun x hx => h x (List.mem_cons_of_mem _ hx))
    · simp [first_free_slot, hk]

/-- When a slot below `MAX_CLIENTS` is `NULL`, the scan finds the lowest such slot. -/
theorem first_free_slot_lowest (l : List (Option ClientSession)) :
    ∀ k : Nat, k + l.length ≤ MAX_CLIENTS → (∃ c ∈ l, c.isSome = false) →
      ∃ i, first_free_slot l k = some i ∧ k ≤ i ∧ i < k + l.length ∧ l[i - k]? = some none ∧
        ∀ j, k ≤ j → j < i → ∃ s, l[j - k]? = some (some s) := by
  induction l with
  | nil => intro k _ h; obtain ⟨c, hc, _⟩ := h; simp at hc
  | cons c cs ih =>
    intro k hk h
    simp only [List.length_cons] at hk
    have hk' : k < MAX_CLIENTS := by omega
    cases c with
    | none =>
      refine ⟨k, by simp [first_free_slot, hk'], le_refl _, by simp, by simp, ?_⟩
      intro j h1 h2
      omega
    | some s =>
      have hrest : ∃ c ∈ cs, c.isSome = false := by
        obtain ⟨c, hc, hn⟩ := h
        rcases List.mem_cons.mp hc with rfl | hc'
        · simp at hn
        · exact ⟨c, hc', hn⟩
      obtain ⟨i, h1, h2, h3, h4, h5⟩ := ih (k + 1) (by omega) hrest
      refine ⟨i, by simpa [first_free_slot, hk'] using h1, by omega,
        by simp only [List.length_cons]; omega, ?_, ?_⟩
      · rw [cons_index_shift _ _ i k h2]
        exact h4
      · intro j hj1 hj2
        by_cases hjk : j = k
        · subst hjk
          exact ⟨s, by simp⟩
        · rw [cons_index_shift _ _ j k (by omega)]
          exact h5 j (by omega) hj2

/-- C18, amended. Registry capacity. On the table of `MAX_CLIENTS` (1024) slots: whenever fewer
than 1024 sessions are registered and `calloc` returns memory for the new session,
`session_add_client` succeeds; the new session has the given descriptor, `user_id` 0,
`current_room_id` -1 and state `STATE_DISCONNECTED`; it is stored in the lowest free slot, every
other slot is unchanged and `client_count` grows by one. When 1024 sessions are registered, or
when `calloc` returns `NULL`, it returns `NULL` and leaves the table and `client_count`
unchanged. -/
theorem C18_registry_capacity (g : SessionManager) (calloc_ok : Bool) (now_s : Nat)
    (sockfd : Int) (hlen : g.clients.length = MAX_CLIENTS) :
    ((g.clients.filter (fun c => c.isSome)).length < MAX_CLIENTS → calloc_ok = true →
        ∃ i, i < MAX_CLIENTS ∧ g.clients[i]? = some none ∧
          (∀ j, j < i → ∃ s, g.clients[j]? = some (some s)) ∧
          session_add_client g calloc_ok now_s sockfd
            = (some i,
                { clients := g.clients.set i
                    (some { sockfd := sockfd, user_id := 0, username := [], session_token := [],
                            current_room_id := -1, state := ClientState.STATE_DISCONNECTED,
                            last_heartbeat := now_s })
                  client_count := g.client_count + 1 }) ∧
          (session_add_client g calloc_ok now_s sockfd).2.session i
            = some { sockfd := sockfd, user_id := 0, username := [], session_token := [],
                     current_room_id := -1, state := ClientState.STATE_DISCONNECTED,
                     last_heartbeat := now_s } ∧
          ∀ j, j ≠ i →
            (session_add_client g calloc_ok now_s sockfd).2.clients[j]? = g.clients[j]?) ∧
      ((g.clients.filter (fun c => c.isSome)).length = MAX_CLIENTS →
        session_add_client g calloc_ok now_s sockfd = (none, g)) ∧
      (calloc_ok = false → session_add_client g calloc_ok now_s sockfd = (none, g)) := by
  refine ⟨?_, ?_, ?_⟩
  · intro hfew hok
    subst hok
    rw [← hlen] at hfew
    obtain ⟨c, hc, hn⟩ := List.length_filter_lt_length_iff_exists.mp hfew
    have hn' : c.isSome = false := by simpa using hn
    obtain ⟨i, h1, _, h3, h4, h5⟩ := first_free_slot_lowest g.clients 0 (by omega) ⟨c, hc, hn'⟩
    simp only [Nat.sub_zero, zero_add] at h3 h4 h5
    have hadd : session_add_client g true now_s sockfd
        = (some i,
            { clients := g.clients.set i
                (some { sockfd := sockfd, user_id := 0, username := [], session_token := [],
                        current_room_id := -1, state := ClientState.STATE_DISCONNECTED,
                        last_heartbeat := now_s })
              client_count := g.client_count + 1 }) := by
      simp [session_add_client, h1]
    refine ⟨i, by omega, h4, fun j hj => h5 j (Nat.zero_le _) hj, hadd, ?_, ?_⟩
    · rw [hadd]
      simp [SessionManager.session, List.getElem?_set_self h3]
    · intro j hj
      rw [hadd]
      exact List.getElem?_set_ne (fun h => hj h.symm)
  · intro hfull
    rw [← hlen] at hfull
    have hall := List.filter_length_eq_length.mp hfull
    cases calloc_ok with
    | false => rfl
    | true => simp [session_add_client, first_free_slot_full g.clients 0 hall]
  · intro hno
    subst hno
    rfl

theorem empty_table_length : empty_table.clients.length = MAX_CLIENTS :=
  List.length_replicate _ _

theorem empty_table_few :
    (empty_table.clients.filter (fun c => c.isSome)).length < MAX_CLIENTS := by
  have h : empty_table.clients.filter (fun c => c.isSome) = [] := by
    apply List.filter_eq_nil_iff.mpr
    intro c hc
    have := List.eq_of_mem_replicate hc
    simp [this]
  rw [h]
  decide

theorem full_table_length :
    (List.replicate MAX_CLIENTS (some demo_session)).length = MAX_CLIENTS :=
  List.length_replicate _ _

theorem full_table_full :
    ((List.replicate MAX_CLIENTS (some demo_session)).filter (fun c => c.isSome)).length
      = MAX_CLIENTS := by
  have h : (List.replicate MAX_CLIENTS (some demo_session)).filter (fun c => c.isSome)
      = List.replicate MAX_CLIENTS (some demo_session) := by
    apply List.filter_eq_self.mpr
    intro c hc
    have := List.eq_of_mem_replicate hc
    simp [this]
  rw [h]
  exact List.length_replicate _ _

/-- C18 as stated fails: the empty table has fewer than 1024 sessions registered, yet when
`calloc` returns `NULL` `session_add_client` returns `NULL` and registers nothing. -/
theorem C18_registry_capacity_counterexample :
    empty_table.clients.length = MAX_CLIENTS ∧
      (empty_table.clients.filter (fun c => c.isSome)).length < MAX_CLIENTS ∧
      session_add_client empty_table false 0 4 = (none, empty_table) :=
  ⟨empty_table_length, empty_table_few, rfl⟩

/-- Witness for the amended C18: with memory available the empty table accepts a session in
slot 0; a table of 1024 copies of `demo_session` accepts none; without memory the empty table
accepts none. -/
theorem C18_registry_capacity_witness :
    (empty_table.clients.length = MAX_CLIENTS ∧
        (empty_table.clients.filter (fun c => c.isSome)).length < MAX_CLIENTS ∧
        ∃ i, i < MAX_CLIENTS ∧ empty_table.clients[i]? = some none ∧
          (session_add_client empty_table true 0 4).2.session i
            = some { sockfd := 4, user_id := 0, username := [], session_token := [],
                     current_room_id := -1, state := ClientState.STATE_DISCONNECTED,
                     last_heartbeat := 0 }) ∧
      session_add_client
          { clients := List.replicate MAX_CLIENTS (some demo_session), client_count := 1024 }
          true 0 4
        = (none, { clients := List.replicate MAX_CLIENTS (some demo_session),
                   client_count := 1024 }) ∧
      session_add_client empty_table false 0 4 = (none, empty_table) :=
  ⟨⟨empty_table_length, empty_table_few, by
      obtain ⟨i, h1, h2, _, _, h5, _⟩ :=
        (C18_registry_capacity empty_table true 0 4 empty_table_length).1 empty_table_few rfl
      exact ⟨i, h1, h2, h5⟩⟩,
    (C18_registry_capacity
      { clients := List.replicate MAX_CLIENTS (some demo_session), client_count := 1024 } true 0 4
      full_table_length).2.1 full_table_full,
    (C18_registry_capacity empty_table false 0 4 empty_table_length).2.2 rfl⟩

/-! ## Request ids in the client -/

theorem modifyFirst_map_request_id (p : PendingMessage → Bool) (l : List PendingMessage) :
    (modifyFirst p (fun m => { m with is_active := false }) l).map (fun m => m.request_id)
      = l.map (fun m => m.request_id) := by
  induction l with
  | nil => rfl
  | cons x xs ih =>
    by_cases hp : p x = true
    · simp [modifyFirst, hp]
    · simp [modifyFirst, hp, ih]

theorem drop_modifyAt {α : Type} (f : α → α) (l : List α) (i : Nat) :
    (modifyAt f l i).drop (i + 1) = l.drop (i + 1) := by
  induction l generalizing i with
  | nil => simp [modifyAt]
  | cons x xs ih => cases i <;> simp [modifyAt, ih]

theorem mem_drop_succ {α : Type} (l : List α) (k : Nat) (x : α) (h : x ∈ l.drop (k + 1)) :
    x ∈ l.drop k := by
  have h1 : l.drop (k + 1) = (l.drop k).drop 1 := by rw [List.drop_drop, Nat.add_comm]
  rw [h1] at h
  exact List.mem_of_mem_drop h

/-- What `pending_queue_ack` leaves as it was: the count, the size of the array, the request ids
of the visible entries and the entries from `count` on. -/
theorem pending_queue_ack_frame (q : PendingQueue) (r : Nat) :
    (pending_queue_ack q r).count = q.count ∧
      (pending_queue_ack q r).messages.length = q.messages.length ∧
      (pending_queue_ack q r).visible.map (fun m => m.request_id)
        = q.visible.map (fun m => m.request_id) ∧
      (pending_queue_ack q r).messages.drop q.count = q.messages.drop q.count := by
  have hlen : (modifyFirst (is_pending r) (fun m => { m with is_active := false }) q.visible).length
      = q.visible.length := modifyFirst_length _ _ _
  obtain ⟨hv, hd⟩ := visible_replace q _ hlen
  rw [pending_queue_ack_eq]
  refine ⟨rfl, ?_, ?_, hd⟩
  · simp only [List.length_append, hlen]
    rw [← List.length_append]
    unfold PendingQueue.visible
    rw [List.take_append_drop]
  · rw [hv, modifyFirst_map_request_id]

theorem receive_message_queue (e : Endian) (now_s : Nat) (r : Recv) (q : PendingQueue) :
    (receive_message e now_s r q).2.2 = q ∨
      ∃ id, (receive_message e now_s r q).2.2 = pending_queue_ack q id := by
  unfold receive_message
  by_cases h1 : r.n < 0
  · left; simp [h1]
  · by_cases h2 : r.n = 0
    · left; simp [h2]
    · by_cases h3 : is_flag_set (memHeader e r.data).flags FLAG_IS_ACK = true
      · right
        exact ⟨(memHeader e r.data).request_id, by simp [h1, h2, h3]⟩
      · left; simp [h1, h2, h3]

theorem client_inv_init : ClientInv 0 client_init := by
  refine ⟨rfl, List.length_replicate _ _, by decide, ?_, ?_⟩
  · simp [client_init, PendingQueue.visible]
  · intro m hm
    have hm' : m ∈ List.replicate MAX_PENDING_MESSAGES PendingMessage.zero :=
      List.mem_of_mem_drop hm
    rw [List.eq_of_mem_replicate hm']
    rfl

/-- A send that adds nothing to the queue keeps the invariant, with one more id handed out. -/
theorem client_inv_counter (n : Nat) (st : ClientGlobals) (h : ClientInv n st) :
    ClientInv (n + 1)
      { request_id := (st.request_id + 1) % 2 ^ 32, pending_queue := st.pending_queue } := by
  obtain ⟨h1, h2, h3, h4, h5⟩ := h
  refine ⟨?_, h2, h3, ?_, h5⟩
  · show (st.request_id + 1) % 2 ^ 32 = (1 + (n + 1)) % 2 ^ 32
    rw [h1]
    omega
  · rw [List.range_succ, List.map_append]
    exact List.Sublist.trans h4 (List.sublist_append_left _ _)

theorem client_inv_send (e : Endian) (n : Nat) (st : ClientGlobals) (h : ClientInv n st)
    (now_s type : Nat) (payload : Option (List Nat)) (payload_len : Nat) :
    ClientInv (n + 1) (client_step e st (ClientOp.send now_s type payload payload_len)) :=
  client_inv_counter n st h

theorem client_inv_send_reliable (e : Endian) (n : Nat) (st : ClientGlobals) (h : ClientInv n st)
    (now_s add_now_s : Nat) (send_n : Int) (type : Nat) (payload : Option (List Nat))
    (payload_len flags : Nat) :
    ClientInv (n + 1)
      (client_step e st
        (ClientOp.send_reliable now_s add_now_s send_n type payload payload_len flags)) := by
  have hc := client_inv_counter n st h
  obtain ⟨h1, h2, h3, h4, h5⟩ := h
  simp only [client_step, send_message_reliable]
  by_cases hn : send_n < 0
  · rw [if_pos hn]; exact hc
  · rw [if_neg hn]
    by_cases hack : is_flag_set (flags % 2 ^ 16) FLAG_REQUIRES_ACK = true
    · rw [if_pos hack]
      by_cases hfull : st.pending_queue.count ≥ MAX_PENDING_MESSAGES
      · have hsame : ∀ a b c d f, (pending_queue_add st.pending_queue a b c d f).2
            = st.pending_queue := by
          intro a b c d f
          simp [pending_queue_add, hfull]
        simp only [hsame]
        exact hc
      · have hroom : st.pending_queue.count < MAX_PENDING_MESSAGES := not_le.mp hfull
        have hlt : st.pending_queue.count < st.pending_queue.messages.length := by
          rw [h2]; exact hroom
        obtain ⟨old, hold⟩ : ∃ old, st.pending_queue.messages[st.pending_queue.count]? = some old :=
          ⟨_, List.getElem?_eq_getElem hlt⟩
        obtain ⟨m, hvis, _, hcnt, _, hid, _, _, _, _, _, _⟩ :=
          pending_queue_add_visible st.pending_queue add_now_s (st.request_id % 2 ^ 32) type
            (some ((headerBytes e
                { version := 1, type := type % 2 ^ 8, flags := flags % 2 ^ 16,
                  request_id := st.request_id % 2 ^ 32, timestamp := now_s % 2 ^ 64,
                  payload_length := payload_len % 2 ^ 16 }
              ++ copied_payload payload (payload_len % 2 ^ 16)).take BUFF_SIZE))
            (HEADER_SIZE + payload_len % 2 ^ 16) old hroom hold
        refine ⟨hc.1, ?_, ?_, ?_, ?_⟩
        · simp only [pending_queue_add, if_neg hfull]
          rw [modifyAt_length]
          exact h2
        · show (pending_queue_add st.pending_queue _ _ _ _ _).2.count ≤ MAX_PENDING_MESSAGES
          rw [hcnt]
          exact hroom
        · show List.Sublist ((pending_queue_add st.pending_queue _ _ _ _ _).2.visible.map _) _
          rw [hvis, List.map_append, List.range_succ, List.map_append]
          apply List.Sublist.append h4
          have : m.request_id = (1 + n) % 2 ^ 32 := by
            rw [hid, h1]
            omega
          simp [this]
        · intro x hx
          have hx' : x ∈ (pending_queue_add st.pending_queue add_now_s (st.request_id % 2 ^ 32) type
              (some ((headerBytes e
                { version := 1, type := type % 2 ^ 8, flags := flags % 2 ^ 16,
                  request_id := st.request_id % 2 ^ 32, timestamp := now_s % 2 ^ 64,
                  payload_length := payload_len % 2 ^ 16 }
                ++ copied_payload payload (payload_len % 2 ^ 16)).take BUFF_SIZE))
              (HEADER_SIZE + payload_len % 2 ^ 16)).2.messages.drop (st.pending_queue.count + 1) := by
            have hc2 := hcnt
            simp only [] at hx
            rw [← hcnt]
            exact hx
          simp only [pending_queue_add, if_neg hfull] at hx'
          rw [drop_modifyAt] at hx'
          exact h5 x (mem_drop_succ _ _ _ hx')
    · rw [if_neg hack]; exact hc

theorem client_inv_receive (e : Endian) (n : Nat) (st : ClientGlobals) (h : ClientInv n st)
    (now_s : Nat) (r : Recv) :
    ClientInv n (client_step e st (ClientOp.receive now_s r)) := by
  obtain ⟨h1, h2, h3, h4, h5⟩ := h
  simp only [client_step]
  rcases receive_message_queue e now_s r st.pending_queue with hq | ⟨id, hq⟩
  · rw [hq]; exact ⟨h1, h2, h3, h4, h5⟩
  · rw [hq]
    obtain ⟨a1, a2, a3, a4⟩ := pending_queue_ack_frame st.pending_queue id
    refine ⟨h1, by rw [a2]; exact h2, by rw [a1]; exact h3, ?_, ?_⟩
    · show List.Sublist ((pending_queue_ack st.pending_queue id).visible.map _) _
      rw [a3]; exact h4
    · show ∀ m ∈ (pending_queue_ack st.pending_queue id).messages.drop
          (pending_queue_ack st.pending_queue id).count, m.is_active = false
      rw [a1, a4]; exact h5

theorem client_inv_run (e : Endian) (ops : List ClientOp) :
    ∀ (n : Nat) (st : ClientGlobals), ClientInv n st →
      ClientInv (n + ops.countP ClientOp.is_send) (run_client e st ops) := by
  induction ops with
  | nil => intro n st h; exact h
  | cons op ops ih =>
    intro n st h
    simp only [run_client, List.foldl_cons]
    cases op with
    | send now_s type payload payload_len =>
      have := ih (n + 1) _ (client_inv_send e n st h now_s type payload payload_len)
      simp only [run_client] at this
      rw [List.countP_cons_of_pos _ _ (by rfl)]
      have hn : n + (List.countP ClientOp.is_send ops + 1)
          = n + 1 + List.countP ClientOp.is_send ops := by omega
      rw [hn]; exact this
    | send_reliable now_s add_now_s send_n type payload payload_len flags =>
      have := ih (n + 1) _ (client_inv_send_reliable e n st h now_s add_now_s send_n type payload
        payload_len flags)
      simp only [run_client] at this
      rw [List.countP_cons_of_pos _ _ (by rfl)]
      have hn : n + (List.countP ClientOp.is_send ops + 1)
          = n + 1 + List.countP ClientOp.is_send ops := by omega
      rw [hn]; exact this
    | receive now_s r =>
      have := ih n _ (client_inv_receive e n st h now_s r)
      simp only [run_client] at this
      rw [List.countP_cons_of_neg _ _ (by simp [ClientOp.is_send])]
      exact this

/-- While the counter has not handed out more than `2^32` ids, no two active entries of the
pending queue carry the same one. -/
theorem client_inv_distinct (n : Nat) (st : ClientGlobals) (h : ClientInv n st)
    (hn : n ≤ 2 ^ 32) :
    ((st.pending_queue.messages.filter (fun m => m.is_active)).map
      (fun m => m.request_id)).Nodup := by
  obtain ⟨_, _, _, h4, h5⟩ := h
  have hsplit : st.pending_queue.messages
      = st.pending_queue.visible ++ st.pending_queue.messages.drop st.pending_queue.count := by
    unfold PendingQueue.visible
    rw [List.take_append_drop]
  have hnone : (st.pending_queue.messages.drop st.pending_queue.count).filter
      (fun m => m.is_active) = [] := by
    apply List.filter_eq_nil_iff.mpr
    intro m hm
    simp [h5 m hm]
  rw [hsplit, List.filter_append, hnone, List.append_nil]
  have hsub : List.Sublist
      ((st.pending_queue.visible.filter (fun m => m.is_active)).map (fun m => m.request_id))
      ((List.range n).map (fun k => (1 + k) % 2 ^ 32)) :=
    List.Sublist.trans (List.Sublist.map _ (List.filter_sublist _)) h4
  apply List.Nodup.sublist hsub
  apply List.Nodup.map_on _ (List.nodup_range n)
  intro x hx y hy hxy
  have hx' : x < n := List.mem_range.mp hx
  have hy' : y < n := List.mem_range.mp hy
  simp only [] at hxy
  omega

/-- A run of `n` plain sends advances the counter by `n` modulo `2^32` and leaves the queue. -/
theorem run_client_sends (e : Endian) (a b : Nat) (c : Option (List Nat)) (d : Nat) :
    ∀ (n : Nat) (st : ClientGlobals), st.request_id < 2 ^ 32 →
      run_client e st (List.replicate n (ClientOp.send a b c d))
        = { request_id := (st.request_id + n) % 2 ^ 32, pending_queue := st.pending_queue } := by
  intro n
  induction n with
  | zero =>
    intro st h
    cases st with
    | mk r q =>
      simp only [List.replicate, run_client, List.foldl_nil, Nat.add_zero]
      have h' : r < 2 ^ 32 := h
      rw [Nat.mod_eq_of_lt h']
  | succ n ih =>
    intro st h
    have hstep : run_client e st (List.replicate (n + 1) (ClientOp.send a b c d))
        = run_client e (client_step e st (ClientOp.send a b c d))
            (List.replicate n (ClientOp.send a b c d)) := rfl
    rw [hstep, ih _ (Nat.mod_lt _ (by decide))]
    simp only [client_step, send_message]
    congr 1
    omega

theorem run_client_cons (e : Endian) (st : ClientGlobals) (op : ClientOp) (ops : List ClientOp) :
    run_client e st (op :: ops) = run_client e (client_step e st op) ops := rfl

theorem run_client_append (e : Endian) (st : ClientGlobals) (ops1 ops2 : List ClientOp) :
    run_client e st (ops1 ++ ops2) = run_client e (run_client e st ops1) ops2 := by
  simp [run_client, List.foldl_append]

/-- C19 as stated fails: after `wrap_ops` (a reliable send, `2^32 - 1` plain sends, a reliable send)
the pending queue holds two active entries that both carry request id 1. -/
theorem C19_request_id_reuse_counterexample :
    (run_client Endian.little client_init wrap_ops).pending_queue.visible.map
        (fun m => (m.request_id, m.is_active)) = [(1, true), (1, true)] := by
  unfold wrap_ops
  rw [run_client_cons, run_client_append, run_client_cons,
    run_client_sends Endian.little 5 25 none 0 (2 ^ 32 - 1) _ (by decide)]
  have hc : (client_step Endian.little client_init
      (ClientOp.send_reliable 5 6 20 33 none 0 FLAG_REQUIRES_ACK)).request_id = 2 := by decide
  have hm : (2 + (2 ^ 32 - 1)) % 2 ^ 32 = 1 := by norm_num
  rw [hc, hm]
  decide

/-- C19, amended. In the client, started with the counter at 1 and the pending queue empty, after
every finite sequence of `send_message`, `send_message_reliable` and `receive_message` calls that
contains at most `2^32` sends (so that the 32-bit counter has not come back to an id it handed
out), no two active entries of the pending queue carry the same request id. -/
theorem C19_request_ids_distinct (e : Endian) (ops : List ClientOp)
    (h : ops.countP ClientOp.is_send ≤ 2 ^ 32) :
    (((run_client e client_init ops).pending_queue.messages.filter (fun m => m.is_active)).map
      (fun m => m.request_id)).Nodup := by
  have hinv := client_inv_run e ops 0 client_init client_inv_init
  rw [Nat.zero_add] at hinv
  exact client_inv_distinct _ _ hinv h

/-- Witness for the amended C19: two reliable sends around a plain send and a received frame. -/
theorem C19_request_ids_distinct_witness :
    ([ClientOp.send_reliable 5 6 20 33 none 0 FLAG_REQUIRES_ACK, ClientOp.send 5 25 none 0,
        ClientOp.receive 7 { n := 0, data := [] },
        ClientOp.send_reliable 5 6 20 33 none 0 FLAG_REQUIRES_ACK].countP ClientOp.is_send
        ≤ 2 ^ 32) ∧
      (((run_client Endian.little client_init
          [ClientOp.send_reliable 5 6 20 33 none 0 FLAG_REQUIRES_ACK, ClientOp.send 5 25 none 0,
            ClientOp.receive 7 { n := 0, data := [] },
            ClientOp.send_reliable 5 6 20 33 none 0 FLAG_REQUIRES_ACK]).pending_queue.messages.filter
          (fun m => m.is_active)).map (fun m => m.request_id)).Nodup :=
  ⟨by decide,
    C19_request_ids_distinct Endian.little
      [ClientOp.send_reliable 5 6 20 33 none 0 FLAG_REQUIRES_ACK, ClientOp.send 5 25 none 0,
        ClientOp.receive 7 { n := 0, data := [] },
        ClientOp.send_reliable 5 6 20 33 none 0 FLAG_REQUIRES_ACK] (by decide)⟩

/-! ## Flags -/

theorem is_flag_set_two_pow (x i : Nat) : is_flag_set x (2 ^ i) = x.testBit i := by
  unfold is_flag_set
  cases h : x.testBit i
  · have h0 : x &&& 2 ^ i = 0 := by
      apply Nat.eq_of_testBit_eq
      intro k
      rw [Nat.testBit_and, Nat.testBit_two_pow, Nat.zero_testBit]
      by_cases hik : i = k
      · subst hik
        rw [h]
        rfl
      · simp [hik]
    rw [h0]
    rfl
  · have h1 : (x &&& 2 ^ i).testBit i = true := by
      rw [Nat.testBit_and, Nat.testBit_two_pow, h]
      simp
    have h2 : x &&& 2 ^ i ≠ 0 := by
      intro h0
      rw [h0, Nat.zero_testBit] at h1
      exact Bool.noConfusion h1
    simpa using h2

theorem set_flag_testBit (f a j : Nat) :
    (set_flag f a).testBit j = (decide (j < 16) && (f.testBit j || a.testBit j)) := by
  unfold set_flag
  rw [Nat.testBit_mod_two_pow, Nat.testBit_or]

theorem clear_flag_testBit (f a j : Nat) :
    (clear_flag f a).testBit j =
      (decide (j < 16) && (f.testBit j && (2 ^ 16 - 1 - a % 2 ^ 16).testBit j)) := by
  unfold clear_flag
  rw [Nat.testBit_mod_two_pow, Nat.testBit_and]

theorem mask_testBit (i j : Nat) (hi : i < 16) (hj : j < 16) :
    (2 ^ 16 - 1 - 2 ^ i % 2 ^ 16).testBit j = !decide (i = j) := by
  have hlt : 2 ^ i < 2 ^ 16 := Nat.pow_lt_pow_right (by decide) hi
  have hsub : 2 ^ 16 - 1 - 2 ^ i % 2 ^ 16 = 2 ^ 16 - (2 ^ i + 1) := by
    rw [Nat.mod_eq_of_lt hlt]
    omega
  rw [hsub, Nat.testBit_two_pow_sub_succ hlt, Nat.testBit_two_pow]
  simp [hj]

theorem set_flag_idem (f a : Nat) : set_flag (set_flag f a) a = set_flag f a := by
  apply Nat.eq_of_testBit_eq
  intro j
  rw [set_flag_testBit, set_flag_testBit]
  cases decide (j < 16) <;> cases f.testBit j <;> cases a.testBit j <;> rfl

theorem clear_flag_idem (f a : Nat) : clear_flag (clear_flag f a) a = clear_flag f a := by
  apply Nat.eq_of_testBit_eq
  intro j
  rw [clear_flag_testBit, clear_flag_testBit]
  cases decide (j < 16) <;> cases f.testBit j <;>
    cases (2 ^ 16 - 1 - a % 2 ^ 16).testBit j <;> rfl

theorem flags_eq_pow : FLAGS = (List.range 8).map (fun i => 2 ^ i) := by decide

theorem mem_flags (a : Nat) (ha : a ∈ FLAGS) : ∃ i, i < 8 ∧ a = 2 ^ i := by
  rw [flags_eq_pow, List.mem_map] at ha
  obtain ⟨i, hi, rfl⟩ := ha
  exact ⟨i, List.mem_range.mp hi, rfl⟩

/-- C21. The eight `FLAG_*` constants are the single bits 2^0 .. 2^7, pairwise distinct. For
every flags value `f` and every constant `a`: `is_flag_set` is true of `a` after
`set_flag f a` and false of `a` after `clear_flag f a`, both are idempotent, and for every
other constant `b` the result of `is_flag_set` on `b` is the same before and after setting or
clearing `a`. -/
theorem C21_flags_are_independent_bits :
    FLAGS = (List.range 8).map (fun i => 2 ^ i) ∧ FLAGS.Nodup ∧ FLAGS.length = 8 ∧
    ∀ f a : Nat, a ∈ FLAGS →
      is_flag_set (set_flag f a) a = true ∧
      is_flag_set (clear_flag f a) a = false ∧
      set_flag (set_flag f a) a = set_flag f a ∧
      clear_flag (clear_flag f a) a = clear_flag f a ∧
      ∀ b : Nat, b ∈ FLAGS → a ≠ b →
        is_flag_set (set_flag f a) b = is_flag_set f b ∧
        is_flag_set (clear_flag f a) b = is_flag_set f b := by
  refine ⟨flags_eq_pow, by decide, rfl, ?_⟩
  intro f a ha
  obtain ⟨i, hi, rfl⟩ := mem_flags a ha
  have hi16 : i < 16 := by omega
  refine ⟨?_, ?_, set_flag_idem f _, clear_flag_idem f _, ?_⟩
  · rw [is_flag_set_two_pow, set_flag_testBit, Nat.testBit_two_pow]
    simp [hi16]
  · rw [is_flag_set_two_pow, clear_flag_testBit, mask_testBit i i hi16 hi16]
    simp
  · intro b hb hab
    obtain ⟨j, hj, rfl⟩ := mem_flags b hb
    have hj16 : j < 16 := by omega
    have hij : i ≠ j := fun h => hab (by rw [h])
    refine ⟨?_, ?_⟩
    · rw [is_flag_set_two_pow, is_flag_set_two_pow, set_flag_testBit, Nat.testBit_two_pow]
      simp [hj16, hij]
    · rw [is_flag_set_two_pow, is_flag_set_two_pow, clear_flag_testBit,
        mask_testBit i j hi16 hj16]
      simp [hj16, hij]

theorem C21_flags_are_independent_bits_witness :
    is_flag_set (set_flag 0x0005 FLAG_IS_ACK) FLAG_IS_ACK = true ∧
    is_flag_set (clear_flag 0x0007 FLAG_IS_ACK) FLAG_IS_ACK = false ∧
    is_flag_set (set_flag 0x0005 FLAG_IS_ACK) FLAG_RETRANSMISSION
      = is_flag_set 0x0005 FLAG_RETRANSMISSION ∧
    is_flag_set (clear_flag 0x0007 FLAG_IS_ACK) FLAG_BROADCAST
      = is_flag_set 0x0007 FLAG_BROADCAST :=
  ⟨(C21_flags_are_independent_bits.2.2.2 0x0005 FLAG_IS_ACK (by decide)).1,
    (C21_flags_are_independent_bits.2.2.2 0x0007 FLAG_IS_ACK (by decide)).2.1,
    ((C21_flags_are_independent_bits.2.2.2 0x0005 FLAG_IS_ACK (by decide)).2.2.2.2
      FLAG_RETRANSMISSION (by decide) (by decide)).1,
    ((C21_flags_are_independent_bits.2.2.2 0x0007 FLAG_IS_ACK (by decide)).2.2.2.2
      FLAG_BROADCAST (by decide) (by decide)).2⟩

/-! ## Broadcast fan-out -/

/-- Membership in a fan-out over the slots from index `k` on. -/
theorem fanout_mem {β : Type} (P : Nat → ClientSession → Prop) [∀ i s, Decidable (P i s)]
    (send : ClientSession → β) (l : List (Option ClientSession)) (k i : Nat) (out : β) :
    (i, out) ∈ (List.enumFrom k l).filterMap (fun p =>
        match p.2 with
        | some s => if P p.1 s then some (p.1, send s) else none
        | none => none) ↔
      k ≤ i ∧ ∃ s, l[i - k]? = some (some s) ∧ P i s ∧ out = send s := by
  rw [List.mem_filterMap]
  constructor
  · rintro ⟨⟨j, c⟩, hmem, hf⟩
    rw [List.mk_mem_enumFrom_iff_le_and_getElem?_sub] at hmem
    cases c with
    | none => exact Option.noConfusion hf
    | some s =>
      by_cases hp : P j s
      · simp only [if_pos hp, Option.some.injEq, Prod.mk.injEq] at hf
        obtain ⟨rfl, rfl⟩ := hf
        exact ⟨hmem.1, s, hmem.2, hp, rfl⟩
      · simp only [if_neg hp] at hf
        exact Option.noConfusion hf
  · rintro ⟨hk, s, hs, hp, rfl⟩
    refine ⟨(i, some s), ?_, ?_⟩
    · rw [List.mk_mem_enumFrom_iff_le_and_getElem?_sub]
      exact ⟨hk, hs⟩
    · simp only [if_pos hp]

/-- The slots of a fan-out are strictly increasing: each slot occurs at most once, in slot
order. -/
theorem fanout_sorted {β : Type} (P : Nat → ClientSession → Prop) [∀ i s, Decidable (P i s)]
    (send : ClientSession → β) (l : List (Option ClientSession)) :
    ∀ k : Nat, (((List.enumFrom k l).filterMap (fun p =>
        match p.2 with
        | some s => if P p.1 s then some (p.1, send s) else none
        | none => none)).map Prod.fst).Pairwise (fun a b => a < b) := by
  induction l with
  | nil => intro k; exact List.Pairwise.nil
  | cons c cs ih =>
    intro k
    have hlow : ∀ a ∈ ((List.enumFrom (k + 1) cs).filterMap (fun p =>
        match p.2 with
        | some s => if P p.1 s then some (p.1, send s) else none
        | none => none)).map Prod.fst, k < a := by
      intro a ha
      obtain ⟨⟨i, out⟩, hmem, rfl⟩ := List.mem_map.mp ha
      have := ((fanout_mem P send cs (k + 1) i out).mp hmem).1
      exact this
    rw [List.enumFrom_cons]
    cases c with
    | none =>
      rw [List.filterMap_cons_none rfl]
      exact ih (k + 1)
    | some s =>
      by_cases hp : P k s
      · rw [List.filterMap_cons_some (b := (k, send s)) (by simp only [if_pos hp]), List.map_cons,
          List.pairwise_cons]
        exact ⟨hlow, ih (k + 1)⟩
      · rw [List.filterMap_cons_none (by simp only [if_neg hp])]
        exact ih (k + 1)

/-- The slots of a fan-out do not depend on what is sent. -/
theorem fanout_slots {β γ : Type} (P : Nat → ClientSession → Prop) [∀ i s, Decidable (P i s)]
    (send : ClientSession → β) (send2 : ClientSession → γ) (l : List (Option ClientSession)) :
    ∀ k : Nat, ((List.enumFrom k l).filterMap (fun p =>
        match p.2 with
        | some s => if P p.1 s then some (p.1, send s) else none
        | none => none)).map Prod.fst =
      ((List.enumFrom k l).filterMap (fun p =>
        match p.2 with
        | some s => if P p.1 s then some (p.1, send2 s) else none
        | none => none)).map Prod.fst := by
  induction l with
  | nil => intro k; rfl
  | cons c cs ih =>
    intro k
    rw [List.enumFrom_cons]
    cases c with
    | none =>
      rw [List.filterMap_cons_none rfl, List.filterMap_cons_none rfl]
      exact ih (k + 1)
    | some s =>
      by_cases hp : P k s
      · rw [List.filterMap_cons_some (b := (k, send s)) (by simp only [if_pos hp]),
          List.filterMap_cons_some (b := (k, send2 s)) (by simp only [if_pos hp]),
          List.map_cons, List.map_cons,
          ih (k + 1)]
      · rw [List.filterMap_cons_none (by simp only [if_neg hp]),
          List.filterMap_cons_none (by simp only [if_neg hp])]
        exact ih (k + 1)

/-- A fan-out guarded by the bound on the slot index makes no call from that bound on. -/
theorem fanout_beyond {β : Type} (P : Nat → ClientSession → Prop) [∀ i s, Decidable (P i s)]
    (send : ClientSession → β) (l : List (Option ClientSession)) (k : Nat)
    (hP : ∀ i s, P i s → i < MAX_CLIENTS) (hk : ¬ k < MAX_CLIENTS) :
    (List.enumFrom k l).filterMap (fun p =>
        match p.2 with
        | some s => if P p.1 s then some (p.1, send s) else none
        | none => none) = [] := by
  rw [List.filterMap_eq_nil_iff]
  rintro ⟨i, c⟩ hmem
  have hi : k ≤ i := List.le_fst_of_mem_enumFrom hmem
  cases c with
  | none => rfl
  | some s =>
    have hp : ¬ P i s := fun h => hk (lt_of_le_of_lt hi (hP i s h))
    simp only [if_neg hp]

/-- The loop of `session_broadcast_room` is the fan-out of the specification. -/
theorem session_broadcast_room_from_eq (e : Endian) (r : Int) (msg : Option Message)
    (exclude : Option Nat) (l : List (Option ClientSession)) :
    ∀ k : Nat, session_broadcast_room_from e r msg exclude l k =
      (List.enumFrom k l).filterMap (fun p =>
        match p.2 with
        | some s =>
          if p.1 < MAX_CLIENTS ∧ s.current_room_id = r ∧ some p.1 ≠ exclude then
            some (p.1, send_to_client e (some s) msg)
          else none
        | none => none) := by
  induction l with
  | nil => intro k; rfl
  | cons c cs ih =>
    intro k
    by_cases hk : k < MAX_CLIENTS
    · rw [List.enumFrom_cons]
      cases c with
      | none =>
        rw [List.filterMap_cons_none rfl]
        simp only [session_broadcast_room_from, if_pos hk]
        exact ih (k + 1)
      | some s =>
        by_cases hc : s.current_room_id = r ∧ some k ≠ exclude
        · have hc2 : k < MAX_CLIENTS ∧ s.current_room_id = r ∧ some k ≠ exclude := ⟨hk, hc⟩
          rw [List.filterMap_cons_some (b := (k, send_to_client e (some s) msg))
            (by simp only [if_pos hc2])]
          simp only [session_broadcast_room_from, if_pos hk, if_pos hc]
          rw [ih (k + 1)]
        · have hc2 : ¬ (k < MAX_CLIENTS ∧ s.current_room_id = r ∧ some k ≠ exclude) :=
            fun h => hc h.2
          rw [List.filterMap_cons_none (by simp only [if_neg hc2])]
          simp only [session_broadcast_room_from, if_pos hk, if_neg hc]
          exact ih (k + 1)
    · have h0 := fanout_beyond
        (fun i s => i < MAX_CLIENTS ∧ s.current_room_id = r ∧ some i ≠ exclude)
        (fun s => send_to_client e (some s) msg) (c :: cs) k (fun _ _ h => h.1) hk
      rw [h0]
      simp only [session_broadcast_room_from, if_neg hk]

/-- The loop of `session_broadcast_all` is the fan-out of the specification. -/
theorem session_broadcast_all_from_eq (e : Endian) (msg : Option Message)
    (exclude : Option Nat) (l : List (Option ClientSession)) :
    ∀ k : Nat, session_broadcast_all_from e msg exclude l k =
      (List.enumFrom k l).filterMap (fun p =>
        match p.2 with
        | some s =>
          if p.1 < MAX_CLIENTS ∧ some p.1 ≠ exclude then
            some (p.1, send_to_client e (some s) msg)
          else none
        | none => none) := by
  induction l with
  | nil => intro k; rfl
  | cons c cs ih =>
    intro k
    by_cases hk : k < MAX_CLIENTS
    · rw [List.enumFrom_cons]
      cases c with
      | none =>
        rw [List.filterMap_cons_none rfl]
        simp only [session_broadcast_all_from, if_pos hk]
        exact ih (k + 1)
      | some s =>
        by_cases hc : some k ≠ exclude
        · have hc2 : k < MAX_CLIENTS ∧ some k ≠ exclude := ⟨hk, hc⟩
          rw [List.filterMap_cons_some (b := (k, send_to_client e (some s) msg))
            (by simp only [if_pos hc2])]
          simp only [session_broadcast_all_from, if_pos hk, if_pos hc]
          rw [ih (k + 1)]
        · have hc2 : ¬ (k < MAX_CLIENTS ∧ some k ≠ exclude) := fun h => hc h.2
          rw [List.filterMap_cons_none (by simp only [if_neg hc2])]
          simp only [session_broadcast_all_from, if_pos hk, if_neg hc]
          exact ih (k + 1)
    · have h0 := fanout_beyond
        (fun i _ => i < MAX_CLIENTS ∧ some i ≠ exclude)
        (fun s => send_to_client e (some s) msg) (c :: cs) k (fun _ _ h => h.1) hk
      rw [h0]
      simp only [session_broadcast_all_from, if_neg hk]

/-- The calls of `session_broadcast_room` for a positive room id. -/
theorem session_broadcast_room_pos (e : Endian) (g : SessionManager) (room : Int)
    (msg : Option Message) (exclude : Option Nat) (h : 0 < room) :
    session_broadcast_room e g room msg exclude = room_fanout e room msg exclude g.clients := by
  unfold session_broadcast_room room_fanout
  rw [if_neg (not_le.mpr h)]
  exact session_broadcast_room_from_eq e room msg exclude g.clients 0

/-- C22. For a positive room id `session_broadcast_room` makes the calls the specification
words: one `send_to_client` for each slot below `MAX_CLIENTS` that holds a session whose
`current_room_id` is the room and that is not the excluded slot, and no other call; for a room
id that is not positive it makes none. The slots called are strictly increasing (each at most
once, in slot order) and are the same whatever is sent, also when no call writes anything. A
session whose `current_room_id` is -1 is never called. `session_broadcast_all` makes one call
for each slot that holds a session and is not the excluded one, in slot order. -/
theorem C22_broadcast_fan_out (e : Endian) (g : SessionManager) (room : Int)
    (msg : Option Message) (exclude : Option Nat) :
    (0 < room →
      session_broadcast_room e g room msg exclude
          = room_fanout e room msg exclude g.clients ∧
        ∀ (i : Nat) (out : Option (List Nat)),
          (i, out) ∈ session_broadcast_room e g room msg exclude ↔
            (i < MAX_CLIENTS ∧ some i ≠ exclude ∧
              ∃ s, g.clients[i]? = some (some s) ∧ s.current_room_id = room ∧
                out = send_to_client e (some s) msg)) ∧
    (room ≤ 0 → session_broadcast_room e g room msg exclude = []) ∧
    ((session_broadcast_room e g room msg exclude).map Prod.fst).Pairwise (fun a b => a < b) ∧
    (session_broadcast_room e g room msg exclude).map Prod.fst
      = (session_broadcast_room e g room none exclude).map Prod.fst ∧
    (∀ (i : Nat) (out : Option (List Nat)) (s : ClientSession),
      g.clients[i]? = some (some s) → s.current_room_id = -1 →
        (i, out) ∉ session_broadcast_room e g room msg exclude) ∧
    session_broadcast_all e g msg exclude = all_fanout e msg exclude g.clients ∧
    (∀ (i : Nat) (out : Option (List Nat)),
      (i, out) ∈ session_broadcast_all e g msg exclude ↔
        (i < MAX_CLIENTS ∧ some i ≠ exclude ∧
          ∃ s, g.clients[i]? = some (some s) ∧ out = send_to_client e (some s) msg)) ∧
    ((session_broadcast_all e g msg exclude).map Prod.fst).Pairwise (fun a b => a < b) := by
  have hmem : 0 < room → ∀ (i : Nat) (out : Option (List Nat)),
      (i, out) ∈ session_broadcast_room e g room msg exclude ↔
        (i < MAX_CLIENTS ∧ some i ≠ exclude ∧
          ∃ s, g.clients[i]? = some (some s) ∧ s.current_room_id = room ∧
            out = send_to_client e (some s) msg) := by
    intro h i out
    rw [session_broadcast_room_pos e g room msg exclude h]
    unfold room_fanout
    refine Iff.trans (fanout_mem
      (fun i s => i < MAX_CLIENTS ∧ s.current_room_id = room ∧ some i ≠ exclude)
      (fun s => send_to_client e (some s) msg) g.clients 0 i out) ?_
    constructor
    · rintro ⟨_, s, h1, ⟨h2, h3, h4⟩, h5⟩
      exact ⟨h2, h4, s, h1, h3, h5⟩
    · rintro ⟨h2, h4, s, h1, h3, h5⟩
      exact ⟨Nat.zero_le _, s, h1, ⟨h2, h3, h4⟩, h5⟩
  have hnone : room ≤ 0 → ∀ m : Option Message,
      session_broadcast_room e g room m exclude = [] := by
    intro h m
    unfold session_broadcast_room
    rw [if_pos h]
  have hall : session_broadcast_all e g msg exclude = all_fanout e msg exclude g.clients := by
    unfold session_broadcast_all all_fanout
    exact session_broadcast_all_from_eq e msg exclude g.clients 0
  refine ⟨fun h => ⟨session_broadcast_room_pos e g room msg exclude h, hmem h⟩,
    fun h => hnone h msg, ?_, ?_, ?_, hall, ?_, ?_⟩
  · by_cases h : room ≤ 0
    · rw [hnone h msg]
      exact List.Pairwise.nil
    · rw [session_broadcast_room_pos e g room msg exclude (not_le.mp h)]
      exact fanout_sorted
        (fun i s => i < MAX_CLIENTS ∧ s.current_room_id = room ∧ some i ≠ exclude)
        (fun s => send_to_client e (some s) msg) g.clients 0
  · by_cases h : room ≤ 0
    · rw [hnone h msg, hnone h none]
    · rw [session_broadcast_room_pos e g room msg exclude (not_le.mp h),
        session_broadcast_room_pos e g room none exclude (not_le.mp h)]
      exact fanout_slots
        (fun i s => i < MAX_CLIENTS ∧ s.current_room_id = room ∧ some i ≠ exclude)
        (fun s => send_to_client e (some s) msg) (fun s => send_to_client e (some s) none)
        g.clients 0
  · intro i out s hs hroom hin
    by_cases h : room ≤ 0
    · rw [hnone h msg] at hin
      exact List.not_mem_nil _ hin
    · obtain ⟨_, _, s2, hs2, hr2, _⟩ := (hmem (not_le.mp h) i out).mp hin
      rw [hs] at hs2
      have hs3 : s = s2 := Option.some.inj (Option.some.inj hs2)
      rw [← hs3, hroom] at hr2
      rw [← hr2] at h
      exact h (by decide)
  · intro i out
    rw [hall]
    unfold all_fanout
    refine Iff.trans (fanout_mem (fun i _ => i < MAX_CLIENTS ∧ some i ≠ exclude)
      (fun s => send_to_client e (some s) msg) g.clients 0 i out) ?_
    constructor
    · rintro ⟨_, s, h1, ⟨h2, h4⟩, h5⟩
      exact ⟨h2, h4, s, h1, h5⟩
    · rintro ⟨h2, h4, s, h1, h5⟩
      exact ⟨Nat.zero_le _, s, h1, ⟨h2, h4⟩, h5⟩
  · rw [hall]
    exact fanout_sorted (fun i _ => i < MAX_CLIENTS ∧ some i ≠ exclude)
      (fun s => send_to_client e (some s) msg) g.clients 0

theorem C22_broadcast_fan_out_witness :
    ((0 : Int) < 3 ∧
      session_broadcast_room Endian.little
          { clients := [some demo_session, some demo_session, none,
              some { demo_session with current_room_id := -1 }, some demo_session],
            client_count := 4 } 3 (some demo_message) (some 1)
        = room_fanout Endian.little 3 (some demo_message) (some 1)
            [some demo_session, some demo_session, none,
              some { demo_session with current_room_id := -1 }, some demo_session]) ∧
    (session_broadcast_room Endian.little
        { clients := [some demo_session, some demo_session, none,
            some { demo_session with current_room_id := -1 }, some demo_session],
          client_count := 4 } 3 (some demo_message) (some 1)).map Prod.fst = [0, 4] ∧
    ((-1 : Int) ≤ 0 ∧
      session_broadcast_room Endian.little
          { clients := [some demo_session, some demo_session, none,
              some { demo_session with current_room_id := -1 }, some demo_session],
            client_count := 4 } (-1) (some demo_message) none = []) :=
  ⟨⟨by decide, ((C22_broadcast_fan_out Endian.little _ 3 (some demo_message) (some 1)).1
      (by decide)).1⟩,
    by decide,
    ⟨by decide, (C22_broadcast_fan_out Endian.little _ (-1) (some demo_message) none).2.1
      (by decide)⟩⟩

/-! ## Pending slots are never reclaimed -/

/-- Replacing the visible entries by as many others keeps the count, the size of the array and
the entries from `count` on. -/
theorem replace_frame (q : PendingQueue) (a : List PendingMessage)
    (ha : a.length = q.visible.length) :
    ({ messages := a ++ q.messages.drop q.count, count := q.count } : PendingQueue).messages.length
        = q.messages.length ∧
      ({ messages := a ++ q.messages.drop q.count, count := q.count } : PendingQueue).messages.drop
          q.count = q.messages.drop q.count := by
  refine ⟨?_, (visible_replace q a ha).2⟩
  show (a ++ q.messages.drop q.count).length = q.messages.length
  rw [List.length_append, ha]
  unfold PendingQueue.visible
  rw [← List.length_append, List.take_append_drop]

/-- Every call other than a successful `pending_queue_add` keeps the count, the size of the
array and the entries from `count` on. -/
theorem queue_step_frame (q : PendingQueue) (op : QueueOp) (h : add_succeeds q op = false) :
    (queue_step q op).count = q.count ∧
      (queue_step q op).messages.length = q.messages.length ∧
      (queue_step q op).messages.drop q.count = q.messages.drop q.count := by
  cases op with
  | add now_s request_id msg_type payload len =>
    by_cases hfull : q.count ≥ MAX_PENDING_MESSAGES
    · have hsame : (pending_queue_add q now_s request_id msg_type payload len).2 = q := by
        simp only [pending_queue_add, if_pos hfull]
      simp only [queue_step, hsame, and_self]
    · exfalso
      have hidx : (pending_queue_add q now_s request_id msg_type payload len).1
          = (q.count : Int) := by
        simp only [pending_queue_add, if_neg hfull]
      simp only [add_succeeds, hidx, decide_eq_false_iff_not, not_not] at h
      omega
  | ack request_id =>
    obtain ⟨h1, h2, _, h4⟩ := pending_queue_ack_frame q request_id
    exact ⟨h1, h2, h4⟩
  | increment_retry request_id =>
    have hlen : (modifyFirst (is_pending request_id)
        (fun m => { m with retry_count := (m.retry_count + 1) % 2 ^ 8 }) q.visible).length
        = q.visible.length := modifyFirst_length _ _ _
    obtain ⟨h2, h4⟩ := replace_frame q _ hlen
    simp only [queue_step]
    rw [pending_queue_increment_retry_eq]
    exact ⟨rfl, h2, h4⟩
  | cleanup =>
    have hlen : (q.visible.map
        (fun m => if m.is_active && decide (m.retry_count ≥ MAX_RETRIES)
                  then { m with is_active := false } else m)).length
        = q.visible.length := List.length_map _ _
    obtain ⟨h2, h4⟩ := replace_frame q _ hlen
    exact ⟨rfl, h2, h4⟩
  | get_expired now max_count => exact ⟨rfl, rfl, rfl⟩

/-- Each call keeps the invariant, and moves `count` up by one exactly when it is a successful
`pending_queue_add`. -/
theorem queue_step_inv (q : PendingQueue) (op : QueueOp) (h : QueueInv q) :
    QueueInv (queue_step q op) ∧
      (queue_step q op).count = q.count + (if add_succeeds q op then 1 else 0) := by
  obtain ⟨h1, h2, h3⟩ := h
  cases hs : add_succeeds q op
  · obtain ⟨f1, f2, f3⟩ := queue_step_frame q op hs
    refine ⟨⟨by rw [f2]; exact h1, by rw [f1]; exact h2, ?_⟩, by simp [f1]⟩
    rw [f1, f3]
    exact h3
  · cases op with
    | add now_s request_id msg_type payload len =>
      have hfull : ¬ q.count ≥ MAX_PENDING_MESSAGES := by
        intro hfull
        simp [add_succeeds, pending_queue_add, hfull] at hs
      have hroom : q.count < MAX_PENDING_MESSAGES := not_le.mp hfull
      refine ⟨⟨?_, ?_, ?_⟩, ?_⟩
      · simp only [queue_step, pending_queue_add, if_neg hfull]
        rw [modifyAt_length]
        exact h1
      · simp only [queue_step, pending_queue_add, if_neg hfull]
        exact hroom
      · intro x hx
        simp only [queue_step, pending_queue_add, if_neg hfull] at hx
        rw [drop_modifyAt] at hx
        exact h3 x (mem_drop_succ _ _ _ hx)
      · simp only [queue_step, pending_queue_add, if_neg hfull, if_true]
    | ack request_id => exact Bool.noConfusion hs
    | increment_retry request_id => exact Bool.noConfusion hs
    | cleanup => exact Bool.noConfusion hs
    | get_expired now max_count => exact Bool.noConfusion hs

/-- A sequence of calls keeps the invariant, and moves `count` up by the number of its successful
`pending_queue_add` calls. -/
theorem run_queue_ops_inv (ops : List QueueOp) :
    ∀ q : PendingQueue, QueueInv q →
      QueueInv (run_queue_ops q ops) ∧
        (run_queue_ops q ops).count = q.count + successful_adds q ops := by
  induction ops with
  | nil => intro q h; exact ⟨h, rfl⟩
  | cons op ops ih =>
    intro q h
    obtain ⟨h1, h2⟩ := queue_step_inv q op h
    obtain ⟨h3, h4⟩ := ih (queue_step q op) h1
    refine ⟨h3, ?_⟩
    show (run_queue_ops (queue_step q op) ops).count = _
    rw [h4, h2]
    simp only [successful_adds]
    omega

/-- The queue `pending_queue_init` leaves: no entry counted, every entry inactive. -/
theorem pending_queue_init_inv (q0 : PendingQueue)
    (h0 : q0.messages.length = MAX_PENDING_MESSAGES) :
    QueueInv (pending_queue_init q0) ∧ (pending_queue_init q0).count = 0 := by
  refine ⟨⟨?_, Nat.zero_le _, ?_⟩, rfl⟩
  · simp only [pending_queue_init, List.length_append, List.length_map, List.length_take,
      List.length_drop]
    omega
  · intro m hm
    have hd : q0.messages.drop MAX_PENDING_MESSAGES = [] :=
      List.drop_eq_nil_of_le (le_of_eq h0)
    simp only [pending_queue_init, hd, List.append_nil, List.drop_zero, List.mem_map] at hm
    obtain ⟨x, _, rfl⟩ := hm
    rfl

/-- C23. Starting from `pending_queue_init` on the 100-entry array, after any sequence of queue
calls (add, ack, increment_retry, cleanup, get_expired): `count` is at most 100, every entry at
an index from `count` on is inactive, no further call lowers `count`, and `count` is the number
of successful `pending_queue_add` calls made so far. Hence once 100 adds have succeeded, every
later `pending_queue_add` returns -1 and leaves the queue as it is, whatever calls (acks and
cleanups included) were made in between. -/
theorem C23_pending_slots_never_reclaimed (q0 : PendingQueue)
    (h0 : q0.messages.length = MAX_PENDING_MESSAGES) (ops : List QueueOp) :
    (run_queue_ops (pending_queue_init q0) ops).count ≤ MAX_PENDING_MESSAGES ∧
    (∀ (j : Nat) (m : PendingMessage),
      (run_queue_ops (pending_queue_init q0) ops).count ≤ j →
      (run_queue_ops (pending_queue_init q0) ops).messages[j]? = some m →
        m.is_active = false) ∧
    (∀ op : QueueOp,
      (run_queue_ops (pending_queue_init q0) ops).count
        ≤ (queue_step (run_queue_ops (pending_queue_init q0) ops) op).count) ∧
    (run_queue_ops (pending_queue_init q0) ops).count
      = successful_adds (pending_queue_init q0) ops ∧
    (MAX_PENDING_MESSAGES ≤ successful_adds (pending_queue_init q0) ops →
      ∀ (later : List QueueOp) (now_s request_id msg_type : Nat) (payload : Option (List Nat))
        (len : Nat),
        pending_queue_add (run_queue_ops (run_queue_ops (pending_queue_init q0) ops) later)
            now_s request_id msg_type payload len
          = (-1, run_queue_ops (run_queue_ops (pending_queue_init q0) ops) later)) := by
  obtain ⟨hinit, hzero⟩ := pending_queue_init_inv q0 h0
  obtain ⟨hinv, hcount⟩ := run_queue_ops_inv ops (pending_queue_init q0) hinit
  rw [hzero, Nat.zero_add] at hcount
  refine ⟨hinv.2.1, ?_, ?_, hcount, ?_⟩
  · intro j m hj hm
    apply hinv.2.2 m
    have hget : ((run_queue_ops (pending_queue_init q0) ops).messages.drop
        (run_queue_ops (pending_queue_init q0) ops).count)[j
          - (run_queue_ops (pending_queue_init q0) ops).count]? = some m := by
      rw [List.getElem?_drop, Nat.add_sub_cancel' hj]
      exact hm
    exact List.getElem?_mem hget
  · intro op
    rw [(queue_step_inv _ op hinv).2]
    exact Nat.le_add_right _ _
  · intro hfull later now_s request_id msg_type payload len
    obtain ⟨hinv2, hcount2⟩ :=
      run_queue_ops_inv later (run_queue_ops (pending_queue_init q0) ops) hinv
    have hge : (run_queue_ops (run_queue_ops (pending_queue_init q0) ops) later).count
        ≥ MAX_PENDING_MESSAGES := by
      rw [hcount2, hcount]
      exact le_trans hfull (Nat.le_add_right _ _)
    simp only [pending_queue_add, if_pos hge]

theorem C23_pending_slots_never_reclaimed_witness :
    (List.replicate 100 PendingMessage.zero).length = MAX_PENDING_MESSAGES ∧
    MAX_PENDING_MESSAGES ≤ successful_adds
        (pending_queue_init { messages := List.replicate 100 PendingMessage.zero, count := 7 })
        (List.replicate 100 (QueueOp.add 5 1 35 none 0)) ∧
    pending_queue_add
        (run_queue_ops
          (run_queue_ops
            (pending_queue_init { messages := List.replicate 100 PendingMessage.zero, count := 7 })
            (List.replicate 100 (QueueOp.add 5 1 35 none 0)))
          [QueueOp.ack 1, QueueOp.cleanup])
        6 2 35 none 0
      = (-1,
        run_queue_ops
          (run_queue_ops
            (pending_queue_init { messages := List.replicate 100 PendingMessage.zero, count := 7 })
            (List.replicate 100 (QueueOp.add 5 1 35 none 0)))
          [QueueOp.ack 1, QueueOp.cleanup]) :=
  ⟨List.length_replicate _ _, by decide,
    (C23_pending_slots_never_reclaimed
      { messages := List.replicate 100 PendingMessage.zero, count := 7 }
      (List.length_replicate _ _)
      (List.replicate 100 (QueueOp.add 5 1 35 none 0))).2.2.2.2 (by decide)
      [QueueOp.ack 1, QueueOp.cleanup] 6 2 35 none 0⟩

/-! ## Session state and room membership -/

/-- The session `session_add_client` stores in the slot it returns. -/
theorem session_add_client_fresh (g g1 : SessionManager) (calloc_ok : Bool) (now_s : Nat)
    (sockfd : Int) (slot : Nat)
    (h : session_add_client g calloc_ok now_s sockfd = (some slot, g1)) :
    slot < MAX_CLIENTS ∧
      g1.clients[slot]? = some (some
        { sockfd := sockfd, user_id := 0, username := [], session_token := [],
          current_room_id := -1, state := ClientState.STATE_DISCONNECTED,
          last_heartbeat := now_s }) := by
  cases calloc_ok with
  | false => simp [session_add_client] at h
  | true =>
    simp only [session_add_client, Bool.not_true, Bool.false_eq_true, if_false] at h
    cases hfree : first_free_slot g.clients 0 with
    | none => rw [hfree] at h; simp at h
    | some i =>
      rw [hfree] at h
      simp only [Prod.mk.injEq, Option.some.injEq] at h
      obtain ⟨hi, hg⟩ := h
      subst hi
      subst hg
      obtain ⟨_, hlen, hmax⟩ := first_free_slot_spec g.clients 0 i hfree
      simp only [zero_add] at hlen
      exact ⟨hmax, List.getElem?_set_self hlen⟩

/-- What `session_leave_room_nolock` does to a session. -/
theorem session_leave_room_nolock_some (c : ClientSession) :
    session_leave_room_nolock (some c)
      = if c.current_room_id = -1 then (false, some c)
        else (true, some { c with current_room_id := -1, state := ClientState.STATE_IN_LOBBY }) :=
  rfl

/-- The room fields agree after `session_leave_room_nolock`, whatever they were before. -/
theorem room_consistent_leave (c c1 : ClientSession) (hc : RoomConsistent c)
    (h : (session_leave_room_nolock (some c)).2 = some c1) :
    RoomConsistent c1 ∧ c1.sockfd = c.sockfd ∧ c1.current_room_id = -1 := by
  rw [session_leave_room_nolock_some] at h
  by_cases h1 : c.current_room_id = -1
  · rw [if_pos h1] at h
    have : c = c1 := Option.some.inj h
    subst this
    exact ⟨hc, rfl, h1⟩
  · rw [if_neg h1] at h
    have : _ = c1 := Option.some.inj h
    subst this
    exact ⟨⟨Or.inl rfl, by simp⟩, rfl, rfl⟩

/-- Each call keeps the session, its descriptor, and the agreement of its room fields. -/
theorem session_op_consistent (c : ClientSession) (op : SessionOp) (hc : RoomConsistent c) :
    ∃ c1, (session_op (some c) op).2 = some c1 ∧ c1.sockfd = c.sockfd ∧ RoomConsistent c1 := by
  cases op with
  | join room_id =>
    by_cases hr : room_id ≤ 0
    · exact ⟨c, by simp [session_op, session_join_room, hr], rfl, hc⟩
    · have hpos : 0 < room_id := not_le.mp hr
      refine ⟨{ c with current_room_id := room_id, state := ClientState.STATE_IN_ROOM }, ?_, rfl,
        Or.inr hpos, ?_⟩
      · simp only [session_op]
        rw [session_join_room_some c room_id hpos]
      · constructor
        · intro _ h
          have h2 : room_id = -1 := h
          omega
        · intro _
          rfl
  | leave =>
    by_cases h1 : c.current_room_id = -1
    · exact ⟨c, by simp [session_op, session_leave_room, h1], rfl, hc⟩
    · refine ⟨{ c with current_room_id := -1, state := ClientState.STATE_IN_LOBBY }, ?_, rfl,
        Or.inl rfl, by simp⟩
      simp only [session_op]
      rw [session_leave_room_some c h1]
  | leave_nolock =>
    by_cases h1 : c.current_room_id = -1
    · exact ⟨c, by simp [session_op, session_leave_room_nolock, h1], rfl, hc⟩
    · exact ⟨{ c with current_room_id := -1, state := ClientState.STATE_IN_LOBBY },
        by simp [session_op, session_leave_room_nolock, h1], rfl, Or.inl rfl, by simp⟩

/-- A sequence of calls keeps the session, its descriptor, and the agreement of its room
fields. -/
theorem run_session_ops_consistent (ops : List SessionOp) :
    ∀ c : ClientSession, RoomConsistent c →
      ∃ c1, run_session_ops (some c) ops = some c1 ∧ c1.sockfd = c.sockfd ∧
        RoomConsistent c1 := by
  induction ops with
  | nil => intro c hc; exact ⟨c, rfl, rfl, hc⟩
  | cons op ops ih =>
    intro c hc
    obtain ⟨c1, h1, h2, h3⟩ := session_op_consistent c op hc
    obtain ⟨c2, h4, h5, h6⟩ := ih c1 h3
    refine ⟨c2, ?_, by rw [h5, h2], h6⟩
    show run_session_ops (session_op (some c) op).2 ops = some c2
    rw [h1]
    exact h4

/-- The session `session_remove_client` frees is a session of the table with the descriptor, as
`session_leave_room_nolock` left it. -/
theorem session_remove_client_from_spec (sockfd : Int) (l : List (Option ClientSession)) :
    ∀ (k : Nat) (freed : ClientSession),
      (session_remove_client_from sockfd l k).1 = some freed →
        ∃ s, some s ∈ l ∧ s.sockfd = sockfd ∧
          (session_leave_room_nolock (some s)).2 = some freed := by
  induction l with
  | nil => intro k freed h; exact Option.noConfusion h
  | cons c cs ih =>
    intro k freed h
    by_cases hk : k < MAX_CLIENTS
    · cases c with
      | none =>
        simp only [session_remove_client_from, if_pos hk] at h
        obtain ⟨s, hs, h2⟩ := ih (k + 1) freed h
        exact ⟨s, List.mem_cons_of_mem _ hs, h2⟩
      | some s0 =>
        by_cases hfd : s0.sockfd = sockfd
        · simp only [session_remove_client_from, if_pos hk, if_pos hfd] at h
          exact ⟨s0, List.mem_cons_self _ _, hfd, h⟩
        · simp only [session_remove_client_from, if_pos hk, if_neg hfd] at h
          obtain ⟨s, hs, h2⟩ := ih (k + 1) freed h
          exact ⟨s, List.mem_cons_of_mem _ hs, h2⟩
    · simp only [session_remove_client_from, if_neg hk] at h
      exact Option.noConfusion h

/-- C24. The session `session_add_client` stores has room fields that agree
(`current_room_id` is -1 or positive, and the state is `STATE_IN_ROOM` exactly when it is not
-1), and so has the session after every sequence of `session_join_room`, `session_leave_room`
and `session_leave_room_nolock` calls on it. On that session a join with a room id that is not
positive, and a leave while in no room, return false and leave it unchanged; a join with a
positive room id and a leave while in a room return true. The session `session_remove_client`
frees from a table whose sessions all have agreeing room fields has them too, with
`current_room_id` -1. -/
theorem C24_state_agrees_with_room (g g1 : SessionManager) (calloc_ok : Bool) (now_s : Nat)
    (sockfd : Int) (slot : Nat)
    (h : session_add_client g calloc_ok now_s sockfd = (some slot, g1))
    (ops : List SessionOp) :
    ∃ s0 s : ClientSession,
      g1.clients[slot]? = some (some s0) ∧ RoomConsistent s0 ∧
      run_session_ops (some s0) ops = some s ∧ s.sockfd = sockfd ∧ RoomConsistent s ∧
      (∀ room_id : Int, room_id ≤ 0 → session_join_room (some s) room_id = (false, some s)) ∧
      (s.current_room_id = -1 → session_leave_room (some s) = (false, some s) ∧
        session_leave_room_nolock (some s) = (false, some s)) ∧
      (∀ room_id : Int, 0 < room_id → (session_join_room (some s) room_id).1 = true) ∧
      (s.current_room_id ≠ -1 → (session_leave_room (some s)).1 = true ∧
        (session_leave_room_nolock (some s)).1 = true) ∧
      (∀ (t t1 : SessionManager) (fd : Int) (freed : ClientSession),
        (∀ x, some x ∈ t.clients → RoomConsistent x) →
        session_remove_client t fd = (some freed, t1) →
          RoomConsistent freed ∧ freed.current_room_id = -1 ∧ freed.sockfd = fd) := by
  obtain ⟨_, hslot⟩ := session_add_client_fresh g g1 calloc_ok now_s sockfd slot h
  have hfresh : RoomConsistent
      { sockfd := sockfd, user_id := 0, username := [], session_token := [],
        current_room_id := -1, state := ClientState.STATE_DISCONNECTED,
        last_heartbeat := now_s } := ⟨Or.inl rfl, by simp⟩
  obtain ⟨s, hrun, hfd, hs⟩ := run_session_ops_consistent ops _ hfresh
  refine ⟨_, s, hslot, hfresh, hrun, hfd, hs, ?_, ?_, ?_, ?_, ?_⟩
  · intro room_id hr
    simp [session_join_room, hr]
  · intro h1
    simp [session_leave_room, session_leave_room_nolock, h1]
  · intro room_id hr
    rw [session_join_room_some s room_id hr]
  · intro h1
    simp [session_leave_room, session_leave_room_nolock, h1]
  · intro t t1 fd freed hall hrem
    have hfreed : (session_remove_client_from fd t.clients 0).1 = some freed := by
      unfold session_remove_client at hrem
      cases hr : (session_remove_client_from fd t.clients 0).1 with
      | none =>
        simp only [hr, Prod.mk.injEq] at hrem
        exact Option.noConfusion hrem.1
      | some x =>
        simp only [hr, Prod.mk.injEq, Option.some.injEq] at hrem
        rw [hrem.1]
    obtain ⟨x, hx, hxfd, hleave⟩ := session_remove_client_from_spec fd t.clients 0 freed hfreed
    obtain ⟨c1, c2, c3⟩ := room_consistent_leave x freed (hall x hx) hleave
    exact ⟨c1, c3, by rw [c2, hxfd]⟩

theorem C24_state_agrees_with_room_witness :
    (session_add_client empty_table true 1700000000 5).1 = some 0 ∧
    ∃ s0 s : ClientSession,
      (session_add_client empty_table true 1700000000 5).2.clients[0]? = some (some s0) ∧
        run_session_ops (some s0)
          [SessionOp.join 3, SessionOp.join 0, SessionOp.join 8, SessionOp.leave,
            SessionOp.leave, SessionOp.join 2, SessionOp.leave_nolock] = some s ∧
        s.sockfd = 5 ∧ RoomConsistent s :=
  ⟨by decide,
    match C24_state_agrees_with_room empty_table
      (session_add_client empty_table true 1700000000 5).2 true 1700000000 5 0
      (Prod.ext (by decide) rfl)
      [SessionOp.join 3, SessionOp.join 0, SessionOp.join 8, SessionOp.leave,
        SessionOp.leave, SessionOp.join 2, SessionOp.leave_nolock] with
    | ⟨s0, s, h1, _, h3, h4, h5, _⟩ => ⟨s0, s, h1, h3, h4, h5⟩⟩

/-- Removing the descriptor of `demo_session` from a two-slot table: the session is freed after
leaving room 3, its slot is emptied and the counter goes down by one. -/
theorem session_remove_client_demo :
    session_remove_client { clients := [none, some demo_session], client_count := 1 } 4
      = (some { demo_session with current_room_id := -1, state := ClientState.STATE_IN_LOBBY },
        { clients := [none, none], client_count := 0 }) ∧
    session_remove_client { clients := [none, some demo_session], client_count := 1 } 9
      = (none, { clients := [none, some demo_session], client_count := 1 }) := by
  constructor <;> decide

end Auction
